import Mathlib

/-!
# Patriotnode payment voting (`src/patriotnode-payments.cpp`)

A shallow embedding of the payment-vote subsystem: the per-height tally
(`CPatriotnodeBlockPayees`), the vote (`CPatriotnodePaymentWinner`), the three
maps of `CPatriotnodePayments` and the vote pipeline `ProcessPNWinner`; cleanup,
the reward outputs and block assembly, block validation, the persistence file
`CPatriotnodePaymentDB`, the answer to a sync request, the own vote
`ProcessBlock` and the message handler.

Conventions of the embedding
* C++ `int` and `CAmount` are `Int`; heights, counts and amounts stay far from
  the 32/64-bit limits, so no wrap-around is modelled, with two exceptions: the
  count a peer sends with a sync request (`Sync`) and the product of an amount
  with the operator fraction (`GetPatriotnodeTxOuts`) are computed with
  `wrapInt32` and `wrapInt64`.
* `std::map` is an association list kept in key order; `operator[]`, `count`
  and `find` are `mapInsert`, `mapCount` and `mapFind`.
* Collaborators that live outside the file (node manager, deterministic list,
  sync state, signature checks, hashing, script classification) are fields of
  `Env`; network side effects are returned as a list of `Effect`.
-/

namespace PatriotnodePayments

/-! ## Primitive data -/

/-- A script is its byte string (`CScript`). -/
abbrev CScript := List Nat

/-- A 256-bit hash (`uint256`), as a number. -/
abbrev uint256 := Nat

/-- Peer identifier (`CNode::GetId()`). -/
abbrev NodeId := Int

/-- Transaction outpoint (`COutPoint`): funding transaction hash and output index. -/
structure COutPoint where
  hash : uint256
  n : Nat
deriving DecidableEq, Repr

/-- Transaction input (`CTxIn`); only `prevout` identifies a patriotnode. -/
structure CTxIn where
  prevout : COutPoint
  scriptSig : CScript
  nSequence : Nat
deriving DecidableEq, Repr

/-- Transaction output (`CTxOut`). -/
structure CTxOut where
  nValue : Int
  scriptPubKey : CScript
deriving DecidableEq, Repr

/-- The part of `CTransaction` read by the payee checks: its outputs. -/
structure CTransaction where
  vout : List CTxOut
deriving DecidableEq, Repr

/-! ## Fixed-width arithmetic -/

/-- The value a signed 32-bit `int` holds after an operation whose exact result
is `x`: `x` itself when it fits, else `x` reduced modulo `2^32` into
`[-2^31, 2^31)`. Signed overflow is undefined in C++; the compiled code wraps
around. -/
def wrapInt32 (x : Int) : Int := (x + 2147483648) % 4294967296 - 2147483648

/-- The value a signed 64-bit integer (`int64_t`, so `CAmount` of `amount.h`)
holds after an operation whose exact result is `x`: `x` itself when it fits,
else `x` reduced modulo `2^64` into `[-2^63, 2^63)`. -/
def wrapInt64 (x : Int) : Int :=
  (x + 9223372036854775808) % 18446744073709551616 - 9223372036854775808

/-! ## Constants of `patriotnode-payments.h` -/

/-- Modelled from the spec: `PNPAYMENTS_SIGNATURES_REQUIRED` is declared in
`patriotnode-payments.h`, which is not among the sources; the spec fixes the
threshold `REQUIRED_VOTES` at 6 (and the code comments say "require at least 6
signatures"). -/
def PNPAYMENTS_SIGNATURES_REQUIRED : Int := 6

/-- Modelled from the spec: `PNPAYMENTS_SIGNATURES_TOTAL` is declared in
`patriotnode-payments.h`, which is not among the sources; the spec fixes
`QUORUM_SIZE` at 10 (the test speaks of "the top ten"). -/
def PNPAYMENTS_SIGNATURES_TOTAL : Int := 10

/-! ## Ordered maps -/

/-- Lookup in an association list: `std::map::find`. -/
def mapFind {K V : Type} [DecidableEq K] : List (K × V) → K → Option V
  | [], _ => none
  | (k', v) :: rest, k => if k' = k then some v else mapFind rest k

/-- Membership of a key: `std::map::count`. -/
def mapCount {K V : Type} [DecidableEq K] (m : List (K × V)) (k : K) : Bool :=
  (mapFind m k).isSome

/-- Assignment `m[k] = v` on a map ordered by `lt`: an existing key keeps its
position, a new key is inserted before the first larger key. -/
def mapInsert {K V : Type} [DecidableEq K] (lt : K → K → Bool) :
    List (K × V) → K → V → List (K × V)
  | [], k, v => [(k, v)]
  | (k', v') :: rest, k, v =>
      if k' = k then (k, v) :: rest
      else if lt k k' then (k, v) :: (k', v') :: rest
      else (k', v') :: mapInsert lt rest k v

/-- Removal of a key: `std::map::erase(key)`. -/
def mapErase {K V : Type} [DecidableEq K] : List (K × V) → K → List (K × V)
  | [], _ => []
  | (k', v) :: rest, k => if k' = k then mapErase rest k else (k', v) :: mapErase rest k

/-- Order of `COutPoint` keys: by hash, then by index. -/
def COutPoint.lt (a b : COutPoint) : Bool :=
  decide (a.hash < b.hash) || (decide (a.hash = b.hash) && decide (a.n < b.n))

/-! ## The per-height tally `CPatriotnodeBlockPayees` -/

/-- One tally entry (`CPatriotnodePayee`): a destination and its vote count. -/
structure CPatriotnodePayee where
  scriptPubKey : CScript
  nVotes : Int
deriving DecidableEq, Repr

/-- The tally of one height (`CPatriotnodeBlockPayees`). -/
structure CPatriotnodeBlockPayees where
  nBlockHeight : Int
  vecPayments : List CPatriotnodePayee
deriving DecidableEq, Repr

/-- Modelled from the spec: `CPatriotnodeBlockPayees::AddPayee` is defined in
`patriotnode-payments.h`, which is not among the sources. Spec 4.2 `add_vote`:
"increments vote_count for that destination, inserting with count 1 if absent"
(here by `nIncrement`); entries are an ordered list, a new one goes last. -/
def addPayeeVec (payeeIn : CScript) (nIncrement : Int) :
    List CPatriotnodePayee → List CPatriotnodePayee
  | [] => [⟨payeeIn, nIncrement⟩]
  | payee :: rest =>
      if payee.scriptPubKey = payeeIn then
        { payee with nVotes := payee.nVotes + nIncrement } :: rest
      else payee :: addPayeeVec payeeIn nIncrement rest

/-- Modelled from the spec: `AddPayee` of the absent header, see `addPayeeVec`. -/
def CPatriotnodeBlockPayees.AddPayee (self : CPatriotnodeBlockPayees) (payeeIn : CScript)
    (nIncrement : Int) : CPatriotnodeBlockPayees :=
  { self with vecPayments := addPayeeVec payeeIn nIncrement self.vecPayments }

/-- Vote count recorded for a destination in a list of entries, if it has an entry. -/
def votesOf (vec : List CPatriotnodePayee) (script : CScript) : Option Int :=
  (vec.find? (fun p => decide (p.scriptPubKey = script))).map (fun p => p.nVotes)

/-- First loop of `IsTransactionValid` (lines 586-589): the running `nMaxSignatures`. -/
def maxSignatures (vecPayments : List CPatriotnodePayee) : Int :=
  vecPayments.foldl
    (fun nMaxSignatures payee =>
      if payee.nVotes ≥ nMaxSignatures ∧ payee.nVotes ≥ PNPAYMENTS_SIGNATURES_REQUIRED
      then payee.nVotes else nMaxSignatures)
    0

/-- Inner loop of `IsTransactionValid` (lines 598-607): `found` after scanning
all outputs of the transaction for one tally entry. -/
def foundPayment (vout : List CTxOut) (requiredPatriotnodePayment : Int)
    (payee : CPatriotnodePayee) : Bool :=
  vout.foldl
    (fun found out =>
      if payee.scriptPubKey = out.scriptPubKey then
        (if out.nValue = requiredPatriotnodePayment then true else found)
      else found)
    false

/-- Outer loop of `IsTransactionValid` (lines 597-623): returns at the first
entry with enough votes that is paid; `false` when the loop runs out. -/
def scanPayments (vout : List CTxOut) (requiredPatriotnodePayment : Int) :
    List CPatriotnodePayee → Bool
  | [] => false
  | payee :: rest =>
      let found := foundPayment vout requiredPatriotnodePayment payee
      if payee.nVotes ≥ PNPAYMENTS_SIGNATURES_REQUIRED then
        (if found then true else scanPayments vout requiredPatriotnodePayment rest)
      else scanPayments vout requiredPatriotnodePayment rest

/-- Method `CPatriotnodeBlockPayees::IsTransactionValid` (lines 581-624). The value of
`GetPatriotnodePayment()` (defined outside the file) is the parameter
`requiredPatriotnodePayment`. -/
def CPatriotnodeBlockPayees.IsTransactionValid (self : CPatriotnodeBlockPayees)
    (requiredPatriotnodePayment : Int) (txNew : CTransaction) : Bool :=
  let nMaxSignatures := maxSignatures self.vecPayments
  if nMaxSignatures < PNPAYMENTS_SIGNATURES_REQUIRED then true
  else scanPayments txNew.vout requiredPatriotnodePayment self.vecPayments

/-! ## The vote `CPatriotnodePaymentWinner` -/

/-- Modelled from the spec: the enum `MessageVersion` is declared in
`messagesigner.h`, which is not among the sources; spec 3 gives
`message_version` two values, "legacy / hash-signed". -/
inductive MessageVersion where
  | MESS_VER_STRMESS
  | MESS_VER_HASH
deriving DecidableEq, Repr

/-- A payment vote (`CPatriotnodePaymentWinner`): voter `vinPatriotnode` votes that
height `nBlockHeight` pays `payee`. -/
structure CPatriotnodePaymentWinner where
  vinPatriotnode : CTxIn
  nBlockHeight : Int
  payee : CScript
  nMessVersion : MessageVersion
  vchSig : List Nat
deriving DecidableEq, Repr

/-- Key hash of a legacy patriotnode key (`CKeyID`). -/
abbrev CKeyID := Nat

/-- Operator key of a deterministic patriotnode (`CBLSPublicKey`). -/
abbrev CBLSPublicKey := Nat

/-- The collaborators `ProcessPNWinner` consults, as seen during one call. -/
structure Env where
  /-- Result of `mnodeman.GetBestHeight()`. -/
  GetBestHeight : Int
  /-- Result of `mnodeman.CountEnabled()`. -/
  CountEnabled : Int
  /-- Oracle `mnodeman.GetPatriotnodeRank(vin, height)`. -/
  GetPatriotnodeRank : CTxIn → Int → Int
  /-- Oracle `mnodeman.Find(prevout)`: the key hash `pubKeyPatriotnode.GetID()` of the
  legacy entry, `none` for `nullptr`. -/
  Find : COutPoint → Option CKeyID
  /-- Oracle `deterministicPNManager->GetListAtChainTip().GetPNByCollateral(prevout)`:
  the operator key of the entry, `none` for `nullptr`. -/
  GetPNByCollateral : COutPoint → Option CBLSPublicKey
  /-- Result of `patriotnodeSync.IsSynced()`. -/
  IsSynced : Bool
  /-- Oracle `CScript::IsPayToPublicKeyHash()`. -/
  IsPayToPublicKeyHash : CScript → Bool
  /-- Oracle `winner.CheckSignature(const CBLSPublicKey&)`. -/
  CheckSignatureBLS : CPatriotnodePaymentWinner → CBLSPublicKey → Bool
  /-- Oracle `winner.CheckSignature(const CKeyID&)`. -/
  CheckSignatureKeyID : CPatriotnodePaymentWinner → CKeyID → Bool
  /-- The hash a `CHashWriter` yields after being fed a script, an `int` and an outpoint. -/
  HashWriter : CScript → Int → COutPoint → uint256

/-- Method `CPatriotnodePaymentWinner::GetHash` (lines 151-158): the hash of
`payee`, `nBlockHeight` and `vinPatriotnode.prevout`, in this order. -/
def CPatriotnodePaymentWinner.GetHash (self : CPatriotnodePaymentWinner) (env : Env) : uint256 :=
  env.HashWriter self.payee self.nBlockHeight self.vinPatriotnode.prevout

/-- Modelled from the spec: `CValidationState` is declared in
`consensus/validation.h`, which is not among the sources. Spec 7: "every
rejection carries a short machine-checkable reason string"; a state is valid
until a rejection is recorded on it. -/
structure CValidationState where
  valid : Bool
  strRejectReason : String
deriving DecidableEq, Repr

/-- A default-constructed `CValidationState state;` as every caller passes it. -/
def CValidationState.fresh : CValidationState := ⟨true, ""⟩

/-- Modelled from the spec: accessor `state.IsValid()` of the absent
`consensus/validation.h`, true until a rejection is recorded. -/
def CValidationState.IsValid (self : CValidationState) : Bool := self.valid

/-- Modelled from the spec: accessor `state.GetRejectReason()` of the absent
`consensus/validation.h`, the reason string of the rejection (spec 7). -/
def CValidationState.GetRejectReason (self : CValidationState) : String := self.strRejectReason

/-- Modelled from the spec: `state.Error(reason)` of the absent
`consensus/validation.h` records the rejection reason and leaves the state
invalid; its C++ return value is always `false`. -/
def CValidationState.Error (_self : CValidationState) (strRejectReasonIn : String) :
    CValidationState :=
  ⟨false, strRejectReasonIn⟩

/-- Substring test on character lists: `haystack.find(needle) != npos`. -/
def containsChars (needle : List Char) : List Char → Bool
  | [] => needle.isPrefixOf []
  | c :: rest => needle.isPrefixOf (c :: rest) || containsChars needle rest

/-- Test helper `findStrError` (test file, lines 113-116). -/
def findStrError (state : CValidationState) (str : String) : Bool :=
  containsChars str.data state.GetRejectReason.data

/-- The reason built at line 169:
`strprintf("Patriotnode not in the top %d (%d)", PNPAYMENTS_SIGNATURES_TOTAL, n)`. -/
def notInTopMessage (n : Int) : String :=
  "Patriotnode not in the top " ++ toString PNPAYMENTS_SIGNATURES_TOTAL ++ " (" ++ toString n ++ ")"

/-- Method `CPatriotnodePaymentWinner::IsValid` (lines 165-178). Returns the C++ result
and the validation state after the call. Neither `pnode` nor `chainHeight` is read. -/
def CPatriotnodePaymentWinner.IsValid (self : CPatriotnodePaymentWinner) (env : Env)
    (_pnode : Option NodeId) (state : CValidationState) (_chainHeight : Int) :
    Bool × CValidationState :=
  let n := env.GetPatriotnodeRank self.vinPatriotnode (self.nBlockHeight - 100)
  if n < 1 ∨ n > PNPAYMENTS_SIGNATURES_TOTAL then
    (false, state.Error (notInTopMessage n))
  else if ¬ (env.IsPayToPublicKeyHash self.payee = true) then
    (false, state.Error "payee must be a P2PKH")
  else (true, state)

/-! ## The vote store `CPatriotnodePayments` -/

/-- The three maps of `CPatriotnodePayments` and `nLastBlockHeight`. -/
structure CPatriotnodePayments where
  /-- Vote ledger: vote hash to vote. -/
  mapPatriotnodePayeeVotes : List (uint256 × CPatriotnodePaymentWinner)
  /-- Tallies: height to tally. -/
  mapPatriotnodeBlocks : List (Int × CPatriotnodeBlockPayees)
  /-- Anti-replay cursor: voter to the height of its last recorded vote. -/
  mapPatriotnodesLastVote : List (COutPoint × Int)
  nLastBlockHeight : Int
deriving DecidableEq, Repr

/-- The empty store (`Clear()`ed maps). -/
def CPatriotnodePayments.empty : CPatriotnodePayments := ⟨[], [], [], 0⟩

/-- Method `CPatriotnodePayments::CanVote` (lines 823-828). -/
def CPatriotnodePayments.CanVote (self : CPatriotnodePayments) (outPatriotnode : COutPoint)
    (nBlockHeight : Int) : Bool :=
  match mapFind self.mapPatriotnodesLastVote outPatriotnode with
  | none => true
  | some last => decide (last ≠ nBlockHeight)

/-- Method `CPatriotnodePayments::RecordWinnerVote` (lines 830-834). -/
def CPatriotnodePayments.RecordWinnerVote (self : CPatriotnodePayments)
    (outPatriotnode : COutPoint) (nBlockHeight : Int) : CPatriotnodePayments :=
  { self with mapPatriotnodesLastVote :=
      mapInsert COutPoint.lt self.mapPatriotnodesLastVote outPatriotnode nBlockHeight }

/-- Method `CPatriotnodePayments::AddWinningPatriotnode` (lines 562-579): store the vote
under its hash, create the tally of the height if absent, add one vote to the
payee in `mapPatriotnodeBlocks[nBlockHeight]`. -/
def CPatriotnodePayments.AddWinningPatriotnode (self : CPatriotnodePayments) (env : Env)
    (winnerIn : CPatriotnodePaymentWinner) : CPatriotnodePayments :=
  let votes := mapInsert (fun a b => decide (a < b)) self.mapPatriotnodePayeeVotes
    (winnerIn.GetHash env) winnerIn
  let blocks :=
    if mapCount self.mapPatriotnodeBlocks winnerIn.nBlockHeight = true then self.mapPatriotnodeBlocks
    else mapInsert (fun a b => decide (a < b)) self.mapPatriotnodeBlocks winnerIn.nBlockHeight
      ⟨winnerIn.nBlockHeight, []⟩
  let entry := (mapFind blocks winnerIn.nBlockHeight).getD ⟨0, []⟩
  { self with
    mapPatriotnodePayeeVotes := votes
    mapPatriotnodeBlocks :=
      mapInsert (fun a b => decide (a < b)) blocks winnerIn.nBlockHeight
        (entry.AddPayee winnerIn.payee 1) }

/-- Calls into the network layer and the sync state made by `ProcessPNWinner`. -/
inductive Effect where
  /-- Penalty `Misbehaving(pfrom->GetId(), howmuch)`. -/
  | Misbehaving (peer : NodeId) (howmuch : Int)
  /-- Request `mnodeman.AskForPN(pfrom, vin)`. -/
  | AskForPN (peer : NodeId) (vin : CTxIn)
  /-- Relay `winner.Relay()`: the inventory item of the vote hash is relayed. -/
  | RelayInv (hash : uint256)
  /-- Call `patriotnodeSync.AddedPatriotnodeWinner(hash)`. -/
  | AddedPatriotnodeWinner (hash : uint256)
deriving DecidableEq, Repr

/-- Outcome of one `ProcessPNWinner` call: the returned flag, the validation
state, the store and the calls made, in order. -/
structure PNWResult where
  ret : Bool
  state : CValidationState
  payments : CPatriotnodePayments
  effects : List Effect
deriving DecidableEq, Repr

/-- The lower end of the vote window (line 458):
`int nFirstBlock = nHeight - (mnodeman.CountEnabled() * 1.25);`.
The right-hand side is a `double`; for 32-bit operands it is the exact rational
`(4 * nHeight - 5 * count) / 4`, and the conversion to `int` truncates toward zero. -/
def nFirstBlock (nHeight countEnabled : Int) : Int :=
  Int.tdiv (4 * nHeight - 5 * countEnabled) 4

/-- The part of `ProcessPNWinner` from the exclusivity assertion on (lines 485-526), with the
two resolutions `dmn` and `pmn` as found. `none` is a failed `assert`. -/
def ProcessPNWinnerResolved (env : Env) (self : CPatriotnodePayments)
    (winner : CPatriotnodePaymentWinner) (pfrom : Option NodeId) (state : CValidationState)
    (dmn : Option CBLSPublicKey) (pmn : Option CKeyID) : Option PNWResult :=
  let nHeight := env.GetBestHeight
  if ((dmn.isSome && !pmn.isSome) || (!dmn.isSome && pmn.isSome)) = false then none
  else
    let checked := winner.IsValid env pfrom state nHeight
    if checked.1 = false then some ⟨false, checked.2, self, []⟩
    else if self.CanVote winner.vinPatriotnode.prevout winner.nBlockHeight = false then
      some ⟨false, checked.2.Error "PN already voted", self, []⟩
    else
      let is_valid_sig :=
        match dmn with
        | some pubKeyOperator => env.CheckSignatureBLS winner pubKeyOperator
        | none =>
          match pmn with
          | some pubKeyPatriotnodeID => env.CheckSignatureKeyID winner pubKeyPatriotnodeID
          | none => false
      if is_valid_sig = false then
        some ⟨false, checked.2.Error "invalid voter mnwinner signature", self,
          match pfrom with
          | some peer => [Effect.Misbehaving peer 20]
          | none => []⟩
      else
        let recorded := self.RecordWinnerVote winner.vinPatriotnode.prevout winner.nBlockHeight
        let added := recorded.AddWinningPatriotnode env winner
        some ⟨true, checked.2, added,
          (if env.IsSynced = true then [Effect.RelayInv (winner.GetHash env)] else [])
            ++ [Effect.AddedPatriotnodeWinner (winner.GetHash env)]⟩

/-- Method `CPatriotnodePayments::ProcessPNWinner` (lines 448-526). `pfrom` is `none`
for a null peer. `none` as result is a failed `assert`. -/
def CPatriotnodePayments.ProcessPNWinner (self : CPatriotnodePayments) (env : Env)
    (winner : CPatriotnodePaymentWinner) (pfrom : Option NodeId) (state : CValidationState) :
    Option PNWResult :=
  let nHeight := env.GetBestHeight
  if mapCount self.mapPatriotnodePayeeVotes (winner.GetHash env) = true then
    some ⟨false, state, self, [Effect.AddedPatriotnodeWinner (winner.GetHash env)]⟩
  else if winner.nBlockHeight < nFirstBlock nHeight env.CountEnabled
      ∨ winner.nBlockHeight > nHeight + 20 then
    some ⟨false, state.Error "block height out of range", self, []⟩
  else if winner.nMessVersion ≠ MessageVersion.MESS_VER_HASH then
    some ⟨false, state.Error "mnw old message version", self, []⟩
  else
    match env.GetPNByCollateral winner.vinPatriotnode.prevout with
    | some dmn => ProcessPNWinnerResolved env self winner pfrom state (some dmn) none
    | none =>
      match env.Find winner.vinPatriotnode.prevout with
      | none =>
        some ⟨false, state.Error "Non-existent mnwinner voter", self,
          match pfrom with
          | some peer => if env.IsSynced = true then [Effect.AskForPN peer winner.vinPatriotnode] else []
          | none => []⟩
      | some pmn => ProcessPNWinnerResolved env self winner pfrom state none (some pmn)

/-! ## Observations used in the statements -/

/-- Vote count of a destination in the tally of a height, if both exist. -/
def tallyVotes (blocks : List (Int × CPatriotnodeBlockPayees)) (nBlockHeight : Int)
    (script : CScript) : Option Int :=
  (mapFind blocks nBlockHeight).bind (fun blockPayees => votesOf blockPayees.vecPayments script)

/-- The voter of a vote resolves in the deterministic list or in the legacy list
(lines 471-476). -/
def voterResolves (env : Env) (winner : CPatriotnodePaymentWinner) : Bool :=
  (env.GetPNByCollateral winner.vinPatriotnode.prevout).isSome ||
    (env.Find winner.vinPatriotnode.prevout).isSome

/-- The signature check of lines 500-501 for the resolution of lines 471-476:
against the operator key when the voter is deterministic, else against the
legacy key hash. -/
def signatureValid (env : Env) (winner : CPatriotnodePaymentWinner) : Bool :=
  match env.GetPNByCollateral winner.vinPatriotnode.prevout with
  | some pubKeyOperator => env.CheckSignatureBLS winner pubKeyOperator
  | none =>
    match env.Find winner.vinPatriotnode.prevout with
    | some pubKeyPatriotnodeID => env.CheckSignatureKeyID winner pubKeyPatriotnodeID
    | none => false

/-- The store after feeding votes one by one to `ProcessPNWinner` (no peer, a
fresh validation state each time, as the unit test does); the flags returned are
collected in order. -/
def processVotes (env : Env) :
    CPatriotnodePayments → List CPatriotnodePaymentWinner → Option (CPatriotnodePayments × List Bool)
  | self, [] => some (self, [])
  | self, winner :: rest =>
    match self.ProcessPNWinner env winner none CValidationState.fresh with
    | none => none
    | some r =>
      match processVotes env r.payments rest with
      | none => none
      | some (final, flags) => some (final, r.ret :: flags)

/-- An environment for worked examples: best height `tip`, `count` enabled
nodes, a synced node; every voter is a legacy patriotnode with key hash 7 whose
rank is the hash of its collateral outpoint; every script counts as P2PKH; a
signature is valid when it is non-empty; the vote hash separates the votes used
in the examples. -/
def exampleEnv (tip count : Int) : Env where
  GetBestHeight := tip
  CountEnabled := count
  GetPatriotnodeRank := fun vin _ => vin.prevout.hash
  Find := fun _ => some 7
  GetPNByCollateral := fun _ => none
  IsSynced := true
  IsPayToPublicKeyHash := fun _ => true
  CheckSignatureBLS := fun _ _ => false
  CheckSignatureKeyID := fun winner _ => !winner.vchSig.isEmpty
  HashWriter := fun payee nBlockHeight prevout =>
    payee.sum + 1000 * nBlockHeight.toNat + 1000000 * prevout.hash

/-- A signed hash-version vote by the voter with collateral hash `voter`, for the examples. -/
def exampleVote (voter : Nat) (nBlockHeight : Int) (payee : CScript) : CPatriotnodePaymentWinner :=
  ⟨⟨⟨voter, 0⟩, [], 0⟩, nBlockHeight, payee, MessageVersion.MESS_VER_HASH, [1]⟩

/-- The byte pattern of a pay-to-public-key-hash script, for the examples:
25 bytes `OP_DUP OP_HASH160 0x14 <20 bytes> OP_EQUALVERIFY OP_CHECKSIG`. -/
def exampleIsP2PKH (script : CScript) : Bool :=
  script.length == 25 && script[0]? == some 0x76 && script[1]? == some 0xa9 &&
    script[2]? == some 0x14 && script[23]? == some 0x88 && script[24]? == some 0xac

/-- The environment `exampleEnv` with scripts classified by `exampleIsP2PKH`. -/
def exampleEnvScripts (tip count : Int) : Env :=
  { exampleEnv tip count with IsPayToPublicKeyHash := exampleIsP2PKH }

/-- A pay-to-public-key-hash script whose 20 hash bytes are all `b`, for the examples. -/
def exampleP2PKH (b : Nat) : CScript :=
  [0x76, 0xa9, 0x14] ++ List.replicate 20 b ++ [0x88, 0xac]

/-- The entries of the tally of a height, in order; empty when the height has no tally. -/
def tallyEntries (blocks : List (Int × CPatriotnodeBlockPayees)) (nBlockHeight : Int) :
    List CPatriotnodePayee :=
  match mapFind blocks nBlockHeight with
  | some blockPayees => blockPayees.vecPayments
  | none => []

/-! ## Cleanup `CleanPaymentList` -/

/-- The retention limit of line 694, `std::max(int(mnCount * 1.25), 1000)`: the
product is an exact `double` (a multiple of 1/4) and the conversion to `int`
truncates toward zero. -/
def cleanLimit (mnCount : Int) : Int :=
  max (Int.tdiv (5 * mnCount) 4) 1000

/-- The loop of `CleanPaymentList` (lines 696-708) over the ledger entries still
to visit: an entry more than `nLimit` below `nHeight` is erased from the ledger
and the tally of its height is erased. (The erase on
`patriotnodeSync.mapSeenSyncPNW` acts on another object and is left out.) -/
def cleanPaymentLoop (nHeight nLimit : Int) :
    List (uint256 × CPatriotnodePaymentWinner) → CPatriotnodePayments → CPatriotnodePayments
  | [], self => self
  | (hash, winner) :: rest, self =>
    if nHeight - winner.nBlockHeight > nLimit then
      cleanPaymentLoop nHeight nLimit rest
        { self with
          mapPatriotnodePayeeVotes := mapErase self.mapPatriotnodePayeeVotes hash
          mapPatriotnodeBlocks := mapErase self.mapPatriotnodeBlocks winner.nBlockHeight }
    else cleanPaymentLoop nHeight nLimit rest self

/-- Method `CPatriotnodePayments::CleanPaymentList` (lines 689-709): the loop
runs over the ledger from `begin()` to `end()`. -/
def CPatriotnodePayments.CleanPaymentList (self : CPatriotnodePayments) (mnCount nHeight : Int) :
    CPatriotnodePayments :=
  cleanPaymentLoop nHeight (cleanLimit mnCount) self.mapPatriotnodePayeeVotes self

/-- Number of ledger votes for a height and a destination. -/
def ledgerVotes (votes : List (uint256 × CPatriotnodePaymentWinner)) (nBlockHeight : Int)
    (script : CScript) : Nat :=
  (votes.filter (fun e => decide (e.2.nBlockHeight = nBlockHeight ∧ e.2.payee = script))).length

/-- A call on the store: a `ProcessPNWinner` call with its vote, peer, validation
state and the collaborators as they answer during that call, or a
`CleanPaymentList` call with its arguments. -/
inductive StoreCall where
  | vote (env : Env) (winner : CPatriotnodePaymentWinner) (pfrom : Option NodeId)
      (state : CValidationState)
  | clean (mnCount nHeight : Int)

/-- The store after a sequence of calls; `none` if an assertion failed on the way. -/
def runCalls : CPatriotnodePayments → List StoreCall → Option CPatriotnodePayments
  | self, [] => some self
  | self, StoreCall.vote env winner pfrom state :: rest =>
    match self.ProcessPNWinner env winner pfrom state with
    | none => none
    | some r => runCalls r.payments rest
  | self, StoreCall.clean mnCount nHeight :: rest =>
    runCalls (self.CleanPaymentList mnCount nHeight) rest

/-- Consistency of tallies and ledger: the ledger keys are distinct, the count of
a destination in the tally of a height is the number of ledger votes for that
height and destination (no entry when there is none), and a height has a tally
exactly when it has a ledger vote. -/
def storeConsistent (s : CPatriotnodePayments) : Prop :=
  (s.mapPatriotnodePayeeVotes.map Prod.fst).Nodup ∧
  (∀ nBlockHeight script,
    tallyVotes s.mapPatriotnodeBlocks nBlockHeight script =
      if ledgerVotes s.mapPatriotnodePayeeVotes nBlockHeight script = 0 then none
      else some (ledgerVotes s.mapPatriotnodePayeeVotes nBlockHeight script : Int)) ∧
  (∀ nBlockHeight,
    mapCount s.mapPatriotnodeBlocks nBlockHeight = true ↔
      ∃ e ∈ s.mapPatriotnodePayeeVotes, e.2.nBlockHeight = nBlockHeight)

/-- The votes of the unit test (lines 218-232) as calls: at best height 103 the
voters ranked 1 to 6 vote `[5]` and the voters ranked 7 to 10 vote `[6]` for
height 104. -/
def exampleTenVotes : List StoreCall :=
  ([1, 2, 3, 4, 5, 6].map (fun voter =>
      StoreCall.vote (exampleEnv 103 40) (exampleVote voter 104 [5]) none CValidationState.fresh))
    ++ ([7, 8, 9, 10].map (fun voter =>
      StoreCall.vote (exampleEnv 103 40) (exampleVote voter 104 [6]) none CValidationState.fresh))

/-! ## Reward splitting `SubtractMnPaymentFromCoinstake` -/

/-- The part of `CMutableTransaction` written by the payee code: its outputs. -/
structure CMutableTransaction where
  vout : List CTxOut
deriving DecidableEq, Repr

/-- Statement `vout[j].nValue -= amount`; `none` when `j` is not an index of `vout`. -/
def subtractAt (vout : List CTxOut) (j : Nat) (amount : Int) : Option (List CTxOut) :=
  match vout[j]? with
  | none => none
  | some out => some (vout.set j { out with nValue := out.nValue - amount })

/-- The loop of lines 353-355 from index `j` on, with `n` iterations left:
`vout[j].nValue -= mnPaymentSplit` for each index. -/
def subtractLoop (mnPaymentSplit : Int) : Nat → Nat → List CTxOut → Option (List CTxOut)
  | _, 0, vout => some vout
  | j, n + 1, vout =>
    match subtractAt vout j mnPaymentSplit with
    | none => none
    | some vout1 => subtractLoop mnPaymentSplit (j + 1) n vout1

/-- Function `SubtractMnPaymentFromCoinstake` (lines 341-359). `CAmount` division
truncates toward zero. `none` is a failed `assert` or an index outside `vout`. -/
def SubtractMnPaymentFromCoinstake (txCoinstake : CMutableTransaction)
    (patriotnodePayment : Int) (stakerOuts : Int) : Option CMutableTransaction :=
  if stakerOuts < 2 then none
  else if stakerOuts = 2 then
    (subtractAt txCoinstake.vout 1 patriotnodePayment).map CMutableTransaction.mk
  else
    let outputs : Nat := (stakerOuts - 1).toNat
    let mnPaymentSplit := Int.tdiv patriotnodePayment outputs
    let mnPaymentRemainder := patriotnodePayment - mnPaymentSplit * outputs
    match subtractLoop mnPaymentSplit 1 outputs txCoinstake.vout with
    | none => none
    | some vout1 => (subtractAt vout1 outputs mnPaymentRemainder).map CMutableTransaction.mk

/-- The amount the split takes from output `i` of a coinstake with `stakerOuts`
pre-existing outputs, in the words of the spec: the quotient of the payment by
`stakerOuts - 1` from each of the outputs 1 to `stakerOuts - 2`, quotient plus
remainder from output `stakerOuts - 1`, nothing from any other output. -/
def splitShare (patriotnodePayment stakerOuts : Int) (i : Nat) : Int :=
  if 1 ≤ (i : Int) ∧ (i : Int) ≤ stakerOuts - 2 then patriotnodePayment / (stakerOuts - 1)
  else if (i : Int) = stakerOuts - 1 then
    patriotnodePayment / (stakerOuts - 1) + patriotnodePayment % (stakerOuts - 1)
  else 0

/-- Sum of the output values of a transaction (`GetValueOut`). -/
def valueOut (vout : List CTxOut) : Int :=
  (vout.map (fun out => out.nValue)).sum

/-! ## Reward outputs, block assembly and block validation -/

/-- The fields of `CBlockIndex` read by the payee code. -/
structure CBlockIndex where
  nHeight : Int
  hash : uint256
deriving DecidableEq, Repr

/-- The payee entry of the deterministic list as read at lines 299-312: the
operator fraction `nOperatorReward` in basis points and the two payout scripts
of `pdmnState`. -/
structure DmnPayee where
  nOperatorReward : Nat
  scriptOperatorPayout : CScript
  scriptPayout : CScript
deriving DecidableEq, Repr

/-- Verdict of the budget check (`TrxValidationStatus`), with the four values
named at lines 230-262. -/
inductive TrxValidationStatus where
  | InValid
  | Valid
  | DoublePayment
  | VoteThreshold
deriving DecidableEq, Repr

/-- The collaborators of the reward and block-validation functions, as they
answer during one call. -/
structure ChainEnv where
  /-- Result of `patriotnodeSync.IsSynced()`. -/
  IsSynced : Bool
  /-- Oracle `deterministicPNManager->LegacyPNObsolete(nHeight)`. -/
  LegacyPNObsolete : Int → Bool
  /-- Result of `GetPatriotnodePayment()`. -/
  GetPatriotnodePayment : Int
  /-- Oracle `deterministicPNManager->GetListForBlock(pindexPrev).GetPNPayee()`,
  `none` for a null payee. -/
  GetPNPayee : CBlockIndex → Option DmnPayee
  /-- Oracle for lines 328-331: the payee script of
  `mnodeman.GetCurrentPatriotNode(mnodeman.GetHashAtHeight(h))`, `none` when no node
  is returned. -/
  GetCurrentPatriotNodePayee : Int → Option CScript
  /-- Oracle `NetworkUpgradeActive(nHeight, Consensus::UPGRADE_V6_0)`. -/
  UpgradeV6Active : Int → Bool
  /-- Oracle `NetworkUpgradeActive(nHeight, Consensus::UPGRADE_POS)`. -/
  UpgradePosActive : Int → Bool
  /-- Oracle `GetBlockValue(nHeight)`. -/
  GetBlockValue : Int → Int
  /-- Result of `sporkManager.IsSporkActive(SPORK_8_PATRIOTNODE_PAYMENT_ENFORCEMENT)`. -/
  Spork8Active : Bool
  /-- Result of `sporkManager.IsSporkActive(SPORK_9_PATRIOTNODE_BUDGET_ENFORCEMENT)`. -/
  Spork9Active : Bool
  /-- Result of `sporkManager.IsSporkActive(SPORK_13_ENABLE_SUPERBLOCKS)`. -/
  Spork13Active : Bool
  /-- Oracle `g_budgetman.IsBudgetPaymentBlock(nBlockHeight)`. -/
  IsBudgetPaymentBlock : Int → Bool
  /-- Oracle `g_budgetman.IsTransactionValid(txNew, blockHash, nBlockHeight)`. -/
  BudgetIsTransactionValid : CTransaction → uint256 → Int → TrxValidationStatus

/-- Modelled from the spec: `CPatriotnodeBlockPayees::GetPayee` is defined in
`patriotnode-payments.h`, which is not among the sources. The spec calls it the
"legacy winner lookup" of a height, and the unit test requires of it that the
destination of a single vote is paid (lines 201-210) and that "the most voted
one is the one being paid" (lines 257-259): the entry with the most votes, the
earliest among equals; no payee for a tally without entries. -/
def CPatriotnodeBlockPayees.GetPayee (self : CPatriotnodeBlockPayees) : Option CScript :=
  (self.vecPayments.foldl
    (fun (best : Option CScript × Int) p =>
      if p.nVotes > best.2 then (some p.scriptPubKey, p.nVotes) else best)
    (none, -1)).1

/-- Method `CPatriotnodePayments::GetBlockPayee` (lines 528-536). -/
def CPatriotnodePayments.GetBlockPayee (self : CPatriotnodePayments) (nBlockHeight : Int) :
    Option CScript :=
  match mapFind self.mapPatriotnodeBlocks nBlockHeight with
  | some blockPayees => blockPayees.GetPayee
  | none => none

/-- Method `CPatriotnodePayments::GetLegacyPatriotnodeTxOut` (lines 321-339): the
flag returned and the output list after the call; the incoming list is cleared
first. -/
def CPatriotnodePayments.GetLegacyPatriotnodeTxOut (self : CPatriotnodePayments)
    (env : ChainEnv) (nHeight : Int) (_voutPatriotnodePaymentsRet : List CTxOut) :
    Bool × List CTxOut :=
  match self.GetBlockPayee nHeight with
  | some payee => (true, [⟨env.GetPatriotnodePayment, payee⟩])
  | none =>
    match env.GetCurrentPatriotNodePayee (nHeight - 1) with
    | some payee => (true, [⟨env.GetPatriotnodePayment, payee⟩])
    | none => (false, [])

/-- Method `CPatriotnodePayments::GetPatriotnodeTxOuts` (lines 295-319): the flag
returned and the output list after the call. The product of line 305 and the
difference of line 306 are 64-bit `CAmount` operations; `CAmount` division
truncates toward zero. -/
def CPatriotnodePayments.GetPatriotnodeTxOuts (self : CPatriotnodePayments) (env : ChainEnv)
    (pindexPrev : CBlockIndex) (voutPatriotnodePaymentsRet : List CTxOut) :
    Bool × List CTxOut :=
  if env.LegacyPNObsolete (pindexPrev.nHeight + 1) = true then
    match env.GetPNPayee pindexPrev with
    | none => (false, voutPatriotnodePaymentsRet)
    | some dmnPayee =>
      let operatorReward : Int :=
        if dmnPayee.nOperatorReward ≠ 0 ∧ dmnPayee.scriptOperatorPayout ≠ [] then
          Int.tdiv (wrapInt64 (env.GetPatriotnodePayment * dmnPayee.nOperatorReward)) 10000
        else 0
      let patriotnodeReward : Int :=
        if dmnPayee.nOperatorReward ≠ 0 ∧ dmnPayee.scriptOperatorPayout ≠ [] then
          wrapInt64 (env.GetPatriotnodePayment - operatorReward)
        else env.GetPatriotnodePayment
      let vout1 :=
        if patriotnodeReward > 0 then
          voutPatriotnodePaymentsRet ++ [⟨patriotnodeReward, dmnPayee.scriptPayout⟩]
        else voutPatriotnodePaymentsRet
      let vout2 :=
        if operatorReward > 0 then vout1 ++ [⟨operatorReward, dmnPayee.scriptOperatorPayout⟩]
        else vout1
      (true, vout2)
  else self.GetLegacyPatriotnodeTxOut env (pindexPrev.nHeight + 1) voutPatriotnodePaymentsRet

/-- Statement `vout[j].nValue = value`; `none` when `j` is not an index of `vout`. -/
def assignAt (vout : List CTxOut) (j : Nat) (value : Int) : Option (List CTxOut) :=
  match vout[j]? with
  | none => none
  | some out => some (vout.set j { out with nValue := value })

/-- The loop of lines 378-389: each reward output is appended to the coinstake
or to the coinbase and its value added to `patriotnodePayment`. The result is
coinbase, coinstake and the payment. -/
def appendMnOuts (fPayCoinstake : Bool) :
    List CTxOut → CMutableTransaction × CMutableTransaction × Int →
      CMutableTransaction × CMutableTransaction × Int
  | [], acc => acc
  | mnOut :: rest, (txCoinbase, txCoinstake, patriotnodePayment) =>
    if fPayCoinstake = true then
      appendMnOuts fPayCoinstake rest
        (txCoinbase, ⟨txCoinstake.vout ++ [mnOut]⟩, patriotnodePayment + mnOut.nValue)
    else
      appendMnOuts fPayCoinstake rest
        (⟨txCoinbase.vout ++ [mnOut]⟩, txCoinstake, patriotnodePayment + mnOut.nValue)

/-- Method `CPatriotnodePayments::FillBlockPayee` (lines 361-397): coinbase and
coinstake after the call. `none` is a failed `assert` or an index outside `vout`. -/
def CPatriotnodePayments.FillBlockPayee (self : CPatriotnodePayments) (env : ChainEnv)
    (txCoinbase txCoinstake : CMutableTransaction) (pindexPrev : CBlockIndex)
    (fProofOfStake : Bool) : Option (CMutableTransaction × CMutableTransaction) :=
  let resolved := self.GetPatriotnodeTxOuts env pindexPrev []
  if resolved.1 = false then some (txCoinbase, txCoinstake)
  else
    let nHeight := pindexPrev.nHeight + 1
    let fPayCoinstake := fProofOfStake && !env.UpgradeV6Active nHeight
    let txCoinbase1 : CMutableTransaction :=
      if (fProofOfStake && !fPayCoinstake) = true then ⟨[]⟩ else txCoinbase
    let initial_cstake_outs : Int := txCoinstake.vout.length
    let filled := appendMnOuts fPayCoinstake resolved.2 (txCoinbase1, txCoinstake, 0)
    if fProofOfStake = true then
      (SubtractMnPaymentFromCoinstake filled.2.1 filled.2.2 initial_cstake_outs).map
        (fun txCoinstake2 => (filled.1, txCoinstake2))
    else
      (assignAt filled.1.vout 0 (env.GetBlockValue nHeight - filled.2.2)).map
        (fun vout => (⟨vout⟩, filled.2.1))

/-- The loop of lines 665-674: every expected output occurs among the outputs of
the transaction (`std::find` with `CTxOut` equality). -/
def allOutsFound (vout : List CTxOut) : List CTxOut → Bool
  | [] => true
  | o :: rest => if o ∈ vout then allOutsFound vout rest else false

/-- Method `CPatriotnodePayments::IsTransactionValid` (lines 655-687). -/
def CPatriotnodePayments.IsTransactionValid (self : CPatriotnodePayments) (env : ChainEnv)
    (txNew : CTransaction) (pindexPrev : CBlockIndex) : Bool :=
  let nBlockHeight := pindexPrev.nHeight + 1
  if env.LegacyPNObsolete nBlockHeight = true then
    let resolved := self.GetPatriotnodeTxOuts env pindexPrev []
    if resolved.1 = false then true
    else allOutsFound txNew.vout resolved.2
  else
    match mapFind self.mapPatriotnodeBlocks nBlockHeight with
    | some blockPayees => blockPayees.IsTransactionValid env.GetPatriotnodePayment txNew
    | none => true

/-- The fields of `CBlock` read by `IsBlockPayeeValid`: its transactions and its hash. -/
structure CBlock where
  vtx : List CTransaction
  hash : uint256
deriving DecidableEq, Repr

/-- Function `IsBlockPayeeValid` (lines 227-273). `none` when the block lacks the
transaction `vtx[1]` or `vtx[0]` that is read. -/
def IsBlockPayeeValid (env : ChainEnv) (payments : CPatriotnodePayments) (block : CBlock)
    (pindexPrev : CBlockIndex) : Option Bool :=
  let nBlockHeight := pindexPrev.nHeight + 1
  if env.IsSynced = false then some true
  else
    let fPayCoinstake := env.UpgradePosActive nBlockHeight && !env.UpgradeV6Active nBlockHeight
    match (if fPayCoinstake = true then block.vtx[1]? else block.vtx[0]?) with
    | none => none
    | some txNew =>
      let budgetRuns := env.Spork13Active && env.IsBudgetPaymentBlock nBlockHeight
      let transactionStatus :=
        if budgetRuns = true then env.BudgetIsTransactionValid txNew block.hash nBlockHeight
        else TrxValidationStatus.InValid
      if budgetRuns = true ∧ transactionStatus = TrxValidationStatus.Valid then some true
      else if budgetRuns = true ∧ transactionStatus = TrxValidationStatus.InValid
          ∧ env.Spork9Active = true then some false
      else if payments.IsTransactionValid env txNew pindexPrev = true then some true
      else if env.Spork8Active = true then some false
      else some true

/-- Modelled from the spec: `state.DoS(level, ret, code, reason)` of the absent
`consensus/validation.h` records the rejection with its reason string and leaves
the state invalid; its C++ return value is `ret`. -/
def CValidationState.DoS (_self : CValidationState) (_level : Int) (ret : Bool)
    (_chRejectCode : Nat) (strRejectReasonIn : String) : Bool × CValidationState :=
  (ret, ⟨false, strRejectReasonIn⟩)

/-- Function `IsCoinbaseValueValid` (lines 836-866): the flag returned and the
validation state after the call. `fCoinBase` is `tx->IsCoinBase()`; `none` is the
failed `assert`. `REJECT_INVALID` is 0x10. -/
def IsCoinbaseValueValid (env : ChainEnv) (tx : CTransaction) (fCoinBase : Bool)
    (nBudgetAmt : Int) (state : CValidationState) : Option (Bool × CValidationState) :=
  if fCoinBase = false then none
  else if env.IsSynced = true then
    let nCBaseOutAmt := valueOut tx.vout
    if nBudgetAmt > 0 then
      if nCBaseOutAmt ≠ nBudgetAmt then
        some (state.DoS 100 false 0x10 "bad-superblock-cb-amt")
      else some (true, state)
    else
      let nMnAmt := env.GetPatriotnodePayment
      let sporkEnforced := env.Spork8Active
      if sporkEnforced = true ∧ nCBaseOutAmt ≠ nMnAmt then
        some (state.DoS 100 false 0x10 "bad-cb-amt")
      else if sporkEnforced = false ∧ nCBaseOutAmt > nMnAmt then
        some (state.DoS 100 false 0x10 "bad-cb-amt-spork8-disabled")
      else some (true, state)
  else some (true, state)

/-- Collaborators for the worked examples of block assembly and validation: a
synced node in legacy mode with v6.0 active (rewards are paid in the coinbase),
a patriotnode payment of 3, a block value of 100, all three sporks active, no
budget payment block and no fallback node. -/
def exampleChainEnv : ChainEnv where
  IsSynced := true
  LegacyPNObsolete := fun _ => false
  GetPatriotnodePayment := 3
  GetPNPayee := fun _ => none
  GetCurrentPatriotNodePayee := fun _ => none
  UpgradeV6Active := fun _ => true
  UpgradePosActive := fun _ => true
  GetBlockValue := fun _ => 100
  Spork8Active := true
  Spork9Active := true
  Spork13Active := true
  IsBudgetPaymentBlock := fun _ => false
  BudgetIsTransactionValid := fun _ _ _ => TrxValidationStatus.InValid

/-- Collaborators for the worked example of the deterministic reward outputs:
as `exampleChainEnv`, with legacy mode obsolete, a payment of 10 and a payee
whose operator receives 2500 basis points on script `[9]`, the owner on `[8]`. -/
def exampleDmnEnv : ChainEnv :=
  { exampleChainEnv with
    LegacyPNObsolete := fun _ => true
    GetPatriotnodePayment := 10
    GetPNPayee := fun _ => some ⟨2500, [9], [8]⟩ }

/-- The store of the unit test after its ten votes for height 104 (lines
218-232): six for `[5]`, four for `[6]`. -/
def exampleTallyStore : CPatriotnodePayments :=
  (runCalls CPatriotnodePayments.empty exampleTenVotes).getD CPatriotnodePayments.empty

/-! ## Persistence `CPatriotnodePaymentDB` -/

/-- What `Sync` sends to the peer and the store it leaves. -/
structure SyncResult where
  /-- The hashes announced with `PushInventory(CInv(MSG_PATRIOTNODE_WINNER, hash))`, in order. -/
  inventory : List uint256
  /-- The count sent with the `SYNCSTATUSCOUNT` message. -/
  nInvCount : Int
  /-- The store after the call. -/
  payments : CPatriotnodePayments
deriving DecidableEq, Repr

/-- The loop of lines 802-810 over the ledger in key order: the hashes pushed so
far and `nInvCount`. The difference `nHeight - nCountNeeded` of line 805 is a
32-bit `int` operation on the count sent by the peer. -/
def syncLoop (env : Env) (nHeight nCountNeeded : Int) :
    List (uint256 × CPatriotnodePaymentWinner) → List uint256 × Int → List uint256 × Int
  | [], acc => acc
  | (_, winner) :: rest, (pushed, nInvCount) =>
    if winner.nBlockHeight ≥ wrapInt32 (nHeight - nCountNeeded)
        ∧ winner.nBlockHeight ≤ nHeight + 20 then
      syncLoop env nHeight nCountNeeded rest (pushed ++ [winner.GetHash env], nInvCount + 1)
    else syncLoop env nHeight nCountNeeded rest (pushed, nInvCount)

/-- Method `CPatriotnodePayments::Sync` (lines 793-812). The product
`CountEnabled() * 1.25` of line 798 is an exact `double` and its conversion to
`int` truncates toward zero. `nCountNeeded` is the 32-bit `int` read from the
message of the peer (line 416); it is lowered to `nCount` and has no lower
bound. -/
def CPatriotnodePayments.Sync (self : CPatriotnodePayments) (env : Env) (_node : NodeId)
    (nCountNeeded : Int) : SyncResult :=
  let nHeight := env.GetBestHeight
  let nCount := Int.tdiv (5 * env.CountEnabled) 4
  let nCountNeeded1 := if nCountNeeded > nCount then nCount else nCountNeeded
  let sent := syncLoop env nHeight nCountNeeded1 self.mapPatriotnodePayeeVotes ([], 0)
  ⟨sent.1, sent.2, self⟩

/-! ## The own vote `ProcessBlock` -/

/-- Legacy signing key of the active patriotnode (`CKey`). -/
abbrev CKey := Nat

/-- Operator secret key of the active patriotnode (`CBLSSecretKey`). -/
abbrev CBLSSecretKey := Nat

/-- The collaborators `ProcessBlock` consults besides those of `Env`, as they
answer during one call. -/
structure BlockEnv where
  /-- Result of `deterministicPNManager->LegacyPNObsolete()`. -/
  LegacyPNObsolete : Bool
  /-- Global `fPatriotNode`: the node runs a patriotnode. -/
  fPatriotNode : Bool
  /-- Oracle `GetActivePatriotnodeKeys(mnVin, mnKey, blsKey)`: `none` when it returns
  false, else the input, the optional legacy key and the operator key it sets. -/
  GetActivePatriotnodeKeys : Option (CTxIn × Option CKey × CBLSSecretKey)
  /-- Oracle `g_budgetman.IsBudgetPaymentBlock(nBlockHeight)`. -/
  IsBudgetPaymentBlock : Int → Bool
  /-- Oracle `mnodeman.GetNextPatriotnodeInQueueForPayment(nBlockHeight, true, nCount)`:
  the payee script of the node returned, `none` for `nullptr`. -/
  GetNextPatriotnodeInQueueForPayment : Int → Option CScript
  /-- Oracle `newWinner.Sign(*mnKey, mnKey->GetPubKey().GetID())`: the signature, `none`
  when signing fails. -/
  SignKey : CPatriotnodePaymentWinner → CKey → Option (List Nat)
  /-- Oracle `newWinner.Sign(blsKey)`: the signature, `none` when signing fails. -/
  SignBLS : CPatriotnodePaymentWinner → CBLSSecretKey → Option (List Nat)

/-- Modelled from the spec: the constructor `CPatriotnodePaymentWinner(vin, height)` and
the method `AddPayee` of the vote are defined in `patriotnode-payments.h`, and `Sign` in
`messagesigner.h`; none is among the sources. Spec 4.3: "build a VoteRecord for
it, sign with this node's operator key": the vote of the voter for the height and
the payee, of the hash-signed version, carrying the signature. -/
def newWinnerSigned (mnVin : CTxIn) (nBlockHeight : Int) (payee : CScript)
    (vchSig : List Nat) : CPatriotnodePaymentWinner :=
  ⟨mnVin, nBlockHeight, payee, MessageVersion.MESS_VER_HASH, vchSig⟩

/-- Method `CPatriotnodePayments::ProcessBlock` (lines 718-791): the store after the
call and the relay made (`newWinner.Relay()`), if any. -/
def CPatriotnodePayments.ProcessBlock (self : CPatriotnodePayments) (benv : BlockEnv)
    (env : Env) (nBlockHeight : Int) : CPatriotnodePayments × List Effect :=
  if benv.LegacyPNObsolete = true then (self, [])
  else if benv.fPatriotNode = false then (self, [])
  else
    match benv.GetActivePatriotnodeKeys with
    | none => (self, [])
    | some (mnVin, mnKey, blsKey) =>
      let n := env.GetPatriotnodeRank mnVin (nBlockHeight - 100)
      if n = -1 then (self, [])
      else if n > PNPAYMENTS_SIGNATURES_TOTAL then (self, [])
      else if nBlockHeight ≤ self.nLastBlockHeight then (self, [])
      else if benv.IsBudgetPaymentBlock nBlockHeight = true then (self, [])
      else if nBlockHeight - 100 > env.GetBestHeight + 1 then (self, [])
      else
        match benv.GetNextPatriotnodeInQueueForPayment nBlockHeight with
        | none => (self, [])
        | some payee =>
          let unsignedWinner := newWinnerSigned mnVin nBlockHeight payee []
          let signature :=
            match mnKey with
            | some key => benv.SignKey unsignedWinner key
            | none => benv.SignBLS unsignedWinner blsKey
          match signature with
          | none => (self, [])
          | some vchSig =>
            let newWinner := newWinnerSigned mnVin nBlockHeight payee vchSig
            let added := self.AddWinningPatriotnode env newWinner
            ({ added with nLastBlockHeight := nBlockHeight },
              [Effect.RelayInv (newWinner.GetHash env)])

/-- The conditions under which `ProcessBlock(nBlockHeight)` reaches line 787 with
the vote of voter `mnVin` for `payee` signed with `vchSig`, in the words of the
checks of lines 723-785: the legacy system is not obsolete, the node runs a
patriotnode whose keys are available, its rank at `nBlockHeight - 100` is
registered and at most `PNPAYMENTS_SIGNATURES_TOTAL`, the height is above
`nLastBlockHeight`, is not a budget payment height and lies at most 101 above
the best height, a next node in the queue exists and signing succeeds. -/
def castsVote (self : CPatriotnodePayments) (benv : BlockEnv) (env : Env)
    (nBlockHeight : Int) (mnVin : CTxIn) (mnKey : Option CKey) (blsKey : CBLSSecretKey)
    (payee : CScript) (vchSig : List Nat) : Prop :=
  benv.LegacyPNObsolete = false ∧ benv.fPatriotNode = true ∧
  benv.GetActivePatriotnodeKeys = some (mnVin, mnKey, blsKey) ∧
  env.GetPatriotnodeRank mnVin (nBlockHeight - 100) ≠ -1 ∧
  env.GetPatriotnodeRank mnVin (nBlockHeight - 100) ≤ PNPAYMENTS_SIGNATURES_TOTAL ∧
  nBlockHeight > self.nLastBlockHeight ∧
  benv.IsBudgetPaymentBlock nBlockHeight = false ∧
  nBlockHeight - 100 ≤ env.GetBestHeight + 1 ∧
  benv.GetNextPatriotnodeInQueueForPayment nBlockHeight = some payee ∧
  (match mnKey with
    | some key => benv.SignKey (newWinnerSigned mnVin nBlockHeight payee []) key
    | none => benv.SignBLS (newWinnerSigned mnVin nBlockHeight payee []) blsKey)
    = some vchSig

/-- A call on the store of a node: one of the calls of `StoreCall`, or
`ProcessBlock`. -/
inductive NodeCall where
  | store (call : StoreCall)
  | block (benv : BlockEnv) (env : Env) (nBlockHeight : Int)

/-- The store after a sequence of calls, with the heights for which `ProcessBlock`
relayed an own vote, in order; `none` if an assertion failed on the way. -/
def runNodeCalls : CPatriotnodePayments → List NodeCall → Option (CPatriotnodePayments × List Int)
  | self, [] => some (self, [])
  | self, NodeCall.store call :: rest =>
    match runCalls self [call] with
    | none => none
    | some s => runNodeCalls s rest
  | self, NodeCall.block benv env nBlockHeight :: rest =>
    let r := self.ProcessBlock benv env nBlockHeight
    match runNodeCalls r.1 rest with
    | none => none
    | some (s, cast) => some (s, if r.2 = [] then cast else nBlockHeight :: cast)

/-- Collaborators for the worked examples of `ProcessBlock`: the node runs the
legacy patriotnode with collateral hash 3 and key 7, signing yields the
signature `[1]`, no height is a budget payment block and the next node in the
queue is paid on `[5]`. -/
def exampleBlockEnv : BlockEnv where
  LegacyPNObsolete := false
  fPatriotNode := true
  GetActivePatriotnodeKeys := some (⟨⟨3, 0⟩, [], 0⟩, some 7, 0)
  IsBudgetPaymentBlock := fun _ => false
  GetNextPatriotnodeInQueueForPayment := fun _ => some [5]
  SignKey := fun _ _ => some [1]
  SignBLS := fun _ _ => none

/-! ## Message handling `ProcessMessagePatriotnodePayments` -/

/-- The fields of the peer `CNode` read by the message handler. -/
structure CNode where
  /-- Result of `pfrom->GetId()`. -/
  id : NodeId
  /-- Field `pfrom->nVersion`. -/
  nVersion : Int
deriving DecidableEq, Repr

/-- A message as the handler sees it: the command `strCommand` with the payload
read from `vRecv`. -/
inductive PaymentsMessage where
  /-- Command `NetMsgType::GETPNWINNERS` with its `nCountNeeded`. -/
  | GETPNWINNERS (nCountNeeded : Int)
  /-- Command `NetMsgType::PNWINNER` with its vote. -/
  | PNWINNER (winner : CPatriotnodePaymentWinner)
  /-- Any other command. -/
  | other
deriving DecidableEq, Repr

/-- The collaborators of the message handler, as they answer during one call. -/
structure MessageEnv where
  /-- Result of `patriotnodeSync.IsBlockchainSynced()`. -/
  IsBlockchainSynced : Bool
  /-- Global `fLiteMode`. -/
  fLiteMode : Bool
  /-- Result of `deterministicPNManager->LegacyPNObsolete()`. -/
  LegacyPNObsolete : Bool
  /-- Result of `Params().NetworkIDString() == CBaseChainParams::MAIN`. -/
  NetworkIsMain : Bool
  /-- Result of `ActiveProtocol()`. -/
  ActiveProtocol : Int
  /-- The collaborators of `Sync` and `ProcessPNWinner`. -/
  voteEnv : Env

/-- The state the message handler works on: the store, and the peers on which
`FulfilledRequest(NetMsgType::GETPNWINNERS)` has been called.
Modelled from the spec: `CNode::HasFulfilledRequest` and `CNode::FulfilledRequest`
are declared in `net.h`, which is not among the sources; spec 4.7: a request is
serviced "at most once per peer", so a request once marked on a peer stays
marked. -/
structure PaymentsNode where
  payments : CPatriotnodePayments
  fulfilledGetWinners : List NodeId
deriving DecidableEq, Repr

/-- Calls made by the message handler. -/
inductive MessageEffect where
  /-- Penalty `Misbehaving(pfrom->GetId(), howmuch)`. -/
  | Misbehaving (peer : NodeId) (howmuch : Int)
  /-- The answer of `Sync(pfrom, nCountNeeded)`: the hashes announced to the peer
  and the count reported to it. -/
  | SyncAnswer (peer : NodeId) (inventory : List uint256) (nInvCount : Int)
  /-- Call `g_connman->RemoveAskFor(hash, MSG_PATRIOTNODE_WINNER)`. -/
  | RemoveAskFor (hash : uint256)
  /-- A call made by `ProcessPNWinner`. -/
  | FromVote (effect : Effect)
deriving DecidableEq, Repr

/-- Method `CPatriotnodePayments::ProcessMessagePatriotnodePayments` (lines 399-446):
the state after the call and the calls made. `none` is a failed `assert` inside
`ProcessPNWinner`. -/
def ProcessMessagePatriotnodePayments (self : PaymentsNode) (menv : MessageEnv)
    (pfrom : CNode) (message : PaymentsMessage) : Option (PaymentsNode × List MessageEffect) :=
  if menv.IsBlockchainSynced = false then some (self, [])
  else if menv.fLiteMode = true then some (self, [])
  else if menv.LegacyPNObsolete = true then some (self, [])
  else
    match message with
    | PaymentsMessage.GETPNWINNERS nCountNeeded =>
      if menv.NetworkIsMain = true ∧ pfrom.id ∈ self.fulfilledGetWinners then
        some (self, [MessageEffect.Misbehaving pfrom.id 20])
      else
        let fulfilled :=
          if pfrom.id ∈ self.fulfilledGetWinners then self.fulfilledGetWinners
          else pfrom.id :: self.fulfilledGetWinners
        let answer := self.payments.Sync menv.voteEnv pfrom.id nCountNeeded
        some (⟨answer.payments, fulfilled⟩,
          [MessageEffect.SyncAnswer pfrom.id answer.inventory answer.nInvCount])
    | PaymentsMessage.PNWINNER winner =>
      if pfrom.nVersion < menv.ActiveProtocol then some (self, [])
      else
        match self.payments.ProcessPNWinner menv.voteEnv winner (some pfrom.id)
            CValidationState.fresh with
        | none => none
        | some r =>
          some ({ self with payments := r.payments },
            MessageEffect.RemoveAskFor (winner.GetHash menv.voteEnv)
              :: r.effects.map MessageEffect.FromVote)
    | PaymentsMessage.other => some (self, [])

/-- The state after a sequence of messages and the calls made, in order. -/
def runMessages : PaymentsNode → List (MessageEnv × CNode × PaymentsMessage) →
    Option (PaymentsNode × List MessageEffect)
  | self, [] => some (self, [])
  | self, (menv, pfrom, message) :: rest =>
    match ProcessMessagePatriotnodePayments self menv pfrom message with
    | none => none
    | some (next, effects) =>
      match runMessages next rest with
      | none => none
      | some (final, later) => some (final, effects ++ later)

/-- The number of `Sync` answers sent to a peer among the calls made. -/
def syncAnswersTo (peer : NodeId) (effects : List MessageEffect) : Nat :=
  (effects.filter (fun e =>
    match e with
    | MessageEffect.SyncAnswer p _ _ => decide (p = peer)
    | _ => false)).length

/-- Collaborators for the worked examples of message handling: a node with the
blockchain synced, not in lite mode, in legacy mode, on the network named by
`isMain`, with `exampleEnv 110 40` for the votes. -/
def exampleMessageEnv (isMain : Bool) : MessageEnv where
  IsBlockchainSynced := true
  fLiteMode := false
  LegacyPNObsolete := false
  NetworkIsMain := isMain
  ActiveProtocol := 70920
  voteEnv := exampleEnv 110 40

/-! ## Lemmas on the tally check -/

/-- One step of the first loop never lowers the running maximum. -/
theorem maxSignatures_foldl_ge (vec : List CPatriotnodePayee) (acc : Int) :
    acc ≤ vec.foldl
      (fun nMaxSignatures payee =>
        if payee.nVotes ≥ nMaxSignatures ∧ payee.nVotes ≥ PNPAYMENTS_SIGNATURES_REQUIRED
        then payee.nVotes else nMaxSignatures) acc := by
  induction vec generalizing acc with
  | nil => simp
  | cons p rest ih =>
    simp only [List.foldl_cons]
    refine le_trans ?_ (ih _)
    split
    · rename_i h; exact h.1
    · exact le_refl _

/-- With no entry at the threshold the first loop leaves its accumulator alone. -/
theorem maxSignatures_foldl_none (vec : List CPatriotnodePayee) (acc : Int)
    (h : ∀ p ∈ vec, p.nVotes < PNPAYMENTS_SIGNATURES_REQUIRED) :
    vec.foldl
      (fun nMaxSignatures payee =>
        if payee.nVotes ≥ nMaxSignatures ∧ payee.nVotes ≥ PNPAYMENTS_SIGNATURES_REQUIRED
        then payee.nVotes else nMaxSignatures) acc = acc := by
  induction vec generalizing acc with
  | nil => simp
  | cons p rest ih =>
    have hp : p.nVotes < PNPAYMENTS_SIGNATURES_REQUIRED := h p (List.mem_cons_self _ _)
    have hrest : ∀ q ∈ rest, q.nVotes < PNPAYMENTS_SIGNATURES_REQUIRED :=
      fun q hq => h q (List.mem_cons_of_mem _ hq)
    simp only [List.foldl_cons]
    rw [if_neg (by intro hc; exact absurd hc.2 (not_le.mpr hp))]
    exact ih acc hrest

/-- An entry at the threshold drives the first loop to the threshold or above. -/
theorem maxSignatures_foldl_some (vec : List CPatriotnodePayee) (acc : Int) (hacc : 0 ≤ acc)
    (h : ∃ p ∈ vec, p.nVotes ≥ PNPAYMENTS_SIGNATURES_REQUIRED) :
    PNPAYMENTS_SIGNATURES_REQUIRED ≤ vec.foldl
      (fun nMaxSignatures payee =>
        if payee.nVotes ≥ nMaxSignatures ∧ payee.nVotes ≥ PNPAYMENTS_SIGNATURES_REQUIRED
        then payee.nVotes else nMaxSignatures) acc := by
  induction vec generalizing acc with
  | nil => obtain ⟨p, hp, _⟩ := h; simp at hp
  | cons q rest ih =>
    obtain ⟨p, hp, hv⟩ := h
    simp only [List.foldl_cons]
    rcases List.mem_cons.mp hp with rfl | hmem
    · refine le_trans ?_ (maxSignatures_foldl_ge rest _)
      split
      · exact hv
      · rename_i hc
        have : ¬ p.nVotes ≥ acc := fun h1 => hc ⟨h1, hv⟩
        exact le_trans hv (le_of_lt (not_le.mp this))
    · apply ih
      · split
        · rename_i hc; exact le_trans hacc hc.1
        · exact hacc
      · exact ⟨p, hmem, hv⟩

/-- The inner loop finds a payment exactly when some output pays the entry the required amount. -/
theorem foundPayment_foldl (vout : List CTxOut) (req : Int) (payee : CPatriotnodePayee)
    (b : Bool) :
    vout.foldl
      (fun found out =>
        if payee.scriptPubKey = out.scriptPubKey then
          (if out.nValue = req then true else found)
        else found) b
    = (b || vout.any (fun out => decide (payee.scriptPubKey = out.scriptPubKey ∧ out.nValue = req))) := by
  induction vout generalizing b with
  | nil => simp
  | cons o rest ih =>
    simp only [List.foldl_cons, List.any_cons]
    rw [ih]
    by_cases h1 : payee.scriptPubKey = o.scriptPubKey <;> by_cases h2 : o.nValue = req <;>
      simp [h1, h2]

/-- Closed form of `foundPayment`. -/
theorem foundPayment_iff (vout : List CTxOut) (req : Int) (payee : CPatriotnodePayee) :
    foundPayment vout req payee = true ↔
      ∃ out ∈ vout, out.scriptPubKey = payee.scriptPubKey ∧ out.nValue = req := by
  unfold foundPayment
  rw [foundPayment_foldl]
  simp only [Bool.false_or, List.any_eq_true, decide_eq_true_eq]
  constructor
  · rintro ⟨o, ho, h1, h2⟩; exact ⟨o, ho, h1.symm, h2⟩
  · rintro ⟨o, ho, h1, h2⟩; exact ⟨o, ho, h1.symm, h2⟩

/-- Closed form of the outer loop. -/
theorem scanPayments_iff (vout : List CTxOut) (req : Int) (vec : List CPatriotnodePayee) :
    scanPayments vout req vec = true ↔
      ∃ p ∈ vec, p.nVotes ≥ PNPAYMENTS_SIGNATURES_REQUIRED ∧ foundPayment vout req p = true := by
  induction vec with
  | nil => simp [scanPayments]
  | cons q rest ih =>
    simp only [scanPayments, List.mem_cons, exists_eq_or_imp]
    by_cases hq : q.nVotes ≥ PNPAYMENTS_SIGNATURES_REQUIRED
    · by_cases hf : foundPayment vout req q = true
      · simp [hq, hf]
      · simpa [hq, hf] using ih
    · simpa [hq] using ih

/-- With an entry at the threshold, the verdict is: some output pays some
qualifying entry the required amount. -/
theorem IsTransactionValid_quorum_iff (self : CPatriotnodeBlockPayees) (req : Int)
    (txNew : CTransaction)
    (h : ∃ p ∈ self.vecPayments, p.nVotes ≥ PNPAYMENTS_SIGNATURES_REQUIRED) :
    self.IsTransactionValid req txNew = true ↔
      ∃ out ∈ txNew.vout, ∃ p ∈ self.vecPayments,
        p.nVotes ≥ PNPAYMENTS_SIGNATURES_REQUIRED ∧
        out.scriptPubKey = p.scriptPubKey ∧ out.nValue = req := by
  have hmax : ¬ maxSignatures self.vecPayments < PNPAYMENTS_SIGNATURES_REQUIRED :=
    not_lt.mpr (maxSignatures_foldl_some self.vecPayments 0 (le_refl 0) h)
  unfold CPatriotnodeBlockPayees.IsTransactionValid
  simp only [hmax, if_false]
  rw [scanPayments_iff]
  constructor
  · rintro ⟨p, hp, hv, hf⟩
    obtain ⟨o, ho, h1, h2⟩ := (foundPayment_iff _ _ _).mp hf
    exact ⟨o, ho, p, hp, hv, h1, h2⟩
  · rintro ⟨o, ho, p, hp, hv, h1, h2⟩
    exact ⟨p, hp, hv, (foundPayment_iff _ _ _).mpr ⟨o, ho, h1, h2⟩⟩

/-! ## Claims on `CPatriotnodeBlockPayees::IsTransactionValid` -/

/-- C1: for every tally and every transaction, `IsTransactionValid` returns true
whenever no entry has `nVotes >= PNPAYMENTS_SIGNATURES_REQUIRED`, whatever the
outputs of the transaction are (also with no output at all). -/
theorem IsTransactionValid_fallback_accept (self : CPatriotnodeBlockPayees)
    (requiredPatriotnodePayment : Int) (txNew : CTransaction)
    (h : ∀ p ∈ self.vecPayments, ¬ p.nVotes ≥ PNPAYMENTS_SIGNATURES_REQUIRED) :
    self.IsTransactionValid requiredPatriotnodePayment txNew = true := by
  unfold CPatriotnodeBlockPayees.IsTransactionValid maxSignatures
  rw [maxSignatures_foldl_none self.vecPayments 0 (fun p hp => not_le.mp (h p hp))]
  simp [PNPAYMENTS_SIGNATURES_REQUIRED]

/-- Witness of C1: a tally with 5 and 3 votes accepts a transaction without outputs. -/
theorem IsTransactionValid_fallback_accept_witness :
    (∀ p ∈ (⟨103, [⟨[1], 5⟩, ⟨[2], 3⟩]⟩ : CPatriotnodeBlockPayees).vecPayments,
        ¬ p.nVotes ≥ PNPAYMENTS_SIGNATURES_REQUIRED) ∧
      (⟨103, [⟨[1], 5⟩, ⟨[2], 3⟩]⟩ : CPatriotnodeBlockPayees).IsTransactionValid 3 ⟨[]⟩ = true :=
  ⟨by decide, IsTransactionValid_fallback_accept _ 3 ⟨[]⟩ (by decide)⟩

/-- C2: in a tally with at least one entry at the threshold, `IsTransactionValid`
returns true if and only if the transaction has an output whose script is the
destination of an entry with `nVotes >= PNPAYMENTS_SIGNATURES_REQUIRED` and whose
value is exactly the required payment. In particular, with 6 votes for `A` and 4
for `B`, paying `A` is valid, and paying only `B`, paying nobody, or paying `A` a
different amount is invalid. -/
theorem IsTransactionValid_quorum (self : CPatriotnodeBlockPayees)
    (requiredPatriotnodePayment : Int) (txNew : CTransaction)
    (h : ∃ p ∈ self.vecPayments, p.nVotes ≥ PNPAYMENTS_SIGNATURES_REQUIRED) :
    (self.IsTransactionValid requiredPatriotnodePayment txNew = true ↔
      ∃ out ∈ txNew.vout, ∃ p ∈ self.vecPayments,
        p.nVotes ≥ PNPAYMENTS_SIGNATURES_REQUIRED ∧
        out.scriptPubKey = p.scriptPubKey ∧ out.nValue = requiredPatriotnodePayment) ∧
    (∀ (nBlockHeight : Int) (A B : CScript) (v : Int), A ≠ B → v ≠ requiredPatriotnodePayment →
      (⟨nBlockHeight, [⟨A, 6⟩, ⟨B, 4⟩]⟩ : CPatriotnodeBlockPayees).IsTransactionValid
          requiredPatriotnodePayment ⟨[⟨requiredPatriotnodePayment, A⟩]⟩ = true ∧
      (⟨nBlockHeight, [⟨A, 6⟩, ⟨B, 4⟩]⟩ : CPatriotnodeBlockPayees).IsTransactionValid
          requiredPatriotnodePayment ⟨[⟨requiredPatriotnodePayment, B⟩]⟩ = false ∧
      (⟨nBlockHeight, [⟨A, 6⟩, ⟨B, 4⟩]⟩ : CPatriotnodeBlockPayees).IsTransactionValid
          requiredPatriotnodePayment ⟨[]⟩ = false ∧
      (⟨nBlockHeight, [⟨A, 6⟩, ⟨B, 4⟩]⟩ : CPatriotnodeBlockPayees).IsTransactionValid
          requiredPatriotnodePayment ⟨[⟨v, A⟩]⟩ = false) := by
  refine ⟨IsTransactionValid_quorum_iff self _ txNew h, ?_⟩
  intro nBlockHeight A B v hAB hv
  have hq : ∃ p ∈ (⟨nBlockHeight, [⟨A, 6⟩, ⟨B, 4⟩]⟩ : CPatriotnodeBlockPayees).vecPayments,
      p.nVotes ≥ PNPAYMENTS_SIGNATURES_REQUIRED :=
    ⟨⟨A, 6⟩, by simp, by simp [PNPAYMENTS_SIGNATURES_REQUIRED]⟩
  refine ⟨?_, ?_, ?_, ?_⟩
  · rw [IsTransactionValid_quorum_iff _ _ _ hq]
    exact ⟨⟨requiredPatriotnodePayment, A⟩, by simp, ⟨A, 6⟩, by simp,
      by simp [PNPAYMENTS_SIGNATURES_REQUIRED], rfl, rfl⟩
  · rw [Bool.eq_false_iff]
    intro hc
    rw [IsTransactionValid_quorum_iff _ _ _ hq] at hc
    obtain ⟨o, ho, p, hp, hvotes, hs, _⟩ := hc
    simp only [List.mem_singleton] at ho
    subst ho
    simp only [List.mem_cons, List.mem_singleton, List.not_mem_nil, or_false] at hp
    rcases hp with rfl | rfl
    · exact hAB hs.symm
    · simp [PNPAYMENTS_SIGNATURES_REQUIRED] at hvotes
  · rw [Bool.eq_false_iff]
    intro hc
    rw [IsTransactionValid_quorum_iff _ _ _ hq] at hc
    obtain ⟨o, ho, _⟩ := hc
    simp at ho
  · rw [Bool.eq_false_iff]
    intro hc
    rw [IsTransactionValid_quorum_iff _ _ _ hq] at hc
    obtain ⟨o, ho, p, hp, _, _, hval⟩ := hc
    simp only [List.mem_singleton] at ho
    subst ho
    exact hv hval

/-- Witness of C2: the tally of the unit test (6 votes for `[1]`, 4 for `[2]`)
has an entry at the threshold, and a transaction paying `[1]` the required 3 is valid. -/
theorem IsTransactionValid_quorum_witness :
    (∃ p ∈ (⟨104, [⟨[1], 6⟩, ⟨[2], 4⟩]⟩ : CPatriotnodeBlockPayees).vecPayments,
        p.nVotes ≥ PNPAYMENTS_SIGNATURES_REQUIRED) ∧
      (⟨104, [⟨[1], 6⟩, ⟨[2], 4⟩]⟩ : CPatriotnodeBlockPayees).IsTransactionValid 3
        ⟨[⟨97, [9]⟩, ⟨3, [1]⟩]⟩ = true :=
  ⟨⟨⟨[1], 6⟩, by decide, by decide⟩,
   (IsTransactionValid_quorum ⟨104, [⟨[1], 6⟩, ⟨[2], 4⟩]⟩ 3 ⟨[⟨97, [9]⟩, ⟨3, [1]⟩]⟩
      ⟨⟨[1], 6⟩, by decide, by decide⟩).1.mpr
     ⟨⟨3, [1]⟩, by decide, ⟨[1], 6⟩, by decide, by decide, rfl, rfl⟩⟩

/-! ## Lemmas on the maps -/

theorem mapFind_mapInsert_self {K V : Type} [DecidableEq K] (lt : K → K → Bool)
    (m : List (K × V)) (k : K) (v : V) : mapFind (mapInsert lt m k v) k = some v := by
  induction m with
  | nil => simp [mapInsert, mapFind]
  | cons e rest ih =>
    obtain ⟨k', v'⟩ := e
    by_cases h1 : k' = k
    · simp [mapInsert, mapFind, h1]
    · by_cases h2 : lt k k' = true
      · simp [mapInsert, mapFind, h1, h2]
      · simp [mapInsert, mapFind, h1, h2, ih]

theorem mapFind_mapInsert_ne {K V : Type} [DecidableEq K] (lt : K → K → Bool)
    (m : List (K × V)) (k j : K) (v : V) (hne : j ≠ k) :
    mapFind (mapInsert lt m k v) j = mapFind m j := by
  induction m with
  | nil => simp [mapInsert, mapFind, Ne.symm hne]
  | cons e rest ih =>
    obtain ⟨k', v'⟩ := e
    by_cases h1 : k' = k
    · subst h1
      simp [mapInsert, mapFind, Ne.symm hne]
    · by_cases h2 : lt k k' = true
      · simp [mapInsert, mapFind, h1, h2, Ne.symm hne]
      · by_cases h3 : k' = j
        · subst h3
          simp [mapInsert, mapFind, h1, h2]
        · simp [mapInsert, mapFind, h1, h2, h3, ih]

theorem votesOf_addPayeeVec_self (vec : List CPatriotnodePayee) (script : CScript) (inc : Int) :
    votesOf (addPayeeVec script inc vec) script = some ((votesOf vec script).getD 0 + inc) := by
  induction vec with
  | nil => simp [addPayeeVec, votesOf]
  | cons p rest ih =>
    by_cases h : p.scriptPubKey = script
    · simp [addPayeeVec, votesOf, h]
    · simp only [votesOf] at ih
      simp [addPayeeVec, votesOf, h, ih]

theorem votesOf_addPayeeVec_ne (vec : List CPatriotnodePayee) (script other : CScript) (inc : Int)
    (hne : other ≠ script) :
    votesOf (addPayeeVec script inc vec) other = votesOf vec other := by
  induction vec with
  | nil => simp [addPayeeVec, votesOf, Ne.symm hne]
  | cons p rest ih =>
    by_cases h : p.scriptPubKey = script
    · have h2 : ¬ p.scriptPubKey = other := fun hc => hne (hc.symm.trans h)
      simp [addPayeeVec, votesOf, h, h2, Ne.symm hne]
    · simp only [votesOf] at ih
      by_cases h3 : p.scriptPubKey = other
      · subst h3
        simp [addPayeeVec, votesOf, h]
      · simp [addPayeeVec, votesOf, h, h3, ih]

/-! ## The paths of `ProcessPNWinner`, one lemma per exit -/

/-- Exit at line 455: the vote hash is already in the ledger. -/
theorem ProcessPNWinner_seen (self : CPatriotnodePayments) (env : Env)
    (winner : CPatriotnodePaymentWinner) (pfrom : Option NodeId) (state : CValidationState)
    (hseen : mapCount self.mapPatriotnodePayeeVotes (winner.GetHash env) = true) :
    self.ProcessPNWinner env winner pfrom state =
      some ⟨false, state, self, [Effect.AddedPatriotnodeWinner (winner.GetHash env)]⟩ := by
  simp [CPatriotnodePayments.ProcessPNWinner, hseen]

/-- Exit at line 461: the height is outside the window. -/
theorem ProcessPNWinner_range (self : CPatriotnodePayments) (env : Env)
    (winner : CPatriotnodePaymentWinner) (pfrom : Option NodeId) (state : CValidationState)
    (hnew : mapCount self.mapPatriotnodePayeeVotes (winner.GetHash env) = false)
    (hout : winner.nBlockHeight < nFirstBlock env.GetBestHeight env.CountEnabled
      ∨ winner.nBlockHeight > env.GetBestHeight + 20) :
    self.ProcessPNWinner env winner pfrom state =
      some ⟨false, state.Error "block height out of range", self, []⟩ := by
  simp [CPatriotnodePayments.ProcessPNWinner, hnew, hout]

/-- Exit at line 467: the message version is not the hash-signed one. -/
theorem ProcessPNWinner_version (self : CPatriotnodePayments) (env : Env)
    (winner : CPatriotnodePaymentWinner) (pfrom : Option NodeId) (state : CValidationState)
    (hnew : mapCount self.mapPatriotnodePayeeVotes (winner.GetHash env) = false)
    (hin : ¬ (winner.nBlockHeight < nFirstBlock env.GetBestHeight env.CountEnabled
      ∨ winner.nBlockHeight > env.GetBestHeight + 20))
    (hver : winner.nMessVersion ≠ MessageVersion.MESS_VER_HASH) :
    self.ProcessPNWinner env winner pfrom state =
      some ⟨false, state.Error "mnw old message version", self, []⟩ := by
  simp [CPatriotnodePayments.ProcessPNWinner, hnew, hin, hver]

/-- Exit at line 482: the voter is in neither list. -/
theorem ProcessPNWinner_unknown (self : CPatriotnodePayments) (env : Env)
    (winner : CPatriotnodePaymentWinner) (pfrom : Option NodeId) (state : CValidationState)
    (hnew : mapCount self.mapPatriotnodePayeeVotes (winner.GetHash env) = false)
    (hin : ¬ (winner.nBlockHeight < nFirstBlock env.GetBestHeight env.CountEnabled
      ∨ winner.nBlockHeight > env.GetBestHeight + 20))
    (hver : winner.nMessVersion = MessageVersion.MESS_VER_HASH)
    (hres : voterResolves env winner = false) :
    self.ProcessPNWinner env winner pfrom state =
      some ⟨false, state.Error "Non-existent mnwinner voter", self,
        match pfrom with
        | some peer => if env.IsSynced = true then [Effect.AskForPN peer winner.vinPatriotnode] else []
        | none => []⟩ := by
  unfold voterResolves at hres
  cases hd : env.GetPNByCollateral winner.vinPatriotnode.prevout with
  | some dmn => simp [hd] at hres
  | none =>
    cases hf : env.Find winner.vinPatriotnode.prevout with
    | some pmn => simp [hd, hf] at hres
    | none => simp [CPatriotnodePayments.ProcessPNWinner, hnew, hin, hver, hd, hf]

/-- From line 485 on: with the voter resolved, the call runs the checks of
lines 489-511 and then records the vote. -/
theorem ProcessPNWinner_resolved (self : CPatriotnodePayments) (env : Env)
    (winner : CPatriotnodePaymentWinner) (pfrom : Option NodeId) (state : CValidationState)
    (hnew : mapCount self.mapPatriotnodePayeeVotes (winner.GetHash env) = false)
    (hin : ¬ (winner.nBlockHeight < nFirstBlock env.GetBestHeight env.CountEnabled
      ∨ winner.nBlockHeight > env.GetBestHeight + 20))
    (hver : winner.nMessVersion = MessageVersion.MESS_VER_HASH)
    (hres : voterResolves env winner = true) :
    self.ProcessPNWinner env winner pfrom state =
      if (winner.IsValid env pfrom state env.GetBestHeight).1 = false then
        some ⟨false, (winner.IsValid env pfrom state env.GetBestHeight).2, self, []⟩
      else if self.CanVote winner.vinPatriotnode.prevout winner.nBlockHeight = false then
        some ⟨false, (winner.IsValid env pfrom state env.GetBestHeight).2.Error "PN already voted",
          self, []⟩
      else if signatureValid env winner = false then
        some ⟨false,
          (winner.IsValid env pfrom state env.GetBestHeight).2.Error "invalid voter mnwinner signature",
          self,
          match pfrom with
          | some peer => [Effect.Misbehaving peer 20]
          | none => []⟩
      else
        some ⟨true, (winner.IsValid env pfrom state env.GetBestHeight).2,
          (self.RecordWinnerVote winner.vinPatriotnode.prevout
            winner.nBlockHeight).AddWinningPatriotnode env winner,
          (if env.IsSynced = true then [Effect.RelayInv (winner.GetHash env)] else [])
            ++ [Effect.AddedPatriotnodeWinner (winner.GetHash env)]⟩ := by
  unfold CPatriotnodePayments.ProcessPNWinner
  simp only [hnew, hin, hver, Bool.false_eq_true, if_false, ne_eq, not_true_eq_false]
  unfold voterResolves at hres
  unfold signatureValid
  cases hd : env.GetPNByCollateral winner.vinPatriotnode.prevout with
  | some dmn => simp [ProcessPNWinnerResolved]
  | none =>
    cases hf : env.Find winner.vinPatriotnode.prevout with
    | none => simp [hd, hf] at hres
    | some pmn => simp [ProcessPNWinnerResolved]

/-- Case analysis of one call: the four early exits, or the resolved pipeline. -/
theorem ProcessPNWinner_cases (self : CPatriotnodePayments) (env : Env)
    (winner : CPatriotnodePaymentWinner) (pfrom : Option NodeId) (state : CValidationState) :
    (mapCount self.mapPatriotnodePayeeVotes (winner.GetHash env) = true ∧
      self.ProcessPNWinner env winner pfrom state =
        some ⟨false, state, self, [Effect.AddedPatriotnodeWinner (winner.GetHash env)]⟩) ∨
    (mapCount self.mapPatriotnodePayeeVotes (winner.GetHash env) = false ∧
      (winner.nBlockHeight < nFirstBlock env.GetBestHeight env.CountEnabled
        ∨ winner.nBlockHeight > env.GetBestHeight + 20) ∧
      self.ProcessPNWinner env winner pfrom state =
        some ⟨false, state.Error "block height out of range", self, []⟩) ∨
    (mapCount self.mapPatriotnodePayeeVotes (winner.GetHash env) = false ∧
      ¬ (winner.nBlockHeight < nFirstBlock env.GetBestHeight env.CountEnabled
        ∨ winner.nBlockHeight > env.GetBestHeight + 20) ∧
      winner.nMessVersion ≠ MessageVersion.MESS_VER_HASH ∧
      self.ProcessPNWinner env winner pfrom state =
        some ⟨false, state.Error "mnw old message version", self, []⟩) ∨
    (mapCount self.mapPatriotnodePayeeVotes (winner.GetHash env) = false ∧
      ¬ (winner.nBlockHeight < nFirstBlock env.GetBestHeight env.CountEnabled
        ∨ winner.nBlockHeight > env.GetBestHeight + 20) ∧
      winner.nMessVersion = MessageVersion.MESS_VER_HASH ∧
      voterResolves env winner = false ∧
      self.ProcessPNWinner env winner pfrom state =
        some ⟨false, state.Error "Non-existent mnwinner voter", self,
          match pfrom with
          | some peer =>
            if env.IsSynced = true then [Effect.AskForPN peer winner.vinPatriotnode] else []
          | none => []⟩) ∨
    (mapCount self.mapPatriotnodePayeeVotes (winner.GetHash env) = false ∧
      ¬ (winner.nBlockHeight < nFirstBlock env.GetBestHeight env.CountEnabled
        ∨ winner.nBlockHeight > env.GetBestHeight + 20) ∧
      winner.nMessVersion = MessageVersion.MESS_VER_HASH ∧
      voterResolves env winner = true ∧
      self.ProcessPNWinner env winner pfrom state =
        if (winner.IsValid env pfrom state env.GetBestHeight).1 = false then
          some ⟨false, (winner.IsValid env pfrom state env.GetBestHeight).2, self, []⟩
        else if self.CanVote winner.vinPatriotnode.prevout winner.nBlockHeight = false then
          some ⟨false,
            (winner.IsValid env pfrom state env.GetBestHeight).2.Error "PN already voted",
            self, []⟩
        else if signatureValid env winner = false then
          some ⟨false,
            (winner.IsValid env pfrom state env.GetBestHeight).2.Error
              "invalid voter mnwinner signature",
            self,
            match pfrom with
            | some peer => [Effect.Misbehaving peer 20]
            | none => []⟩
        else
          some ⟨true, (winner.IsValid env pfrom state env.GetBestHeight).2,
            (self.RecordWinnerVote winner.vinPatriotnode.prevout
              winner.nBlockHeight).AddWinningPatriotnode env winner,
            (if env.IsSynced = true then [Effect.RelayInv (winner.GetHash env)] else [])
              ++ [Effect.AddedPatriotnodeWinner (winner.GetHash env)]⟩) := by
  cases hseen : mapCount self.mapPatriotnodePayeeVotes (winner.GetHash env) with
  | true => exact Or.inl ⟨rfl, ProcessPNWinner_seen self env winner pfrom state hseen⟩
  | false =>
    refine Or.inr ?_
    by_cases hout : winner.nBlockHeight < nFirstBlock env.GetBestHeight env.CountEnabled
        ∨ winner.nBlockHeight > env.GetBestHeight + 20
    · exact Or.inl ⟨rfl, hout, ProcessPNWinner_range self env winner pfrom state hseen hout⟩
    · refine Or.inr ?_
      by_cases hver : winner.nMessVersion = MessageVersion.MESS_VER_HASH
      · refine Or.inr ?_
        cases hres : voterResolves env winner with
        | false =>
          exact Or.inl ⟨rfl, hout, hver, rfl,
            ProcessPNWinner_unknown self env winner pfrom state hseen hout hver hres⟩
        | true =>
          exact Or.inr ⟨rfl, hout, hver, rfl,
            ProcessPNWinner_resolved self env winner pfrom state hseen hout hver hres⟩
      · exact Or.inl ⟨rfl, hout, hver,
          ProcessPNWinner_version self env winner pfrom state hseen hout hver⟩

/-- The call always returns: the exclusivity assertion never fails. -/
theorem ProcessPNWinner_total (self : CPatriotnodePayments) (env : Env)
    (winner : CPatriotnodePaymentWinner) (pfrom : Option NodeId) (state : CValidationState) :
    ∃ r, self.ProcessPNWinner env winner pfrom state = some r := by
  rcases ProcessPNWinner_cases self env winner pfrom state with
    ⟨_, h⟩ | ⟨_, _, h⟩ | ⟨_, _, _, h⟩ | ⟨_, _, _, _, h⟩ | ⟨_, _, _, _, h⟩
  · exact ⟨_, h⟩
  · exact ⟨_, h⟩
  · exact ⟨_, h⟩
  · exact ⟨_, h⟩
  · rw [h]
    split
    · exact ⟨_, rfl⟩
    · split
      · exact ⟨_, rfl⟩
      · split
        · exact ⟨_, rfl⟩
        · exact ⟨_, rfl⟩

/-- A call that returns false leaves the store as it was and relays nothing. -/
theorem ProcessPNWinner_false_frame (self : CPatriotnodePayments) (env : Env)
    (winner : CPatriotnodePaymentWinner) (pfrom : Option NodeId) (state : CValidationState)
    (r : PNWResult) (hr : self.ProcessPNWinner env winner pfrom state = some r)
    (hret : r.ret = false) :
    r.payments = self ∧ ∀ hash, Effect.RelayInv hash ∉ r.effects := by
  rcases ProcessPNWinner_cases self env winner pfrom state with
    ⟨_, h⟩ | ⟨_, _, h⟩ | ⟨_, _, _, h⟩ | ⟨_, _, _, _, h⟩ | ⟨_, _, _, _, h⟩
  · rw [h] at hr; cases hr; simp
  · rw [h] at hr; cases hr; simp
  · rw [h] at hr; cases hr; simp
  · rw [h] at hr; cases hr
    refine ⟨rfl, ?_⟩
    intro hash
    cases pfrom with
    | none => simp
    | some peer => by_cases hs : env.IsSynced = true <;> simp [hs]
  · rw [h] at hr
    split at hr
    · cases hr; simp
    · split at hr
      · cases hr; simp
      · split at hr
        · cases hr
          refine ⟨rfl, ?_⟩
          intro hash
          cases pfrom <;> simp
        · cases hr; simp at hret

/-- A call returns true exactly when every check passes; the result is then the
recorded store, the untouched validation state and the relay decision. -/
theorem ProcessPNWinner_true (self : CPatriotnodePayments) (env : Env)
    (winner : CPatriotnodePaymentWinner) (pfrom : Option NodeId) (state : CValidationState)
    (r : PNWResult) (hr : self.ProcessPNWinner env winner pfrom state = some r)
    (hret : r.ret = true) :
    (mapCount self.mapPatriotnodePayeeVotes (winner.GetHash env) = false ∧
      ¬ (winner.nBlockHeight < nFirstBlock env.GetBestHeight env.CountEnabled
        ∨ winner.nBlockHeight > env.GetBestHeight + 20) ∧
      winner.nMessVersion = MessageVersion.MESS_VER_HASH ∧
      voterResolves env winner = true ∧
      (winner.IsValid env pfrom state env.GetBestHeight).1 = true ∧
      self.CanVote winner.vinPatriotnode.prevout winner.nBlockHeight = true ∧
      signatureValid env winner = true) ∧
    r = ⟨true, (winner.IsValid env pfrom state env.GetBestHeight).2,
          (self.RecordWinnerVote winner.vinPatriotnode.prevout
            winner.nBlockHeight).AddWinningPatriotnode env winner,
          (if env.IsSynced = true then [Effect.RelayInv (winner.GetHash env)] else [])
            ++ [Effect.AddedPatriotnodeWinner (winner.GetHash env)]⟩ := by
  rcases ProcessPNWinner_cases self env winner pfrom state with
    ⟨_, h⟩ | ⟨_, _, h⟩ | ⟨_, _, _, h⟩ | ⟨_, _, _, _, h⟩ | ⟨h1, h2, h3, h4, h⟩
  · rw [h] at hr; cases hr; simp at hret
  · rw [h] at hr; cases hr; simp at hret
  · rw [h] at hr; cases hr; simp at hret
  · rw [h] at hr; cases hr; simp at hret
  · rw [h] at hr
    split at hr
    · cases hr; simp at hret
    · rename_i hv
      split at hr
      · cases hr; simp at hret
      · rename_i hc
        split at hr
        · cases hr; simp at hret
        · rename_i hsig
          cases hr
          exact ⟨⟨h1, h2, h3, h4, by simpa using hv, by simpa using hc, by simpa using hsig⟩, rfl⟩

/-- When every check passes the call returns true with the recorded store. -/
theorem ProcessPNWinner_accept (self : CPatriotnodePayments) (env : Env)
    (winner : CPatriotnodePaymentWinner) (pfrom : Option NodeId) (state : CValidationState)
    (hnew : mapCount self.mapPatriotnodePayeeVotes (winner.GetHash env) = false)
    (hin : ¬ (winner.nBlockHeight < nFirstBlock env.GetBestHeight env.CountEnabled
      ∨ winner.nBlockHeight > env.GetBestHeight + 20))
    (hver : winner.nMessVersion = MessageVersion.MESS_VER_HASH)
    (hres : voterResolves env winner = true)
    (hvalid : (winner.IsValid env pfrom state env.GetBestHeight).1 = true)
    (hcan : self.CanVote winner.vinPatriotnode.prevout winner.nBlockHeight = true)
    (hsig : signatureValid env winner = true) :
    self.ProcessPNWinner env winner pfrom state =
      some ⟨true, (winner.IsValid env pfrom state env.GetBestHeight).2,
          (self.RecordWinnerVote winner.vinPatriotnode.prevout
            winner.nBlockHeight).AddWinningPatriotnode env winner,
          (if env.IsSynced = true then [Effect.RelayInv (winner.GetHash env)] else [])
            ++ [Effect.AddedPatriotnodeWinner (winner.GetHash env)]⟩ := by
  rw [ProcessPNWinner_resolved self env winner pfrom state hnew hin hver hres]
  simp [hvalid, hcan, hsig]

/-- Closed form of `IsValid`: it succeeds exactly for a rank in the quorum and a
P2PKH payee, and then leaves the validation state alone. -/
theorem IsValid_true_iff (winner : CPatriotnodePaymentWinner) (env : Env)
    (pnode : Option NodeId) (state : CValidationState) (chainHeight : Int) :
    ((winner.IsValid env pnode state chainHeight).1 = true ↔
      (1 ≤ env.GetPatriotnodeRank winner.vinPatriotnode (winner.nBlockHeight - 100) ∧
        env.GetPatriotnodeRank winner.vinPatriotnode (winner.nBlockHeight - 100)
          ≤ PNPAYMENTS_SIGNATURES_TOTAL ∧
        env.IsPayToPublicKeyHash winner.payee = true)) ∧
    ((winner.IsValid env pnode state chainHeight).1 = true →
      (winner.IsValid env pnode state chainHeight).2 = state) := by
  unfold CPatriotnodePaymentWinner.IsValid
  by_cases h1 : env.GetPatriotnodeRank winner.vinPatriotnode (winner.nBlockHeight - 100) < 1 ∨
      env.GetPatriotnodeRank winner.vinPatriotnode (winner.nBlockHeight - 100)
        > PNPAYMENTS_SIGNATURES_TOTAL
  · simp only [h1, if_true]
    refine ⟨⟨fun h => by simp at h, fun h => ?_⟩, fun h => by simp at h⟩
    rcases h1 with h1 | h1
    · exact absurd h.1 (not_le.mpr h1)
    · exact absurd h.2.1 (not_le.mpr h1)
  · simp only [h1, if_false]
    have h1' := not_or.mp h1
    by_cases h2 : env.IsPayToPublicKeyHash winner.payee = true
    · have ha := not_lt.mp h1'.1
      have hb := not_lt.mp h1'.2
      simp [h2, ha, hb]
    · simp [h2]

/-- A failing `IsValid` records one of its two reasons. -/
theorem IsValid_false (winner : CPatriotnodePaymentWinner) (env : Env)
    (pnode : Option NodeId) (state : CValidationState) (chainHeight : Int)
    (h : (winner.IsValid env pnode state chainHeight).1 = false) :
    ((env.GetPatriotnodeRank winner.vinPatriotnode (winner.nBlockHeight - 100) < 1 ∨
        env.GetPatriotnodeRank winner.vinPatriotnode (winner.nBlockHeight - 100)
          > PNPAYMENTS_SIGNATURES_TOTAL) ∧
      (winner.IsValid env pnode state chainHeight).2 = state.Error (notInTopMessage
        (env.GetPatriotnodeRank winner.vinPatriotnode (winner.nBlockHeight - 100)))) ∨
    (¬ (env.GetPatriotnodeRank winner.vinPatriotnode (winner.nBlockHeight - 100) < 1 ∨
        env.GetPatriotnodeRank winner.vinPatriotnode (winner.nBlockHeight - 100)
          > PNPAYMENTS_SIGNATURES_TOTAL) ∧
      env.IsPayToPublicKeyHash winner.payee = false ∧
      (winner.IsValid env pnode state chainHeight).2 = state.Error "payee must be a P2PKH") := by
  unfold CPatriotnodePaymentWinner.IsValid at h ⊢
  by_cases h1 : env.GetPatriotnodeRank winner.vinPatriotnode (winner.nBlockHeight - 100) < 1 ∨
      env.GetPatriotnodeRank winner.vinPatriotnode (winner.nBlockHeight - 100)
        > PNPAYMENTS_SIGNATURES_TOTAL
  · simp [h1]
  · by_cases h2 : env.IsPayToPublicKeyHash winner.payee = true
    · simp [h1, h2] at h
    · simp [h1, h2]

/-- The rank reason is not the range reason. -/
theorem notInTopMessage_ne_range (n : Int) : notInTopMessage n ≠ "block height out of range" := by
  intro h
  have h2 := congrArg String.data h
  simp only [notInTopMessage, String.data_append] at h2
  have h3 := congrArg List.head? h2
  simp at h3

/-- The rank reason contains the text the unit test looks for. -/
theorem findStrError_notInTopMessage (state : CValidationState) (n : Int) :
    findStrError (state.Error (notInTopMessage n)) "Patriotnode not in the top" = true := by
  simp only [findStrError, CValidationState.GetRejectReason, CValidationState.Error,
    notInTopMessage, String.data_append, List.append_assoc]
  simp [containsChars, List.isPrefixOf]

/-- The lower end of the window when the best height is at least 1.25 times the
count: the count term is rounded up. -/
theorem nFirstBlock_of_le (nHeight countEnabled : Int) (h : 5 * countEnabled ≤ 4 * nHeight) :
    nFirstBlock nHeight countEnabled = nHeight - (5 * countEnabled + 3) / 4 := by
  unfold nFirstBlock
  rw [Int.tdiv_eq_ediv (by omega) (by omega)]
  omega

/-- The lower end of the window when the best height is below 1.25 times the
count: the count term is rounded down. -/
theorem nFirstBlock_of_lt (nHeight countEnabled : Int) (h : 4 * nHeight < 5 * countEnabled) :
    nFirstBlock nHeight countEnabled = nHeight - (5 * countEnabled) / 4 := by
  unfold nFirstBlock
  have h1 : 4 * nHeight - 5 * countEnabled = -(5 * countEnabled - 4 * nHeight) := by omega
  rw [h1, Int.neg_tdiv, Int.tdiv_eq_ediv (by omega) (by omega)]
  omega

/-- With a non-negative count the window never starts above the best height. -/
theorem nFirstBlock_le (nHeight countEnabled : Int) (h : 0 ≤ countEnabled) :
    nFirstBlock nHeight countEnabled ≤ nHeight := by
  by_cases hc : 5 * countEnabled ≤ 4 * nHeight
  · rw [nFirstBlock_of_le _ _ hc]; omega
  · rw [nFirstBlock_of_lt _ _ (by omega)]; omega

/-! ## Claims on the tally check, continued -/

/-- Counterexample to C3 as stated: six votes for `[1]`, then six for `[2]`, so
`[1]` reaches the threshold first (the tally after eleven votes is 6 to 5); a
transaction that pays the required 3 to `[2]` only is accepted, not rejected. -/
theorem IsTransactionValid_later_payee_accepted :
    (List.foldl (fun (t : CPatriotnodeBlockPayees) s => t.AddPayee s 1) ⟨104, []⟩
        [[1], [1], [1], [1], [1], [1], [2], [2], [2], [2], [2]]).vecPayments
      = [⟨[1], 6⟩, ⟨[2], 5⟩] ∧
    (List.foldl (fun (t : CPatriotnodeBlockPayees) s => t.AddPayee s 1) ⟨104, []⟩
        [[1], [1], [1], [1], [1], [1], [2], [2], [2], [2], [2], [2]]).vecPayments
      = [⟨[1], 6⟩, ⟨[2], 6⟩] ∧
    (List.foldl (fun (t : CPatriotnodeBlockPayees) s => t.AddPayee s 1) ⟨104, []⟩
        [[1], [1], [1], [1], [1], [1], [2], [2], [2], [2], [2], [2]]).IsTransactionValid 3
      ⟨[⟨97, [9]⟩, ⟨3, [2]⟩]⟩ = true := by
  decide

/-- C3 (amended): when two entries of a tally both hold at least
`PNPAYMENTS_SIGNATURES_REQUIRED` votes, `IsTransactionValid` accepts every
transaction that pays the required amount to either of them, whichever reached
the threshold first and whether or not the other one is paid. -/
theorem IsTransactionValid_either_payee (self : CPatriotnodeBlockPayees)
    (requiredPatriotnodePayment : Int) (first later : CPatriotnodePayee)
    (hfirst : first ∈ self.vecPayments) (hlater : later ∈ self.vecPayments)
    (hfirstVotes : first.nVotes ≥ PNPAYMENTS_SIGNATURES_REQUIRED)
    (hlaterVotes : later.nVotes ≥ PNPAYMENTS_SIGNATURES_REQUIRED)
    (txNew : CTransaction)
    (hpaid : (∃ out ∈ txNew.vout, out.scriptPubKey = first.scriptPubKey ∧
          out.nValue = requiredPatriotnodePayment) ∨
        (∃ out ∈ txNew.vout, out.scriptPubKey = later.scriptPubKey ∧
          out.nValue = requiredPatriotnodePayment)) :
    self.IsTransactionValid requiredPatriotnodePayment txNew = true := by
  rw [IsTransactionValid_quorum_iff self _ txNew ⟨first, hfirst, hfirstVotes⟩]
  rcases hpaid with ⟨o, ho, h1, h2⟩ | ⟨o, ho, h1, h2⟩
  · exact ⟨o, ho, first, hfirst, hfirstVotes, h1, h2⟩
  · exact ⟨o, ho, later, hlater, hlaterVotes, h1, h2⟩

/-- Witness of C3 (amended): with 7 votes for `[1]` and 6 for `[2]`, paying only
`[2]` the required 3 is accepted. -/
theorem IsTransactionValid_either_payee_witness :
    (⟨104, [⟨[1], 7⟩, ⟨[2], 6⟩]⟩ : CPatriotnodeBlockPayees).IsTransactionValid 3
      ⟨[⟨3, [2]⟩]⟩ = true :=
  IsTransactionValid_either_payee ⟨104, [⟨[1], 7⟩, ⟨[2], 6⟩]⟩ 3 ⟨[1], 7⟩ ⟨[2], 6⟩
    (by decide) (by decide) (by decide) (by decide) ⟨[⟨3, [2]⟩]⟩
    (Or.inr ⟨⟨3, [2]⟩, by decide, rfl, rfl⟩)

/-! ## Claims on the height window of `ProcessPNWinner` -/

/-- Counterexample to C4 as stated: at best height 100 with 3 enabled nodes, a
new vote for height 96 is below `100 - floor(1.25 * 3) = 97`, yet it is not
rejected: the call returns true and sets no reason. -/
theorem ProcessPNWinner_height_96_accepted :
    (96 : Int) < 100 - (5 * 3) / 4 ∧
    mapCount CPatriotnodePayments.empty.mapPatriotnodePayeeVotes
      ((exampleVote 1 96 [5]).GetHash (exampleEnv 100 3)) = false ∧
    (CPatriotnodePayments.empty.ProcessPNWinner (exampleEnv 100 3) (exampleVote 1 96 [5]) none
        CValidationState.fresh).map (fun r => (r.ret, r.state)) =
      some (true, CValidationState.fresh) := by
  decide

/-- C4 (amended): a vote whose hash is not yet in the ledger is rejected with
reason "block height out of range" whenever its height is below the best height
minus 1.25 times the enabled count, that difference being truncated toward
zero: below `tip - ceil(1.25 * count)` when `tip >= 1.25 * count`, and below
`tip - floor(1.25 * count)` when `tip < 1.25 * count`. Nothing is recorded. -/
theorem ProcessPNWinner_below_window (self : CPatriotnodePayments) (env : Env)
    (winner : CPatriotnodePaymentWinner) (pfrom : Option NodeId) (state : CValidationState)
    (hnew : mapCount self.mapPatriotnodePayeeVotes (winner.GetHash env) = false)
    (hlow : (5 * env.CountEnabled ≤ 4 * env.GetBestHeight ∧
          winner.nBlockHeight < env.GetBestHeight - (5 * env.CountEnabled + 3) / 4) ∨
        (4 * env.GetBestHeight < 5 * env.CountEnabled ∧
          winner.nBlockHeight < env.GetBestHeight - (5 * env.CountEnabled) / 4)) :
    self.ProcessPNWinner env winner pfrom state =
        some ⟨false, state.Error "block height out of range", self, []⟩ ∧
      (state.Error "block height out of range").GetRejectReason = "block height out of range" := by
  refine ⟨?_, rfl⟩
  apply ProcessPNWinner_range self env winner pfrom state hnew
  left
  rcases hlow with ⟨h1, h2⟩ | ⟨h1, h2⟩
  · rw [nFirstBlock_of_le _ _ h1]; exact h2
  · rw [nFirstBlock_of_lt _ _ h1]; exact h2

/-- Witness of C4 (amended): at best height 100 with 3 enabled nodes a new vote
for height 95 is rejected as out of range. -/
theorem ProcessPNWinner_below_window_witness :
    CPatriotnodePayments.empty.ProcessPNWinner (exampleEnv 100 3) (exampleVote 1 95 [5]) none
        CValidationState.fresh =
      some ⟨false, CValidationState.fresh.Error "block height out of range",
        CPatriotnodePayments.empty, []⟩ :=
  (ProcessPNWinner_below_window CPatriotnodePayments.empty (exampleEnv 100 3)
    (exampleVote 1 95 [5]) none CValidationState.fresh (by decide)
    (Or.inl ⟨by decide, by decide⟩)).1

/-- C5: a vote whose hash is not yet in the ledger is rejected with reason
"block height out of range" when its height exceeds the best height by more than
20 (so at best height + 21). At exactly best height + 20 (enabled count not
negative) a rejection never carries that reason, and the vote is accepted when
its version, voter, rank, payee shape, replay cursor and signature checks pass. -/
theorem ProcessPNWinner_upper_bound (self : CPatriotnodePayments) (env : Env)
    (winner : CPatriotnodePaymentWinner) (pfrom : Option NodeId) (state : CValidationState)
    (hnew : mapCount self.mapPatriotnodePayeeVotes (winner.GetHash env) = false) :
    (winner.nBlockHeight > env.GetBestHeight + 20 →
      self.ProcessPNWinner env winner pfrom state =
          some ⟨false, state.Error "block height out of range", self, []⟩ ∧
        (state.Error "block height out of range").GetRejectReason
          = "block height out of range") ∧
    (winner.nBlockHeight = env.GetBestHeight + 20 → 0 ≤ env.CountEnabled →
      (∀ r, self.ProcessPNWinner env winner pfrom state = some r → r.ret = false →
        r.state.GetRejectReason ≠ "block height out of range") ∧
      (winner.nMessVersion = MessageVersion.MESS_VER_HASH →
        voterResolves env winner = true →
        1 ≤ env.GetPatriotnodeRank winner.vinPatriotnode (winner.nBlockHeight - 100) →
        env.GetPatriotnodeRank winner.vinPatriotnode (winner.nBlockHeight - 100)
          ≤ PNPAYMENTS_SIGNATURES_TOTAL →
        env.IsPayToPublicKeyHash winner.payee = true →
        self.CanVote winner.vinPatriotnode.prevout winner.nBlockHeight = true →
        signatureValid env winner = true →
        self.ProcessPNWinner env winner pfrom state =
          some ⟨true, state,
            (self.RecordWinnerVote winner.vinPatriotnode.prevout
              winner.nBlockHeight).AddWinningPatriotnode env winner,
            (if env.IsSynced = true then [Effect.RelayInv (winner.GetHash env)] else [])
              ++ [Effect.AddedPatriotnodeWinner (winner.GetHash env)]⟩)) := by
  refine ⟨fun hhigh => ⟨ProcessPNWinner_range self env winner pfrom state hnew (Or.inr hhigh), rfl⟩,
    fun heq hcount => ?_⟩
  have hin : ¬ (winner.nBlockHeight < nFirstBlock env.GetBestHeight env.CountEnabled
      ∨ winner.nBlockHeight > env.GetBestHeight + 20) := by
    have := nFirstBlock_le env.GetBestHeight env.CountEnabled hcount
    omega
  refine ⟨?_, ?_⟩
  · intro r hr _
    rcases ProcessPNWinner_cases self env winner pfrom state with
      ⟨h0, _⟩ | ⟨_, h1, _⟩ | ⟨_, _, _, h⟩ | ⟨_, _, _, _, h⟩ | ⟨_, _, _, _, h⟩
    · rw [hnew] at h0; exact absurd h0 (by simp)
    · exact absurd h1 hin
    · rw [h] at hr; cases hr; simp [CValidationState.Error, CValidationState.GetRejectReason]
    · rw [h] at hr; cases hr; simp [CValidationState.Error, CValidationState.GetRejectReason]
    · rw [h] at hr
      split at hr
      · rename_i hv
        cases hr
        rcases IsValid_false winner env pfrom state env.GetBestHeight hv with ⟨_, h2⟩ | ⟨_, _, h2⟩
        · simp only [h2]
          exact notInTopMessage_ne_range _
        · simp [h2, CValidationState.Error, CValidationState.GetRejectReason]
      · split at hr
        · cases hr; simp [CValidationState.Error, CValidationState.GetRejectReason]
        · split at hr
          · cases hr; simp [CValidationState.Error, CValidationState.GetRejectReason]
          · rename_i hv _ _
            cases hr
            have hv1 : (winner.IsValid env pfrom state env.GetBestHeight).1 = true := by
              simpa using hv
            rw [(IsValid_true_iff winner env pfrom state env.GetBestHeight).2 hv1]
            simp_all
  · intro hver hres hr1 hr2 hp hcan hsig
    have hvalid : (winner.IsValid env pfrom state env.GetBestHeight).1 = true :=
      (IsValid_true_iff winner env pfrom state env.GetBestHeight).1.mpr ⟨hr1, hr2, hp⟩
    rw [ProcessPNWinner_accept self env winner pfrom state hnew hin hver hres hvalid hcan hsig,
      (IsValid_true_iff winner env pfrom state env.GetBestHeight).2 hvalid]

/-- Witness of C5: at best height 102 with 40 enabled nodes (the unit test), a
new vote for height 123 is rejected as out of range and one for height 122 is
accepted. -/
theorem ProcessPNWinner_upper_bound_witness :
    CPatriotnodePayments.empty.ProcessPNWinner (exampleEnv 102 40) (exampleVote 2 123 [5]) none
        CValidationState.fresh =
      some ⟨false, CValidationState.fresh.Error "block height out of range",
        CPatriotnodePayments.empty, []⟩ ∧
    CPatriotnodePayments.empty.ProcessPNWinner (exampleEnv 102 40) (exampleVote 2 122 [5]) none
        CValidationState.fresh =
      some ⟨true, CValidationState.fresh,
        (CPatriotnodePayments.empty.RecordWinnerVote ⟨2, 0⟩ 122).AddWinningPatriotnode
          (exampleEnv 102 40) (exampleVote 2 122 [5]),
        [Effect.RelayInv 2122005, Effect.AddedPatriotnodeWinner 2122005]⟩ :=
  ⟨((ProcessPNWinner_upper_bound CPatriotnodePayments.empty (exampleEnv 102 40)
      (exampleVote 2 123 [5]) none CValidationState.fresh (by decide)).1 (by decide)).1,
   ((ProcessPNWinner_upper_bound CPatriotnodePayments.empty (exampleEnv 102 40)
      (exampleVote 2 122 [5]) none CValidationState.fresh (by decide)).2 (by decide)
      (by decide)).2 (by decide) (by decide) (by decide) (by decide) (by decide) (by decide)
      (by decide)⟩

/-! ## Claims on the quorum check of `ProcessPNWinner` -/

/-- C6: a vote whose voter has a rank at `nBlockHeight - 100` below 1 or above
`PNPAYMENTS_SIGNATURES_TOTAL` makes `ProcessPNWinner` return false and record
nothing, whatever the signature check would say; when the vote passed the
duplicate, range, version and voter-resolution checks, the reason is the rank
message, which contains "Patriotnode not in the top". -/
theorem ProcessPNWinner_rank_outside_quorum (self : CPatriotnodePayments) (env : Env)
    (winner : CPatriotnodePaymentWinner) (pfrom : Option NodeId) (state : CValidationState)
    (hrank : env.GetPatriotnodeRank winner.vinPatriotnode (winner.nBlockHeight - 100) < 1 ∨
      env.GetPatriotnodeRank winner.vinPatriotnode (winner.nBlockHeight - 100)
        > PNPAYMENTS_SIGNATURES_TOTAL) :
    ∃ r, self.ProcessPNWinner env winner pfrom state = some r ∧ r.ret = false ∧
      r.payments = self ∧
      (mapCount self.mapPatriotnodePayeeVotes (winner.GetHash env) = false →
        ¬ (winner.nBlockHeight < nFirstBlock env.GetBestHeight env.CountEnabled
          ∨ winner.nBlockHeight > env.GetBestHeight + 20) →
        winner.nMessVersion = MessageVersion.MESS_VER_HASH →
        voterResolves env winner = true →
        r.state = state.Error (notInTopMessage
          (env.GetPatriotnodeRank winner.vinPatriotnode (winner.nBlockHeight - 100))) ∧
        findStrError r.state "Patriotnode not in the top" = true) := by
  have hinvalid : (winner.IsValid env pfrom state env.GetBestHeight).1 = false := by
    cases hv : (winner.IsValid env pfrom state env.GetBestHeight).1 with
    | false => rfl
    | true =>
      have h := (IsValid_true_iff winner env pfrom state env.GetBestHeight).1.mp hv
      rcases hrank with h1 | h1
      · exact absurd h.1 (not_le.mpr h1)
      · exact absurd h.2.1 (not_le.mpr h1)
  obtain ⟨r, hr⟩ := ProcessPNWinner_total self env winner pfrom state
  have hret : r.ret = false := by
    cases hb : r.ret with
    | false => rfl
    | true =>
      have h := (ProcessPNWinner_true self env winner pfrom state r hr hb).1
      rw [hinvalid] at h
      exact absurd h.2.2.2.2.1 (by simp)
  refine ⟨r, hr, hret, (ProcessPNWinner_false_frame self env winner pfrom state r hr hret).1, ?_⟩
  intro hnew hin hver hres
  rw [ProcessPNWinner_resolved self env winner pfrom state hnew hin hver hres, if_pos hinvalid] at hr
  cases hr
  rcases IsValid_false winner env pfrom state env.GetBestHeight hinvalid with ⟨_, h2⟩ | ⟨h1, _⟩
  · exact ⟨h2, by rw [h2]; exact findStrError_notInTopMessage state _⟩
  · exact absurd hrank h1

/-- Witness of C6: the voter ranked 15 is rejected with the rank reason although
its signature is valid, and nothing is recorded. -/
theorem ProcessPNWinner_rank_outside_quorum_witness :
    ∃ r, CPatriotnodePayments.empty.ProcessPNWinner (exampleEnv 102 40)
        (exampleVote 15 103 [5]) none CValidationState.fresh = some r ∧ r.ret = false ∧
      r.payments = CPatriotnodePayments.empty ∧
      r.state = CValidationState.fresh.Error "Patriotnode not in the top 10 (15)" ∧
      signatureValid (exampleEnv 102 40) (exampleVote 15 103 [5]) = true := by
  obtain ⟨r, h1, h2, h3, h4⟩ := ProcessPNWinner_rank_outside_quorum CPatriotnodePayments.empty
    (exampleEnv 102 40) (exampleVote 15 103 [5]) none CValidationState.fresh (by decide)
  exact ⟨r, h1, h2, h3, (h4 (by decide) (by decide) (by decide) (by decide)).1, by decide⟩

/-! ## Lemmas on recording a vote -/

/-- After `AddWinningPatriotnode` the payee of the vote has one vote more at the
height of the vote (one vote if it had none). -/
theorem tallyVotes_AddWinningPatriotnode_self (self : CPatriotnodePayments) (env : Env)
    (winnerIn : CPatriotnodePaymentWinner) :
    tallyVotes (self.AddWinningPatriotnode env winnerIn).mapPatriotnodeBlocks
        winnerIn.nBlockHeight winnerIn.payee =
      some ((tallyVotes self.mapPatriotnodeBlocks winnerIn.nBlockHeight winnerIn.payee).getD 0
        + 1) := by
  unfold CPatriotnodePayments.AddWinningPatriotnode tallyVotes
  simp only [mapFind_mapInsert_self, Option.bind_some, CPatriotnodeBlockPayees.AddPayee]
  cases hfind : mapFind self.mapPatriotnodeBlocks winnerIn.nBlockHeight with
  | none =>
    simp [mapCount, hfind, mapFind_mapInsert_self, votesOf_addPayeeVec_self]
    simp [votesOf]
  | some entry => simp [mapCount, hfind, votesOf_addPayeeVec_self]

/-- Recording a vote with `AddWinningPatriotnode` changes no other count of any tally. -/
theorem tallyVotes_AddWinningPatriotnode_ne (self : CPatriotnodePayments) (env : Env)
    (winnerIn : CPatriotnodePaymentWinner) (nBlockHeight : Int) (script : CScript)
    (hne : (nBlockHeight, script) ≠ (winnerIn.nBlockHeight, winnerIn.payee)) :
    tallyVotes (self.AddWinningPatriotnode env winnerIn).mapPatriotnodeBlocks nBlockHeight script
      = tallyVotes self.mapPatriotnodeBlocks nBlockHeight script := by
  unfold CPatriotnodePayments.AddWinningPatriotnode tallyVotes
  by_cases hh : nBlockHeight = winnerIn.nBlockHeight
  · subst hh
    have hs : script ≠ winnerIn.payee := fun hc => hne (by rw [hc])
    simp only [mapFind_mapInsert_self, Option.bind_some, CPatriotnodeBlockPayees.AddPayee]
    cases hfind : mapFind self.mapPatriotnodeBlocks winnerIn.nBlockHeight with
    | none =>
      simp [mapCount, hfind, mapFind_mapInsert_self, votesOf_addPayeeVec_ne _ _ _ _ hs]
      simp [votesOf]
    | some entry => simp [mapCount, hfind, votesOf_addPayeeVec_ne _ _ _ _ hs]
  · simp only [mapFind_mapInsert_ne _ _ _ _ _ hh]
    by_cases hc : mapCount self.mapPatriotnodeBlocks winnerIn.nBlockHeight = true
    · simp [hc]
    · simp [hc, mapFind_mapInsert_ne _ _ _ _ _ hh]

/-! ## Claims on replay, rejection and recording -/

/-- C7 (the code at the failing input): voter 1 votes height 200 for `[5]`, then
height 201, then height 200 again for `[6]`; all three calls return true and the
tally of height 200 holds a vote of voter 1 for each destination. Without the
vote for height 201 in between, the second vote for height 200 is refused. -/
theorem ProcessPNWinner_second_vote_after_other_height :
    (processVotes (exampleEnv 200 40) CPatriotnodePayments.empty
        [exampleVote 1 200 [5], exampleVote 1 201 [5], exampleVote 1 200 [6]]).map
      (fun out => (out.2, tallyVotes out.1.mapPatriotnodeBlocks 200 [5],
        tallyVotes out.1.mapPatriotnodeBlocks 200 [6]))
      = some ([true, true, true], some 1, some 1) ∧
    (processVotes (exampleEnv 200 40) CPatriotnodePayments.empty
        [exampleVote 1 200 [5], exampleVote 1 200 [6]]).map
      (fun out => (out.2, tallyVotes out.1.mapPatriotnodeBlocks 200 [5],
        tallyVotes out.1.mapPatriotnodeBlocks 200 [6]))
      = some ([true, false], some 1, none) := by
  decide

/-- C8: every call returns, and if it returns false then the vote ledger, the
tallies and the anti-replay cursor are exactly what they were before the call
and no vote is relayed. -/
theorem ProcessPNWinner_rejection_atomic (self : CPatriotnodePayments) (env : Env)
    (winner : CPatriotnodePaymentWinner) (pfrom : Option NodeId) (state : CValidationState) :
    ∃ r, self.ProcessPNWinner env winner pfrom state = some r ∧
      (r.ret = false →
        r.payments.mapPatriotnodePayeeVotes = self.mapPatriotnodePayeeVotes ∧
        r.payments.mapPatriotnodeBlocks = self.mapPatriotnodeBlocks ∧
        r.payments.mapPatriotnodesLastVote = self.mapPatriotnodesLastVote ∧
        r.payments = self ∧
        ∀ hash, Effect.RelayInv hash ∉ r.effects) := by
  obtain ⟨r, hr⟩ := ProcessPNWinner_total self env winner pfrom state
  refine ⟨r, hr, fun hret => ?_⟩
  obtain ⟨h1, h2⟩ := ProcessPNWinner_false_frame self env winner pfrom state r hr hret
  exact ⟨by rw [h1], by rw [h1], by rw [h1], h1, h2⟩

/-- Witness of C8: after one recorded vote, a vote with a bad signature from a
peer is refused and the store with its ledger, tally and cursor is unchanged. -/
theorem ProcessPNWinner_rejection_atomic_witness :
    ∃ r, ((CPatriotnodePayments.empty.RecordWinnerVote ⟨1, 0⟩ 103).AddWinningPatriotnode
          (exampleEnv 102 40) (exampleVote 1 103 [5])).ProcessPNWinner (exampleEnv 102 40)
        { exampleVote 2 103 [5] with vchSig := [] } (some 9) CValidationState.fresh = some r ∧
      r.ret = false ∧
      r.payments = (CPatriotnodePayments.empty.RecordWinnerVote ⟨1, 0⟩ 103).AddWinningPatriotnode
          (exampleEnv 102 40) (exampleVote 1 103 [5]) ∧
      r.effects = [Effect.Misbehaving 9 20] := by
  obtain ⟨r, h1, h2⟩ := ProcessPNWinner_rejection_atomic
    ((CPatriotnodePayments.empty.RecordWinnerVote ⟨1, 0⟩ 103).AddWinningPatriotnode
      (exampleEnv 102 40) (exampleVote 1 103 [5])) (exampleEnv 102 40)
    { exampleVote 2 103 [5] with vchSig := [] } (some 9) CValidationState.fresh
  have h3 : ((CPatriotnodePayments.empty.RecordWinnerVote ⟨1, 0⟩ 103).AddWinningPatriotnode
        (exampleEnv 102 40) (exampleVote 1 103 [5])).ProcessPNWinner (exampleEnv 102 40)
      { exampleVote 2 103 [5] with vchSig := [] } (some 9) CValidationState.fresh =
      some ⟨false, CValidationState.fresh.Error "invalid voter mnwinner signature",
        (CPatriotnodePayments.empty.RecordWinnerVote ⟨1, 0⟩ 103).AddWinningPatriotnode
          (exampleEnv 102 40) (exampleVote 1 103 [5]), [Effect.Misbehaving 9 20]⟩ := by
    decide
  have hr := h1
  rw [h3] at hr
  cases hr
  exact ⟨_, h1, rfl, (h2 rfl).2.2.2.1, rfl⟩

/-- C9: when `ProcessPNWinner` returns true for a vote, the cursor maps its voter
to its height, the ledger maps its hash to the vote, the count of its payee in
the tally of its height is one more than before (1 if there was no entry), every
other cursor entry, ledger entry and tally count is unchanged, and the vote is
relayed if and only if the node is synced. -/
theorem ProcessPNWinner_success_effect (self : CPatriotnodePayments) (env : Env)
    (winner : CPatriotnodePaymentWinner) (pfrom : Option NodeId) (state : CValidationState)
    (r : PNWResult) (hr : self.ProcessPNWinner env winner pfrom state = some r)
    (hret : r.ret = true) :
    mapFind r.payments.mapPatriotnodesLastVote winner.vinPatriotnode.prevout
      = some winner.nBlockHeight ∧
    mapFind r.payments.mapPatriotnodePayeeVotes (winner.GetHash env) = some winner ∧
    tallyVotes r.payments.mapPatriotnodeBlocks winner.nBlockHeight winner.payee =
      some ((tallyVotes self.mapPatriotnodeBlocks winner.nBlockHeight winner.payee).getD 0 + 1) ∧
    (∀ outPatriotnode, outPatriotnode ≠ winner.vinPatriotnode.prevout →
      mapFind r.payments.mapPatriotnodesLastVote outPatriotnode
        = mapFind self.mapPatriotnodesLastVote outPatriotnode) ∧
    (∀ hash, hash ≠ winner.GetHash env →
      mapFind r.payments.mapPatriotnodePayeeVotes hash
        = mapFind self.mapPatriotnodePayeeVotes hash) ∧
    (∀ nBlockHeight script, (nBlockHeight, script) ≠ (winner.nBlockHeight, winner.payee) →
      tallyVotes r.payments.mapPatriotnodeBlocks nBlockHeight script
        = tallyVotes self.mapPatriotnodeBlocks nBlockHeight script) ∧
    (Effect.RelayInv (winner.GetHash env) ∈ r.effects ↔ env.IsSynced = true) := by
  have hres := (ProcessPNWinner_true self env winner pfrom state r hr hret).2
  subst hres
  refine ⟨?_, ?_, ?_, ?_, ?_, ?_, ?_⟩
  · simp [CPatriotnodePayments.AddWinningPatriotnode, CPatriotnodePayments.RecordWinnerVote,
      mapFind_mapInsert_self]
  · simp [CPatriotnodePayments.AddWinningPatriotnode, mapFind_mapInsert_self]
  · exact tallyVotes_AddWinningPatriotnode_self _ env winner
  · intro o ho
    simp [CPatriotnodePayments.AddWinningPatriotnode, CPatriotnodePayments.RecordWinnerVote,
      mapFind_mapInsert_ne _ _ _ _ _ ho]
  · intro k hk
    simp [CPatriotnodePayments.AddWinningPatriotnode, CPatriotnodePayments.RecordWinnerVote,
      mapFind_mapInsert_ne _ _ _ _ _ hk]
  · intro h' p' hne
    exact tallyVotes_AddWinningPatriotnode_ne _ env winner h' p' hne
  · by_cases hs : env.IsSynced = true <;> simp [hs]

/-- Witness of C9: on an empty store the vote of voter 3 for height 103 is
accepted by a synced node; the cursor, the ledger and the tally hold it and it
is relayed. -/
theorem ProcessPNWinner_success_effect_witness :
    mapFind ((CPatriotnodePayments.empty.RecordWinnerVote ⟨3, 0⟩ 103).AddWinningPatriotnode
        (exampleEnv 102 40) (exampleVote 3 103 [5])).mapPatriotnodesLastVote ⟨3, 0⟩ = some 103 ∧
    tallyVotes ((CPatriotnodePayments.empty.RecordWinnerVote ⟨3, 0⟩ 103).AddWinningPatriotnode
        (exampleEnv 102 40) (exampleVote 3 103 [5])).mapPatriotnodeBlocks 103 [5] = some (0 + 1) ∧
    Effect.RelayInv ((exampleVote 3 103 [5]).GetHash (exampleEnv 102 40)) ∈
      [Effect.RelayInv 3103005, Effect.AddedPatriotnodeWinner 3103005] := by
  have h := ProcessPNWinner_success_effect CPatriotnodePayments.empty (exampleEnv 102 40)
    (exampleVote 3 103 [5]) none CValidationState.fresh
    ⟨true, CValidationState.fresh,
      (CPatriotnodePayments.empty.RecordWinnerVote ⟨3, 0⟩ 103).AddWinningPatriotnode
        (exampleEnv 102 40) (exampleVote 3 103 [5]),
      [Effect.RelayInv 3103005, Effect.AddedPatriotnodeWinner 3103005]⟩ (by decide) rfl
  exact ⟨h.1, h.2.2.1, h.2.2.2.2.2.2.mpr rfl⟩

/-- C10: when the hash of a vote is already a key of the ledger, `ProcessPNWinner`
returns false at once: the validation state is returned as it came (no reason
set), ledger, tallies and cursor are unchanged, the only call made is the
already-seen notice to the sync state (no relay, no penalty, no request), and the
outcome is the same whatever the height, count, rank, registration, replay and
signature oracles answer. -/
theorem ProcessPNWinner_duplicate (self : CPatriotnodePayments) (env : Env)
    (winner : CPatriotnodePaymentWinner) (pfrom : Option NodeId) (state : CValidationState)
    (hseen : mapCount self.mapPatriotnodePayeeVotes (winner.GetHash env) = true) :
    self.ProcessPNWinner env winner pfrom state =
        some ⟨false, state, self, [Effect.AddedPatriotnodeWinner (winner.GetHash env)]⟩ ∧
      ∀ other : Env, other.HashWriter = env.HashWriter →
        self.ProcessPNWinner other winner pfrom state =
          self.ProcessPNWinner env winner pfrom state := by
  refine ⟨ProcessPNWinner_seen self env winner pfrom state hseen, fun other hhash => ?_⟩
  have hsame : winner.GetHash other = winner.GetHash env := by
    simp [CPatriotnodePaymentWinner.GetHash, hhash]
  rw [ProcessPNWinner_seen self env winner pfrom state hseen,
    ProcessPNWinner_seen self other winner pfrom state (by rw [hsame]; exact hseen), hsame]

/-- Witness of C10: the vote recorded a moment ago, sent again by peer 9 with an
empty signature, is dropped as already seen. -/
theorem ProcessPNWinner_duplicate_witness :
    ((CPatriotnodePayments.empty.RecordWinnerVote ⟨3, 0⟩ 103).AddWinningPatriotnode
        (exampleEnv 102 40) (exampleVote 3 103 [5])).ProcessPNWinner (exampleEnv 102 40)
      { exampleVote 3 103 [5] with vchSig := [] } (some 9) CValidationState.fresh =
    some ⟨false, CValidationState.fresh,
      (CPatriotnodePayments.empty.RecordWinnerVote ⟨3, 0⟩ 103).AddWinningPatriotnode
        (exampleEnv 102 40) (exampleVote 3 103 [5]),
      [Effect.AddedPatriotnodeWinner 3103005]⟩ :=
  (ProcessPNWinner_duplicate _ (exampleEnv 102 40) { exampleVote 3 103 [5] with vchSig := [] }
    (some 9) CValidationState.fresh (by decide)).1

/-! ## Claims on the signature, voter, payee and version checks -/

/-- C11: a vote that passes the duplicate, range, version, voter-resolution,
rank, payee-shape and replay checks but whose signature does not verify against
the resolved key makes `ProcessPNWinner` return false with reason "invalid voter
mnwinner signature"; nothing is recorded, and the one call made is the penalty
of 20 on the sending peer, made exactly when there is a sending peer. -/
theorem ProcessPNWinner_bad_signature (self : CPatriotnodePayments) (env : Env)
    (winner : CPatriotnodePaymentWinner) (pfrom : Option NodeId) (state : CValidationState)
    (hnew : mapCount self.mapPatriotnodePayeeVotes (winner.GetHash env) = false)
    (hin : ¬ (winner.nBlockHeight < nFirstBlock env.GetBestHeight env.CountEnabled
      ∨ winner.nBlockHeight > env.GetBestHeight + 20))
    (hver : winner.nMessVersion = MessageVersion.MESS_VER_HASH)
    (hres : voterResolves env winner = true)
    (hrank1 : 1 ≤ env.GetPatriotnodeRank winner.vinPatriotnode (winner.nBlockHeight - 100))
    (hrank2 : env.GetPatriotnodeRank winner.vinPatriotnode (winner.nBlockHeight - 100)
      ≤ PNPAYMENTS_SIGNATURES_TOTAL)
    (hpayee : env.IsPayToPublicKeyHash winner.payee = true)
    (hcan : self.CanVote winner.vinPatriotnode.prevout winner.nBlockHeight = true)
    (hsig : signatureValid env winner = false) :
    self.ProcessPNWinner env winner pfrom state =
        some ⟨false, state.Error "invalid voter mnwinner signature", self,
          match pfrom with
          | some peer => [Effect.Misbehaving peer 20]
          | none => []⟩ ∧
      (state.Error "invalid voter mnwinner signature").GetRejectReason
        = "invalid voter mnwinner signature" := by
  have hvalid : (winner.IsValid env pfrom state env.GetBestHeight).1 = true :=
    (IsValid_true_iff winner env pfrom state env.GetBestHeight).1.mpr ⟨hrank1, hrank2, hpayee⟩
  refine ⟨?_, rfl⟩
  rw [ProcessPNWinner_resolved self env winner pfrom state hnew hin hver hres,
    (IsValid_true_iff winner env pfrom state env.GetBestHeight).2 hvalid]
  simp [hvalid, hcan, hsig]

/-- Witness of C11: the second-ranked voter's vote with an empty signature,
sent by peer 9, is refused and peer 9 is penalized by 20. -/
theorem ProcessPNWinner_bad_signature_witness :
    CPatriotnodePayments.empty.ProcessPNWinner (exampleEnv 102 40)
        { exampleVote 2 103 [5] with vchSig := [] } (some 9) CValidationState.fresh =
      some ⟨false, CValidationState.fresh.Error "invalid voter mnwinner signature",
        CPatriotnodePayments.empty, [Effect.Misbehaving 9 20]⟩ :=
  (ProcessPNWinner_bad_signature CPatriotnodePayments.empty (exampleEnv 102 40)
    { exampleVote 2 103 [5] with vchSig := [] } (some 9) CValidationState.fresh
    (by decide) (by decide) (by decide) (by decide) (by decide) (by decide) (by decide)
    (by decide) (by decide)).1

/-- C12: a vote that is not yet seen, inside the window and of the hash-signed
version, whose voter is in neither the deterministic nor the legacy list, makes
`ProcessPNWinner` return false with reason "Non-existent mnwinner voter"; nothing
is recorded, the peer is never penalized, and the missing patriotnode is asked
from the peer if and only if a peer is present and the node is synced. -/
theorem ProcessPNWinner_unknown_voter (self : CPatriotnodePayments) (env : Env)
    (winner : CPatriotnodePaymentWinner) (pfrom : Option NodeId) (state : CValidationState)
    (hnew : mapCount self.mapPatriotnodePayeeVotes (winner.GetHash env) = false)
    (hin : ¬ (winner.nBlockHeight < nFirstBlock env.GetBestHeight env.CountEnabled
      ∨ winner.nBlockHeight > env.GetBestHeight + 20))
    (hver : winner.nMessVersion = MessageVersion.MESS_VER_HASH)
    (hdmn : env.GetPNByCollateral winner.vinPatriotnode.prevout = none)
    (hpmn : env.Find winner.vinPatriotnode.prevout = none) :
    ∃ r, self.ProcessPNWinner env winner pfrom state = some r ∧ r.ret = false ∧
      r.state = state.Error "Non-existent mnwinner voter" ∧
      r.state.GetRejectReason = "Non-existent mnwinner voter" ∧
      r.payments = self ∧
      (∀ peer howmuch, Effect.Misbehaving peer howmuch ∉ r.effects) ∧
      (∀ peer, Effect.AskForPN peer winner.vinPatriotnode ∈ r.effects ↔
        (pfrom = some peer ∧ env.IsSynced = true)) ∧
      (r.effects = [] ∨ ∃ peer, r.effects = [Effect.AskForPN peer winner.vinPatriotnode]) := by
  have hres : voterResolves env winner = false := by simp [voterResolves, hdmn, hpmn]
  refine ⟨_, ProcessPNWinner_unknown self env winner pfrom state hnew hin hver hres,
    rfl, rfl, rfl, rfl, ?_, ?_, ?_⟩
  · intro peer howmuch
    cases pfrom with
    | none => simp
    | some p => by_cases hs : env.IsSynced = true <;> simp [hs]
  · intro peer
    cases pfrom with
    | none => simp
    | some p => by_cases hs : env.IsSynced = true <;> simp [hs, eq_comm]
  · cases pfrom with
    | none => simp
    | some p => by_cases hs : env.IsSynced = true <;> simp [hs]

/-- Witness of C12: with an empty legacy list, the vote sent by peer 9 to a
synced node is refused as coming from a non-existent voter and the patriotnode is
asked from peer 9. -/
theorem ProcessPNWinner_unknown_voter_witness :
    ∃ r, CPatriotnodePayments.empty.ProcessPNWinner
        { exampleEnv 102 40 with Find := fun _ => none } (exampleVote 2 103 [5]) (some 9)
        CValidationState.fresh = some r ∧ r.ret = false ∧
      r.state = CValidationState.fresh.Error "Non-existent mnwinner voter" ∧
      Effect.AskForPN 9 (exampleVote 2 103 [5]).vinPatriotnode ∈ r.effects := by
  obtain ⟨r, h1, h2, h3, _, _, _, h7, _⟩ := ProcessPNWinner_unknown_voter
    CPatriotnodePayments.empty { exampleEnv 102 40 with Find := fun _ => none }
    (exampleVote 2 103 [5]) (some 9) CValidationState.fresh (by decide) (by decide) (by decide)
    rfl rfl
  exact ⟨r, h1, h2, h3, (h7 9).mpr ⟨rfl, rfl⟩⟩

/-- Counterexample to C13 as stated: the payee `OP_TRUE` is not P2PKH, the voter
is known and ranked third, yet for a height beyond the window the reason is
"block height out of range", not "payee must be a P2PKH". -/
theorem ProcessPNWinner_bad_payee_other_reason :
    (exampleEnvScripts 102 40).IsPayToPublicKeyHash (exampleVote 3 123 [0x51]).payee = false ∧
    voterResolves (exampleEnvScripts 102 40) (exampleVote 3 123 [0x51]) = true ∧
    (exampleEnvScripts 102 40).GetPatriotnodeRank (exampleVote 3 123 [0x51]).vinPatriotnode
      ((exampleVote 3 123 [0x51]).nBlockHeight - 100) = 3 ∧
    (CPatriotnodePayments.empty.ProcessPNWinner (exampleEnvScripts 102 40)
        (exampleVote 3 123 [0x51]) none CValidationState.fresh).map
      (fun r => (r.ret, r.state.GetRejectReason)) = some (false, "block height out of range") := by
  decide

/-- C13 (amended): a vote whose payee is not a pay-to-public-key-hash script is
never recorded: `ProcessPNWinner` returns false and leaves the store as it was;
when the vote is not yet seen, inside the height window and of the hash-signed
version, and its voter is known and ranked within the quorum, the reason is
"payee must be a P2PKH", whatever that rank and whatever the signature. -/
theorem ProcessPNWinner_payee_not_p2pkh (self : CPatriotnodePayments) (env : Env)
    (winner : CPatriotnodePaymentWinner) (pfrom : Option NodeId) (state : CValidationState)
    (hpayee : env.IsPayToPublicKeyHash winner.payee = false) :
    ∃ r, self.ProcessPNWinner env winner pfrom state = some r ∧ r.ret = false ∧
      r.payments = self ∧
      (mapCount self.mapPatriotnodePayeeVotes (winner.GetHash env) = false →
        ¬ (winner.nBlockHeight < nFirstBlock env.GetBestHeight env.CountEnabled
          ∨ winner.nBlockHeight > env.GetBestHeight + 20) →
        winner.nMessVersion = MessageVersion.MESS_VER_HASH →
        voterResolves env winner = true →
        1 ≤ env.GetPatriotnodeRank winner.vinPatriotnode (winner.nBlockHeight - 100) →
        env.GetPatriotnodeRank winner.vinPatriotnode (winner.nBlockHeight - 100)
          ≤ PNPAYMENTS_SIGNATURES_TOTAL →
        r.state = state.Error "payee must be a P2PKH" ∧
        r.state.GetRejectReason = "payee must be a P2PKH") := by
  have hinvalid : (winner.IsValid env pfrom state env.GetBestHeight).1 = false := by
    cases hv : (winner.IsValid env pfrom state env.GetBestHeight).1 with
    | false => rfl
    | true =>
      have h := (IsValid_true_iff winner env pfrom state env.GetBestHeight).1.mp hv
      rw [hpayee] at h
      exact absurd h.2.2 (by simp)
  obtain ⟨r, hr⟩ := ProcessPNWinner_total self env winner pfrom state
  have hret : r.ret = false := by
    cases hb : r.ret with
    | false => rfl
    | true =>
      have h := (ProcessPNWinner_true self env winner pfrom state r hr hb).1
      rw [hinvalid] at h
      exact absurd h.2.2.2.2.1 (by simp)
  refine ⟨r, hr, hret, (ProcessPNWinner_false_frame self env winner pfrom state r hr hret).1, ?_⟩
  intro hnew hin hver hres hr1 hr2
  rw [ProcessPNWinner_resolved self env winner pfrom state hnew hin hver hres, if_pos hinvalid] at hr
  cases hr
  rcases IsValid_false winner env pfrom state env.GetBestHeight hinvalid with ⟨h1, _⟩ | ⟨_, _, h2⟩
  · rcases h1 with h1 | h1
    · exact absurd hr1 (not_le.mpr h1)
    · exact absurd hr2 (not_le.mpr h1)
  · exact ⟨h2, by rw [h2]; rfl⟩

/-- Witness of C13 (amended): the third-ranked voter votes for the script
`OP_TRUE` with a valid signature, as in the unit test; the vote is refused with
reason "payee must be a P2PKH". -/
theorem ProcessPNWinner_payee_not_p2pkh_witness :
    ∃ r, CPatriotnodePayments.empty.ProcessPNWinner (exampleEnvScripts 102 40)
        (exampleVote 3 103 [0x51]) none CValidationState.fresh = some r ∧ r.ret = false ∧
      r.payments = CPatriotnodePayments.empty ∧
      r.state = CValidationState.fresh.Error "payee must be a P2PKH" ∧
      signatureValid (exampleEnvScripts 102 40) (exampleVote 3 103 [0x51]) = true := by
  obtain ⟨r, h1, h2, h3, h4⟩ := ProcessPNWinner_payee_not_p2pkh CPatriotnodePayments.empty
    (exampleEnvScripts 102 40) (exampleVote 3 103 [0x51]) none CValidationState.fresh
    (by decide)
  exact ⟨r, h1, h2, h3,
    (h4 (by decide) (by decide) (by decide) (by decide) (by decide) (by decide)).1, by decide⟩

/-- Counterexample to C14 as stated: peer 9 sends a vote of the voter ranked 15
and a vote of the third-ranked voter for the script `OP_TRUE`; both are rejected
(outside the quorum, payee not P2PKH) and in neither call is any penalty, or any
other call, made. -/
theorem ProcessPNWinner_quorum_rejections_not_penalized :
    CPatriotnodePayments.empty.ProcessPNWinner (exampleEnvScripts 102 40)
        (exampleVote 15 103 (exampleP2PKH 5)) (some 9) CValidationState.fresh =
      some ⟨false, CValidationState.fresh.Error "Patriotnode not in the top 10 (15)",
        CPatriotnodePayments.empty, []⟩ ∧
    CPatriotnodePayments.empty.ProcessPNWinner (exampleEnvScripts 102 40)
        (exampleVote 3 103 [0x51]) (some 9) CValidationState.fresh =
      some ⟨false, CValidationState.fresh.Error "payee must be a P2PKH",
        CPatriotnodePayments.empty, []⟩ := by
  decide

/-- C14 (amended): of the rejections of a vote, only the bad signature penalizes
the sending peer. Every call returns, and if it penalizes a peer at all, then
that peer is the sender, the penalty is 20, the voter's rank is inside the
quorum, the payee is P2PKH and the signature does not verify; so a rejection for
a rank outside the quorum or for a payee that is not P2PKH penalizes nobody. -/
theorem ProcessPNWinner_penalty_only_for_signature (self : CPatriotnodePayments) (env : Env)
    (winner : CPatriotnodePaymentWinner) (pfrom : Option NodeId) (state : CValidationState) :
    ∃ r, self.ProcessPNWinner env winner pfrom state = some r ∧
      (∀ peer howmuch, Effect.Misbehaving peer howmuch ∈ r.effects →
        pfrom = some peer ∧ howmuch = 20 ∧ r.ret = false ∧
        1 ≤ env.GetPatriotnodeRank winner.vinPatriotnode (winner.nBlockHeight - 100) ∧
        env.GetPatriotnodeRank winner.vinPatriotnode (winner.nBlockHeight - 100)
          ≤ PNPAYMENTS_SIGNATURES_TOTAL ∧
        env.IsPayToPublicKeyHash winner.payee = true ∧
        signatureValid env winner = false) ∧
      ((env.GetPatriotnodeRank winner.vinPatriotnode (winner.nBlockHeight - 100) < 1 ∨
          env.GetPatriotnodeRank winner.vinPatriotnode (winner.nBlockHeight - 100)
            > PNPAYMENTS_SIGNATURES_TOTAL ∨
          env.IsPayToPublicKeyHash winner.payee = false) →
        r.ret = false ∧ ∀ peer howmuch, Effect.Misbehaving peer howmuch ∉ r.effects) := by
  obtain ⟨r, hr⟩ := ProcessPNWinner_total self env winner pfrom state
  have hmain : ∀ peer howmuch, Effect.Misbehaving peer howmuch ∈ r.effects →
      pfrom = some peer ∧ howmuch = 20 ∧ r.ret = false ∧
      1 ≤ env.GetPatriotnodeRank winner.vinPatriotnode (winner.nBlockHeight - 100) ∧
      env.GetPatriotnodeRank winner.vinPatriotnode (winner.nBlockHeight - 100)
        ≤ PNPAYMENTS_SIGNATURES_TOTAL ∧
      env.IsPayToPublicKeyHash winner.payee = true ∧
      signatureValid env winner = false := by
    intro peer howmuch hmem
    rcases ProcessPNWinner_cases self env winner pfrom state with
      ⟨_, h⟩ | ⟨_, _, h⟩ | ⟨_, _, _, h⟩ | ⟨_, _, _, _, h⟩ | ⟨_, _, _, _, h⟩
    · rw [h] at hr; cases hr; simp at hmem
    · rw [h] at hr; cases hr; simp at hmem
    · rw [h] at hr; cases hr; simp at hmem
    · rw [h] at hr; cases hr
      cases pfrom with
      | none => simp at hmem
      | some p => by_cases hs : env.IsSynced = true <;> simp [hs] at hmem
    · rw [h] at hr
      split at hr
      · cases hr; simp at hmem
      · rename_i hv
        split at hr
        · cases hr; simp at hmem
        · split at hr
          · rename_i hsig
            cases hr
            have hv1 : (winner.IsValid env pfrom state env.GetBestHeight).1 = true := by
              simpa using hv
            have hq := (IsValid_true_iff winner env pfrom state env.GetBestHeight).1.mp hv1
            cases pfrom with
            | none => simp at hmem
            | some p =>
              simp only [List.mem_singleton, Effect.Misbehaving.injEq] at hmem
              exact ⟨by rw [hmem.1], hmem.2, rfl, hq.1, hq.2.1, hq.2.2, hsig⟩
          · cases hr
            by_cases hs : env.IsSynced = true <;> simp [hs] at hmem
  refine ⟨r, hr, hmain, fun hbad => ?_⟩
  have hno : ∀ peer howmuch, Effect.Misbehaving peer howmuch ∉ r.effects := by
    intro peer howmuch hmem
    obtain ⟨_, _, _, h1, h2, h3, _⟩ := hmain peer howmuch hmem
    rcases hbad with hb | hb | hb
    · exact absurd h1 (not_le.mpr hb)
    · exact absurd h2 (not_le.mpr hb)
    · rw [hb] at h3; exact absurd h3 (by simp)
  refine ⟨?_, hno⟩
  cases hb : r.ret with
  | false => rfl
  | true =>
    have h := (ProcessPNWinner_true self env winner pfrom state r hr hb).1
    have hq := (IsValid_true_iff winner env pfrom state env.GetBestHeight).1.mp h.2.2.2.2.1
    rcases hbad with hb1 | hb1 | hb1
    · exact absurd hq.1 (not_le.mpr hb1)
    · exact absurd hq.2.1 (not_le.mpr hb1)
    · rw [hb1] at hq; exact absurd hq.2.2 (by simp)

/-- Witness of C14 (amended): the vote of the voter ranked 15 sent by peer 9 is
rejected without any penalty. -/
theorem ProcessPNWinner_penalty_only_for_signature_witness :
    ∃ r, CPatriotnodePayments.empty.ProcessPNWinner (exampleEnvScripts 102 40)
        (exampleVote 15 103 (exampleP2PKH 5)) (some 9) CValidationState.fresh = some r ∧
      r.ret = false ∧ ∀ peer howmuch, Effect.Misbehaving peer howmuch ∉ r.effects := by
  obtain ⟨r, h1, _, h3⟩ := ProcessPNWinner_penalty_only_for_signature CPatriotnodePayments.empty
    (exampleEnvScripts 102 40) (exampleVote 15 103 (exampleP2PKH 5)) (some 9)
    CValidationState.fresh
  exact ⟨r, h1, h3 (Or.inr (Or.inl (by decide)))⟩

/-- C15: a vote that is not yet seen and inside the height window, whose message
version is not `MESS_VER_HASH`, makes `ProcessPNWinner` return false with reason
"mnw old message version"; nothing is recorded, no call is made, and the outcome
is the same whatever the registration, rank, payee-shape, sync and signature
oracles answer (they are not consulted). -/
theorem ProcessPNWinner_old_version (self : CPatriotnodePayments) (env : Env)
    (winner : CPatriotnodePaymentWinner) (pfrom : Option NodeId) (state : CValidationState)
    (hnew : mapCount self.mapPatriotnodePayeeVotes (winner.GetHash env) = false)
    (hin : ¬ (winner.nBlockHeight < nFirstBlock env.GetBestHeight env.CountEnabled
      ∨ winner.nBlockHeight > env.GetBestHeight + 20))
    (hver : winner.nMessVersion ≠ MessageVersion.MESS_VER_HASH) :
    self.ProcessPNWinner env winner pfrom state =
        some ⟨false, state.Error "mnw old message version", self, []⟩ ∧
      (state.Error "mnw old message version").GetRejectReason = "mnw old message version" ∧
      ∀ other : Env, other.HashWriter = env.HashWriter →
        other.GetBestHeight = env.GetBestHeight → other.CountEnabled = env.CountEnabled →
        self.ProcessPNWinner other winner pfrom state =
          self.ProcessPNWinner env winner pfrom state := by
  refine ⟨ProcessPNWinner_version self env winner pfrom state hnew hin hver, rfl, ?_⟩
  intro other hhash hheight hcount
  have hsame : winner.GetHash other = winner.GetHash env := by
    simp [CPatriotnodePaymentWinner.GetHash, hhash]
  rw [ProcessPNWinner_version self env winner pfrom state hnew hin hver,
    ProcessPNWinner_version self other winner pfrom state (by rw [hsame]; exact hnew)
      (by rw [hheight, hcount]; exact hin) hver]

/-- Witness of C15: a vote of the legacy string-signed version is refused as old. -/
theorem ProcessPNWinner_old_version_witness :
    CPatriotnodePayments.empty.ProcessPNWinner (exampleEnv 102 40)
        { exampleVote 2 103 [5] with nMessVersion := MessageVersion.MESS_VER_STRMESS } (some 9)
        CValidationState.fresh =
      some ⟨false, CValidationState.fresh.Error "mnw old message version",
        CPatriotnodePayments.empty, []⟩ :=
  (ProcessPNWinner_old_version CPatriotnodePayments.empty (exampleEnv 102 40)
    { exampleVote 2 103 [5] with nMessVersion := MessageVersion.MESS_VER_STRMESS } (some 9)
    CValidationState.fresh (by decide) (by decide) (by decide)).1

/-! ## Claims on `AddWinningPatriotnode` -/

/-- A destination with an entry gets its first entry raised, in place. -/
theorem addPayeeVec_of_mem (vec : List CPatriotnodePayee) (script : CScript) (inc : Int)
    (h : ∃ p ∈ vec, p.scriptPubKey = script) :
    ∃ pre k post, vec = pre ++ ⟨script, k⟩ :: post ∧ (∀ p ∈ pre, p.scriptPubKey ≠ script) ∧
      addPayeeVec script inc vec = pre ++ ⟨script, k + inc⟩ :: post := by
  induction vec with
  | nil => obtain ⟨p, hp, _⟩ := h; simp at hp
  | cons q rest ih =>
    by_cases hq : q.scriptPubKey = script
    · refine ⟨[], q.nVotes, rest, ?_, by simp, ?_⟩
      · cases q; simp_all
      · simp [addPayeeVec, hq]
    · have hrest : ∃ p ∈ rest, p.scriptPubKey = script := by
        obtain ⟨p, hp, hs⟩ := h
        rcases List.mem_cons.mp hp with rfl | hmem
        · exact absurd hs hq
        · exact ⟨p, hmem, hs⟩
      obtain ⟨pre, k, post, h1, h2, h3⟩ := ih hrest
      refine ⟨q :: pre, k, post, by simp [h1], ?_, by simp [addPayeeVec, hq, h3]⟩
      intro p hp
      rcases List.mem_cons.mp hp with rfl | hmem
      · exact hq
      · exact h2 p hmem

/-- A destination without an entry gets a new last entry. -/
theorem addPayeeVec_of_not_mem (vec : List CPatriotnodePayee) (script : CScript) (inc : Int)
    (h : ∀ p ∈ vec, p.scriptPubKey ≠ script) :
    addPayeeVec script inc vec = vec ++ [⟨script, inc⟩] := by
  induction vec with
  | nil => simp [addPayeeVec]
  | cons q rest ih =>
    have hq : q.scriptPubKey ≠ script := h q (List.mem_cons_self _ _)
    simp [addPayeeVec, hq, ih (fun p hp => h p (List.mem_cons_of_mem _ hp))]

/-- The tally of the vote's height after `AddWinningPatriotnode`: the old entries
with one vote added for the payee. -/
theorem tallyEntries_AddWinningPatriotnode (self : CPatriotnodePayments) (env : Env)
    (winnerIn : CPatriotnodePaymentWinner) :
    tallyEntries (self.AddWinningPatriotnode env winnerIn).mapPatriotnodeBlocks
        winnerIn.nBlockHeight =
      addPayeeVec winnerIn.payee 1 (tallyEntries self.mapPatriotnodeBlocks winnerIn.nBlockHeight) := by
  unfold CPatriotnodePayments.AddWinningPatriotnode tallyEntries
  simp only [mapFind_mapInsert_self, CPatriotnodeBlockPayees.AddPayee]
  cases hfind : mapFind self.mapPatriotnodeBlocks winnerIn.nBlockHeight with
  | none => simp [mapCount, hfind, mapFind_mapInsert_self]
  | some entry => simp [mapCount, hfind]

/-- C16: `AddWinningPatriotnode` adds one vote to the tally: the count of the
vote's payee at the vote's height becomes the previous count plus 1 (1 if the
payee or the height had no entry); a tally for the height exists afterwards; an
existing entry of the payee is raised in place and all entries keep their
position, a new entry is appended last; no count of any destination at any
height decreases. -/
theorem AddWinningPatriotnode_adds_one_vote (self : CPatriotnodePayments) (env : Env)
    (winnerIn : CPatriotnodePaymentWinner) :
    tallyVotes (self.AddWinningPatriotnode env winnerIn).mapPatriotnodeBlocks
        winnerIn.nBlockHeight winnerIn.payee =
      some ((tallyVotes self.mapPatriotnodeBlocks winnerIn.nBlockHeight winnerIn.payee).getD 0
        + 1) ∧
    mapCount (self.AddWinningPatriotnode env winnerIn).mapPatriotnodeBlocks
      winnerIn.nBlockHeight = true ∧
    ((∃ p ∈ tallyEntries self.mapPatriotnodeBlocks winnerIn.nBlockHeight,
        p.scriptPubKey = winnerIn.payee) →
      ∃ pre k post,
        tallyEntries self.mapPatriotnodeBlocks winnerIn.nBlockHeight
          = pre ++ ⟨winnerIn.payee, k⟩ :: post ∧
        (∀ p ∈ pre, p.scriptPubKey ≠ winnerIn.payee) ∧
        tallyEntries (self.AddWinningPatriotnode env winnerIn).mapPatriotnodeBlocks
            winnerIn.nBlockHeight
          = pre ++ ⟨winnerIn.payee, k + 1⟩ :: post) ∧
    ((∀ p ∈ tallyEntries self.mapPatriotnodeBlocks winnerIn.nBlockHeight,
        p.scriptPubKey ≠ winnerIn.payee) →
      tallyEntries (self.AddWinningPatriotnode env winnerIn).mapPatriotnodeBlocks
          winnerIn.nBlockHeight
        = tallyEntries self.mapPatriotnodeBlocks winnerIn.nBlockHeight
          ++ [⟨winnerIn.payee, 1⟩]) ∧
    (∀ nBlockHeight script k,
      tallyVotes self.mapPatriotnodeBlocks nBlockHeight script = some k →
      ∃ k', tallyVotes (self.AddWinningPatriotnode env winnerIn).mapPatriotnodeBlocks
          nBlockHeight script = some k' ∧ k ≤ k') := by
  refine ⟨tallyVotes_AddWinningPatriotnode_self self env winnerIn, ?_, ?_, ?_, ?_⟩
  · simp [CPatriotnodePayments.AddWinningPatriotnode, mapCount, mapFind_mapInsert_self]
  · intro h
    rw [tallyEntries_AddWinningPatriotnode]
    exact addPayeeVec_of_mem _ _ 1 h
  · intro h
    rw [tallyEntries_AddWinningPatriotnode]
    exact addPayeeVec_of_not_mem _ _ 1 h
  · intro nBlockHeight script k hk
    by_cases hne : (nBlockHeight, script) = (winnerIn.nBlockHeight, winnerIn.payee)
    · obtain ⟨h1, h2⟩ := Prod.mk.inj hne
      subst h1; subst h2
      rw [tallyVotes_AddWinningPatriotnode_self, hk]
      exact ⟨k + 1, rfl, by simp⟩
    · rw [tallyVotes_AddWinningPatriotnode_ne self env winnerIn nBlockHeight script hne]
      exact ⟨k, hk, le_refl k⟩

/-- Witness of C16: on a store holding one vote for `[5]` at height 103, a vote
for the new destination `[6]` appends its entry last. -/
theorem AddWinningPatriotnode_adds_one_vote_witness :
    tallyEntries (((CPatriotnodePayments.empty.AddWinningPatriotnode (exampleEnv 102 40)
        (exampleVote 1 103 [5])).AddWinningPatriotnode (exampleEnv 102 40)
        (exampleVote 2 103 [6])).mapPatriotnodeBlocks) 103 =
      tallyEntries (CPatriotnodePayments.empty.AddWinningPatriotnode (exampleEnv 102 40)
        (exampleVote 1 103 [5])).mapPatriotnodeBlocks 103 ++ [⟨[6], 1⟩] :=
  (AddWinningPatriotnode_adds_one_vote
    (CPatriotnodePayments.empty.AddWinningPatriotnode (exampleEnv 102 40) (exampleVote 1 103 [5]))
    (exampleEnv 102 40) (exampleVote 2 103 [6])).2.2.2.1 (by decide)

/-! ## Lemmas on cleanup -/

/-- Erasing a key keeps the entries with another key. -/
theorem mapErase_eq_filter {K V : Type} [DecidableEq K] (m : List (K × V)) (k : K) :
    mapErase m k = m.filter (fun e => !decide (e.1 = k)) := by
  induction m with
  | nil => rfl
  | cons e rest ih =>
    obtain ⟨k', v⟩ := e
    by_cases h : k' = k <;> simp [mapErase, h, ih]

/-- Lookup after filtering on the key. -/
theorem mapFind_filter_key {K V : Type} [DecidableEq K] (m : List (K × V)) (q : K → Bool)
    (k : K) :
    mapFind (m.filter (fun e => q e.1)) k = if q k = true then mapFind m k else none := by
  induction m with
  | nil => simp [mapFind]
  | cons e rest ih =>
    obtain ⟨k', v⟩ := e
    by_cases h : k' = k
    · subst h
      by_cases hq : q k' = true
      · simp [List.filter_cons, hq, mapFind]
      · simp [List.filter_cons, hq, mapFind, ih]
    · by_cases hq : q k' = true
      · simp [List.filter_cons, hq, mapFind, h, ih]
      · simp [List.filter_cons, hq, mapFind, h, ih]

/-- A key is present exactly when some entry carries it. -/
theorem mapCount_eq_true_iff {K V : Type} [DecidableEq K] (m : List (K × V)) (k : K) :
    mapCount m k = true ↔ ∃ e ∈ m, e.1 = k := by
  induction m with
  | nil => simp [mapCount, mapFind]
  | cons e rest ih =>
    obtain ⟨k', v⟩ := e
    by_cases h : k' = k
    · simp [mapCount, mapFind, h]
    · simp only [mapCount, mapFind, h, if_false, List.mem_cons, exists_eq_or_imp, false_or]
      exact ih

/-- Closed form of the cleanup loop: the ledger loses the keys of the visited
entries that are too old, the tallies lose the heights of those entries. -/
theorem cleanPaymentLoop_eq (nHeight nLimit : Int)
    (snap : List (uint256 × CPatriotnodePaymentWinner)) (self : CPatriotnodePayments) :
    cleanPaymentLoop nHeight nLimit snap self =
      { self with
        mapPatriotnodePayeeVotes := self.mapPatriotnodePayeeVotes.filter
          (fun e => !snap.any
            (fun x => decide (x.1 = e.1) && decide (nHeight - x.2.nBlockHeight > nLimit)))
        mapPatriotnodeBlocks := self.mapPatriotnodeBlocks.filter
          (fun b => !snap.any
            (fun x => decide (x.2.nBlockHeight = b.1)
              && decide (nHeight - x.2.nBlockHeight > nLimit))) } := by
  induction snap generalizing self with
  | nil => simp [cleanPaymentLoop]
  | cons x rest ih =>
    obtain ⟨hash, winner⟩ := x
    by_cases hold : nHeight - winner.nBlockHeight > nLimit
    · simp only [cleanPaymentLoop, hold, if_true, ih, mapErase_eq_filter, List.filter_filter,
        List.any_cons, decide_True, Bool.and_true]
      congr 1
      · apply List.filter_congr
        intro e _
        by_cases h1 : e.1 = hash
        · simp [h1]
        · have h2 : ¬ hash = e.1 := fun h => h1 h.symm
          simp [h1, h2]
      · apply List.filter_congr
        intro b _
        by_cases h1 : b.1 = winner.nBlockHeight
        · simp [h1]
        · have h2 : ¬ winner.nBlockHeight = b.1 := fun h => h1 h.symm
          simp [h1, h2]
    · simp only [cleanPaymentLoop, hold, if_false, ih, List.any_cons, decide_False,
        Bool.and_false, Bool.false_or]

/-- With distinct ledger keys, cleanup keeps exactly the votes that are not too old. -/
theorem CleanPaymentList_votes (self : CPatriotnodePayments) (mnCount nHeight : Int)
    (hkeys : (self.mapPatriotnodePayeeVotes.map Prod.fst).Nodup) :
    (self.CleanPaymentList mnCount nHeight).mapPatriotnodePayeeVotes =
      self.mapPatriotnodePayeeVotes.filter
        (fun e => decide (nHeight - e.2.nBlockHeight ≤ cleanLimit mnCount)) := by
  unfold CPatriotnodePayments.CleanPaymentList
  rw [cleanPaymentLoop_eq]
  apply List.filter_congr
  intro e he
  by_cases hold : nHeight - e.2.nBlockHeight ≤ cleanLimit mnCount
  · have hnone : (self.mapPatriotnodePayeeVotes.any
        (fun x => decide (x.1 = e.1)
          && decide (nHeight - x.2.nBlockHeight > cleanLimit mnCount))) = false := by
      rw [Bool.eq_false_iff]
      intro hc
      obtain ⟨x, hx, hcond⟩ := List.any_eq_true.mp hc
      simp only [Bool.and_eq_true, decide_eq_true_eq] at hcond
      have hxe : x = e := List.inj_on_of_nodup_map hkeys hx he hcond.1
      subst hxe
      omega
    simp [hnone, hold]
  · have hsome : (self.mapPatriotnodePayeeVotes.any
        (fun x => decide (x.1 = e.1)
          && decide (nHeight - x.2.nBlockHeight > cleanLimit mnCount))) = true := by
      apply List.any_eq_true.mpr
      exact ⟨e, he, by simp; omega⟩
    simp [hsome, hold]

/-- After cleanup the tally of a height is gone if a ledger vote of that height
was too old, and is untouched otherwise. -/
theorem CleanPaymentList_blocks (self : CPatriotnodePayments) (mnCount nHeight : Int)
    (nBlockHeight : Int) :
    mapFind (self.CleanPaymentList mnCount nHeight).mapPatriotnodeBlocks nBlockHeight =
      if (self.mapPatriotnodePayeeVotes.any
          (fun x => decide (x.2.nBlockHeight = nBlockHeight)
            && decide (nHeight - x.2.nBlockHeight > cleanLimit mnCount))) = true
      then none else mapFind self.mapPatriotnodeBlocks nBlockHeight := by
  unfold CPatriotnodePayments.CleanPaymentList
  rw [cleanPaymentLoop_eq]
  simp only
  rw [mapFind_filter_key self.mapPatriotnodeBlocks
    (fun k => !self.mapPatriotnodePayeeVotes.any
      (fun x => decide (x.2.nBlockHeight = k)
        && decide (nHeight - x.2.nBlockHeight > cleanLimit mnCount))) nBlockHeight]
  by_cases h : (self.mapPatriotnodePayeeVotes.any
      (fun x => decide (x.2.nBlockHeight = nBlockHeight)
        && decide (nHeight - x.2.nBlockHeight > cleanLimit mnCount))) = true
  · simp [h]
  · simp [h]

/-- For a non-negative count the retention limit is `max(floor(1.25 * mnCount), 1000)`. -/
theorem cleanLimit_of_nonneg (mnCount : Int) (h : 0 ≤ mnCount) :
    cleanLimit mnCount = max (5 * mnCount / 4) 1000 := by
  unfold cleanLimit
  rw [Int.tdiv_eq_ediv (by omega) (by omega)]

/-- Cleanup never writes the cursor or `nLastBlockHeight`. -/
theorem CleanPaymentList_frame (self : CPatriotnodePayments) (mnCount nHeight : Int) :
    (self.CleanPaymentList mnCount nHeight).mapPatriotnodesLastVote
        = self.mapPatriotnodesLastVote ∧
      (self.CleanPaymentList mnCount nHeight).nLastBlockHeight = self.nLastBlockHeight := by
  unfold CPatriotnodePayments.CleanPaymentList
  rw [cleanPaymentLoop_eq]
  exact ⟨rfl, rfl⟩

/-! ## Claims on `CleanPaymentList` -/

/-- C18: for a ledger (a map, so with distinct keys), a count `mnCount >= 0` and a
height `nHeight`, the ledger after `CleanPaymentList(mnCount, nHeight)` consists
of exactly the entries of the previous ledger whose vote `v` has
`nHeight - v.nBlockHeight <= N`, `N = max(floor(1.25 * mnCount), 1000)`, each
unchanged and in the same order; and the tally of every height that still has a
retained vote is unchanged. -/
theorem CleanPaymentList_retains (self : CPatriotnodePayments) (mnCount nHeight : Int)
    (hcount : 0 ≤ mnCount)
    (hkeys : (self.mapPatriotnodePayeeVotes.map Prod.fst).Nodup) :
    (self.CleanPaymentList mnCount nHeight).mapPatriotnodePayeeVotes =
        self.mapPatriotnodePayeeVotes.filter
          (fun e => decide (nHeight - e.2.nBlockHeight ≤ max (5 * mnCount / 4) 1000)) ∧
      ∀ e ∈ (self.CleanPaymentList mnCount nHeight).mapPatriotnodePayeeVotes,
        mapFind (self.CleanPaymentList mnCount nHeight).mapPatriotnodeBlocks e.2.nBlockHeight
          = mapFind self.mapPatriotnodeBlocks e.2.nBlockHeight := by
  have hvotes := CleanPaymentList_votes self mnCount nHeight hkeys
  refine ⟨by rw [hvotes, cleanLimit_of_nonneg mnCount hcount], ?_⟩
  intro e he
  rw [hvotes] at he
  have hkeep : nHeight - e.2.nBlockHeight ≤ cleanLimit mnCount := by
    simpa using (List.mem_filter.mp he).2
  rw [CleanPaymentList_blocks]
  have hnone : (self.mapPatriotnodePayeeVotes.any
      (fun x => decide (x.2.nBlockHeight = e.2.nBlockHeight)
        && decide (nHeight - x.2.nBlockHeight > cleanLimit mnCount))) = false := by
    rw [Bool.eq_false_iff]
    intro hc
    obtain ⟨x, _, hcond⟩ := List.any_eq_true.mp hc
    simp only [Bool.and_eq_true, decide_eq_true_eq] at hcond
    omega
  simp [hnone]

/-- Witness of C18: of two votes, for heights 103 and 1150, a cleanup at height
1200 with 40 nodes (limit 1000) keeps the vote for 1150 and its tally. -/
theorem CleanPaymentList_retains_witness :
    (((CPatriotnodePayments.empty.AddWinningPatriotnode (exampleEnv 102 40)
          (exampleVote 1 103 [5])).AddWinningPatriotnode (exampleEnv 102 40)
          (exampleVote 2 1150 [6])).CleanPaymentList 40 1200).mapPatriotnodePayeeVotes
      = [(3150006, exampleVote 2 1150 [6])] ∧
    mapFind (((CPatriotnodePayments.empty.AddWinningPatriotnode (exampleEnv 102 40)
          (exampleVote 1 103 [5])).AddWinningPatriotnode (exampleEnv 102 40)
          (exampleVote 2 1150 [6])).CleanPaymentList 40 1200).mapPatriotnodeBlocks 1150
      = some ⟨1150, [⟨[6], 1⟩]⟩ := by
  have h := CleanPaymentList_retains
    ((CPatriotnodePayments.empty.AddWinningPatriotnode (exampleEnv 102 40)
      (exampleVote 1 103 [5])).AddWinningPatriotnode (exampleEnv 102 40) (exampleVote 2 1150 [6]))
    40 1200 (by decide) (by decide)
  refine ⟨h.1.trans (by decide), ?_⟩
  have h2 := h.2 (3150006, exampleVote 2 1150 [6]) (by rw [h.1]; decide)
  exact h2.trans (by decide)

/-- Counterexample to C19 as stated: voter 3 has a recorded vote for height 103;
a cleanup at height 2000 purges that vote and the tally of height 103, and the
cursor still maps voter 3 to height 103. -/
theorem CleanPaymentList_cursor_keeps_purged_height :
    (((CPatriotnodePayments.empty.RecordWinnerVote ⟨3, 0⟩ 103).AddWinningPatriotnode
        (exampleEnv 102 40) (exampleVote 3 103 [5])).mapPatriotnodePayeeVotes
      = [(3103005, exampleVote 3 103 [5])]) ∧
    (((CPatriotnodePayments.empty.RecordWinnerVote ⟨3, 0⟩ 103).AddWinningPatriotnode
        (exampleEnv 102 40) (exampleVote 3 103 [5])).CleanPaymentList 40 2000)
      = ⟨[], [], [(⟨3, 0⟩, 103)], 0⟩ := by
  decide

/-- C19 (amended): cleanup does not cover the anti-replay cursor:
`CleanPaymentList` purges ledger entries and tallies only and leaves the
voter-to-last-height cursor (and `nLastBlockHeight`) exactly as it was, so a
cursor entry may still hold the height of a purged vote. -/
theorem CleanPaymentList_cursor_unchanged (self : CPatriotnodePayments)
    (mnCount nHeight : Int) :
    (self.CleanPaymentList mnCount nHeight).mapPatriotnodesLastVote
        = self.mapPatriotnodesLastVote ∧
      (self.CleanPaymentList mnCount nHeight).nLastBlockHeight = self.nLastBlockHeight ∧
      ∀ outPatriotnode nBlockHeight,
        (self.CleanPaymentList mnCount nHeight).CanVote outPatriotnode nBlockHeight
          = self.CanVote outPatriotnode nBlockHeight := by
  obtain ⟨h1, h2⟩ := CleanPaymentList_frame self mnCount nHeight
  refine ⟨h1, h2, fun o h => ?_⟩
  simp [CPatriotnodePayments.CanVote, h1]

/-! ## Consistency of tallies and ledger -/

/-- Inserting a new key adds one entry, up to order. -/
theorem mapInsert_perm {K V : Type} [DecidableEq K] (lt : K → K → Bool) (m : List (K × V))
    (k : K) (v : V) (h : mapCount m k = false) :
    (mapInsert lt m k v).Perm ((k, v) :: m) := by
  induction m with
  | nil => simp [mapInsert]
  | cons e rest ih =>
    obtain ⟨k', v'⟩ := e
    have hk : ¬ k' = k := by
      intro hc
      simp [mapCount, mapFind, hc] at h
    have hrest : mapCount rest k = false := by
      simpa [mapCount, mapFind, hk] using h
    by_cases h2 : lt k k' = true
    · simp [mapInsert, hk, h2]
    · simp only [mapInsert, hk, h2, if_false]
      exact ((ih hrest).cons (k', v')).trans (List.Perm.swap _ _ _)

/-- Recording a vote leaves the tallies of the other heights alone. -/
theorem mapFind_AddWinningPatriotnode_ne (self : CPatriotnodePayments) (env : Env)
    (winnerIn : CPatriotnodePaymentWinner) (nBlockHeight : Int)
    (hne : nBlockHeight ≠ winnerIn.nBlockHeight) :
    mapFind (self.AddWinningPatriotnode env winnerIn).mapPatriotnodeBlocks nBlockHeight
      = mapFind self.mapPatriotnodeBlocks nBlockHeight := by
  unfold CPatriotnodePayments.AddWinningPatriotnode
  simp only [mapFind_mapInsert_ne _ _ _ _ _ hne]
  by_cases hc : mapCount self.mapPatriotnodeBlocks winnerIn.nBlockHeight = true
  · simp [hc]
  · simp [hc, mapFind_mapInsert_ne _ _ _ _ _ hne]

/-- A new ledger key adds one vote to the count of its height and destination. -/
theorem ledgerVotes_mapInsert (lt : uint256 → uint256 → Bool)
    (votes : List (uint256 × CPatriotnodePaymentWinner)) (hash : uint256)
    (winner : CPatriotnodePaymentWinner) (hnew : mapCount votes hash = false)
    (nBlockHeight : Int) (script : CScript) :
    ledgerVotes (mapInsert lt votes hash winner) nBlockHeight script =
      ledgerVotes votes nBlockHeight script +
        (if winner.nBlockHeight = nBlockHeight ∧ winner.payee = script then 1 else 0) := by
  unfold ledgerVotes
  rw [((mapInsert_perm lt votes hash winner hnew).filter _).length_eq, List.filter_cons]
  by_cases h : winner.nBlockHeight = nBlockHeight ∧ winner.payee = script
  · simp [h]
  · simp [h]

/-- The empty store is consistent. -/
theorem storeConsistent_empty : storeConsistent CPatriotnodePayments.empty := by
  refine ⟨by simp [CPatriotnodePayments.empty], ?_, ?_⟩
  · intro H P
    simp [CPatriotnodePayments.empty, tallyVotes, mapFind, ledgerVotes]
  · intro H
    simp [CPatriotnodePayments.empty, mapCount, mapFind]

/-- Recording a vote whose hash is new keeps the store consistent. -/
theorem storeConsistent_AddWinningPatriotnode (self : CPatriotnodePayments) (env : Env)
    (winnerIn : CPatriotnodePaymentWinner) (hcons : storeConsistent self)
    (hnew : mapCount self.mapPatriotnodePayeeVotes (winnerIn.GetHash env) = false) :
    storeConsistent (self.AddWinningPatriotnode env winnerIn) := by
  obtain ⟨hk, hA, hB⟩ := hcons
  have hvotes : (self.AddWinningPatriotnode env winnerIn).mapPatriotnodePayeeVotes =
      mapInsert (fun a b => decide (a < b)) self.mapPatriotnodePayeeVotes
        (winnerIn.GetHash env) winnerIn := rfl
  have hperm := mapInsert_perm (fun a b => decide (a < b)) self.mapPatriotnodePayeeVotes
    (winnerIn.GetHash env) winnerIn hnew
  have hnotin : winnerIn.GetHash env ∉ self.mapPatriotnodePayeeVotes.map Prod.fst := by
    intro hc
    obtain ⟨e, he, hek⟩ := List.mem_map.mp hc
    have := (mapCount_eq_true_iff self.mapPatriotnodePayeeVotes (winnerIn.GetHash env)).mpr
      ⟨e, he, hek⟩
    rw [hnew] at this
    exact absurd this (by simp)
  refine ⟨?_, ?_, ?_⟩
  · rw [hvotes]
    exact ((hperm.map Prod.fst).nodup_iff).mpr (List.nodup_cons.mpr ⟨hnotin, hk⟩)
  · intro H P
    rw [hvotes, ledgerVotes_mapInsert _ _ _ _ hnew]
    by_cases hHP : (H, P) = (winnerIn.nBlockHeight, winnerIn.payee)
    · obtain ⟨h1, h2⟩ := Prod.mk.inj hHP
      subst h1; subst h2
      rw [tallyVotes_AddWinningPatriotnode_self, hA]
      by_cases hc : ledgerVotes self.mapPatriotnodePayeeVotes winnerIn.nBlockHeight
          winnerIn.payee = 0
      · simp [hc]
      · simp [hc]
    · rw [tallyVotes_AddWinningPatriotnode_ne self env winnerIn H P hHP, hA]
      have hcond : ¬ (winnerIn.nBlockHeight = H ∧ winnerIn.payee = P) := by
        rintro ⟨h1, h2⟩
        exact hHP (by rw [h1, h2])
      simp [hcond]
  · intro H
    by_cases hH : H = winnerIn.nBlockHeight
    · subst hH
      constructor
      · intro _
        exact ⟨(winnerIn.GetHash env, winnerIn),
          by rw [hvotes]; exact hperm.mem_iff.mpr (List.mem_cons_self _ _), rfl⟩
      · intro _
        simp [CPatriotnodePayments.AddWinningPatriotnode, mapCount, mapFind_mapInsert_self]
    · have hfind := mapFind_AddWinningPatriotnode_ne self env winnerIn H hH
      have hcount : mapCount (self.AddWinningPatriotnode env winnerIn).mapPatriotnodeBlocks H
          = mapCount self.mapPatriotnodeBlocks H := by
        simp only [mapCount, hfind]
      rw [hcount, hB H, hvotes]
      constructor
      · rintro ⟨e, he, heh⟩
        exact ⟨e, hperm.mem_iff.mpr (List.mem_cons_of_mem _ he), heh⟩
      · rintro ⟨e, he, heh⟩
        rcases List.mem_cons.mp (hperm.mem_iff.mp he) with rfl | hmem
        · exact absurd heh.symm hH
        · exact ⟨e, hmem, heh⟩

/-- Counting the votes of a height after the old votes are dropped. -/
theorem ledgerVotes_filter_keep (votes : List (uint256 × CPatriotnodePaymentWinner))
    (nHeight nLimit : Int) (nBlockHeight : Int) (script : CScript) :
    ledgerVotes (votes.filter (fun e => decide (nHeight - e.2.nBlockHeight ≤ nLimit)))
        nBlockHeight script =
      if nHeight - nBlockHeight ≤ nLimit then ledgerVotes votes nBlockHeight script else 0 := by
  unfold ledgerVotes
  rw [List.filter_filter]
  by_cases hkeep : nHeight - nBlockHeight ≤ nLimit
  · simp only [hkeep, if_true]
    congr 1
    apply List.filter_congr
    intro e _
    by_cases he : e.2.nBlockHeight = nBlockHeight
    · simp [he, hkeep]
    · simp [he]
  · simp only [hkeep, if_false, List.length_eq_zero, List.filter_eq_nil_iff]
    intro e _
    by_cases he : e.2.nBlockHeight = nBlockHeight
    · simp [he, hkeep]
    · simp [he]

/-- Cleanup keeps the store consistent. -/
theorem storeConsistent_CleanPaymentList (self : CPatriotnodePayments) (mnCount nHeight : Int)
    (hcons : storeConsistent self) :
    storeConsistent (self.CleanPaymentList mnCount nHeight) := by
  obtain ⟨hk, hA, hB⟩ := hcons
  have hvotes := CleanPaymentList_votes self mnCount nHeight hk
  have hold : ∀ H, ¬ nHeight - H ≤ cleanLimit mnCount →
      mapFind (self.CleanPaymentList mnCount nHeight).mapPatriotnodeBlocks H = none := by
    intro H hH
    rw [CleanPaymentList_blocks]
    split
    · rfl
    · rename_i hany
      have hnone : mapCount self.mapPatriotnodeBlocks H = false := by
        rw [Bool.eq_false_iff]
        intro hc
        obtain ⟨e, he, heh⟩ := (hB H).mp hc
        apply hany
        apply List.any_eq_true.mpr
        refine ⟨e, he, ?_⟩
        simp only [Bool.and_eq_true, decide_eq_true_eq]
        exact ⟨heh, by rw [heh]; omega⟩
      simpa [mapCount] using hnone
  have hkeep : ∀ H, nHeight - H ≤ cleanLimit mnCount →
      mapFind (self.CleanPaymentList mnCount nHeight).mapPatriotnodeBlocks H
        = mapFind self.mapPatriotnodeBlocks H := by
    intro H hH
    rw [CleanPaymentList_blocks]
    have hnone : (self.mapPatriotnodePayeeVotes.any
        (fun x => decide (x.2.nBlockHeight = H)
          && decide (nHeight - x.2.nBlockHeight > cleanLimit mnCount))) = false := by
      rw [Bool.eq_false_iff]
      intro hc
      obtain ⟨x, _, hcond⟩ := List.any_eq_true.mp hc
      simp only [Bool.and_eq_true, decide_eq_true_eq] at hcond
      omega
    simp [hnone]
  refine ⟨?_, ?_, ?_⟩
  · rw [hvotes]
    exact hk.sublist ((List.filter_sublist _).map Prod.fst)
  · intro H P
    rw [hvotes, ledgerVotes_filter_keep]
    by_cases hH : nHeight - H ≤ cleanLimit mnCount
    · simp only [hH, if_true]
      rw [← hA H P]
      simp only [tallyVotes, hkeep H hH]
    · simp only [hH, if_false, if_true]
      simp [tallyVotes, hold H hH]
  · intro H
    rw [hvotes]
    by_cases hH : nHeight - H ≤ cleanLimit mnCount
    · have hcount : mapCount (self.CleanPaymentList mnCount nHeight).mapPatriotnodeBlocks H
          = mapCount self.mapPatriotnodeBlocks H := by
        simp only [mapCount, hkeep H hH]
      rw [hcount, hB H]
      constructor
      · rintro ⟨e, he, heh⟩
        refine ⟨e, List.mem_filter.mpr ⟨he, ?_⟩, heh⟩
        simp only [decide_eq_true_eq]
        rw [heh]; exact hH
      · rintro ⟨e, he, heh⟩
        exact ⟨e, (List.mem_filter.mp he).1, heh⟩
    · constructor
      · intro hc
        simp [mapCount, hold H hH] at hc
      · rintro ⟨e, he, heh⟩
        have := (List.mem_filter.mp he).2
        simp only [decide_eq_true_eq] at this
        rw [heh] at this
        exact absurd this hH

/-- A `ProcessPNWinner` call keeps the store consistent, whatever it returns. -/
theorem storeConsistent_ProcessPNWinner (self : CPatriotnodePayments) (env : Env)
    (winner : CPatriotnodePaymentWinner) (pfrom : Option NodeId) (state : CValidationState)
    (r : PNWResult) (hr : self.ProcessPNWinner env winner pfrom state = some r)
    (hcons : storeConsistent self) : storeConsistent r.payments := by
  cases hret : r.ret with
  | false =>
    rw [(ProcessPNWinner_false_frame self env winner pfrom state r hr hret).1]
    exact hcons
  | true =>
    obtain ⟨hchecks, hres⟩ := ProcessPNWinner_true self env winner pfrom state r hr hret
    subst hres
    exact storeConsistent_AddWinningPatriotnode
      (self.RecordWinnerVote winner.vinPatriotnode.prevout winner.nBlockHeight) env winner
      hcons hchecks.1

/-- Every sequence of calls runs to the end and keeps a consistent store consistent. -/
theorem storeConsistent_runCalls (calls : List StoreCall) (self : CPatriotnodePayments)
    (hcons : storeConsistent self) :
    ∃ s, runCalls self calls = some s ∧ storeConsistent s := by
  induction calls generalizing self with
  | nil => exact ⟨self, rfl, hcons⟩
  | cons call rest ih =>
    cases call with
    | vote env winner pfrom state =>
      obtain ⟨r, hr⟩ := ProcessPNWinner_total self env winner pfrom state
      obtain ⟨s, hs, hc⟩ := ih r.payments
        (storeConsistent_ProcessPNWinner self env winner pfrom state r hr hcons)
      exact ⟨s, by simp [runCalls, hr, hs], hc⟩
    | clean mnCount nHeight =>
      obtain ⟨s, hs, hc⟩ := ih (self.CleanPaymentList mnCount nHeight)
        (storeConsistent_CleanPaymentList self mnCount nHeight hcons)
      exact ⟨s, by simp [runCalls, hs], hc⟩

/-- C17: every sequence of `ProcessPNWinner` and `CleanPaymentList` calls from the
empty store runs to the end, and in the store it reaches the count of each
destination in the tally of each height is the number of ledger votes for that
height and destination (no tally entry when that number is 0), and a height has
a tally exactly when some ledger vote has that height. -/
theorem tally_matches_ledger (calls : List StoreCall) :
    ∃ s, runCalls CPatriotnodePayments.empty calls = some s ∧
      (∀ nBlockHeight script,
        tallyVotes s.mapPatriotnodeBlocks nBlockHeight script =
          if ledgerVotes s.mapPatriotnodePayeeVotes nBlockHeight script = 0 then none
          else some (ledgerVotes s.mapPatriotnodePayeeVotes nBlockHeight script : Int)) ∧
      (∀ nBlockHeight,
        mapCount s.mapPatriotnodeBlocks nBlockHeight = true ↔
          ∃ e ∈ s.mapPatriotnodePayeeVotes, e.2.nBlockHeight = nBlockHeight) := by
  obtain ⟨s, hs, _, hA, hB⟩ := storeConsistent_runCalls calls CPatriotnodePayments.empty
    storeConsistent_empty
  exact ⟨s, hs, hA, hB⟩

/-- Witness of C17: after the ten votes of the unit test the tally of height 104
counts 6 and 4, as many as the ledger holds; after a cleanup at height 2000 the
ledger is empty and height 104 has no tally. -/
theorem tally_matches_ledger_witness :
    (∃ s, runCalls CPatriotnodePayments.empty exampleTenVotes = some s ∧
      tallyVotes s.mapPatriotnodeBlocks 104 [5] = some 6 ∧
      tallyVotes s.mapPatriotnodeBlocks 104 [6] = some 4 ∧
      ledgerVotes s.mapPatriotnodePayeeVotes 104 [5] = 6 ∧
      ledgerVotes s.mapPatriotnodePayeeVotes 104 [6] = 4) ∧
    (∃ s, runCalls CPatriotnodePayments.empty (exampleTenVotes ++ [StoreCall.clean 40 2000])
        = some s ∧
      s.mapPatriotnodePayeeVotes = [] ∧ mapCount s.mapPatriotnodeBlocks 104 = false) := by
  constructor
  · obtain ⟨s, hs, hA, _⟩ := tally_matches_ledger exampleTenVotes
    have hd : (runCalls CPatriotnodePayments.empty exampleTenVotes).map
        (fun s => (tallyVotes s.mapPatriotnodeBlocks 104 [5],
          tallyVotes s.mapPatriotnodeBlocks 104 [6])) = some (some 6, some 4) := by
      decide
    rw [hs] at hd
    simp only [Option.map_some', Option.some.injEq, Prod.mk.injEq] at hd
    obtain ⟨h5, h6⟩ := hd
    have hA5 := hA 104 [5]
    have hA6 := hA 104 [6]
    rw [h5] at hA5
    rw [h6] at hA6
    refine ⟨s, hs, h5, h6, ?_, ?_⟩
    · split at hA5
      · simp at hA5
      · have := Option.some.inj hA5
        omega
    · split at hA6
      · simp at hA6
      · have := Option.some.inj hA6
        omega
  · obtain ⟨s, hs, _, hB⟩ :=
      tally_matches_ledger (exampleTenVotes ++ [StoreCall.clean 40 2000])
    have hd : (runCalls CPatriotnodePayments.empty
        (exampleTenVotes ++ [StoreCall.clean 40 2000])).map
        (fun s => s.mapPatriotnodePayeeVotes) = some [] := by
      decide
    rw [hs] at hd
    simp only [Option.map_some', Option.some.injEq] at hd
    refine ⟨s, hs, hd, ?_⟩
    rw [Bool.eq_false_iff]
    intro hc
    obtain ⟨e, he, _⟩ := (hB 104).mp hc
    rw [hd] at he
    simp at he

/-! ## Lemmas on the reward split -/

/-- Lowering one output lowers the total by the same amount. -/
theorem valueOut_set (vout : List CTxOut) (j : Nat) (out : CTxOut) (amount : Int)
    (h : vout[j]? = some out) :
    valueOut (vout.set j { out with nValue := out.nValue - amount }) = valueOut vout - amount := by
  induction vout generalizing j with
  | nil => simp at h
  | cons o rest ih =>
    cases j with
    | zero =>
      simp only [List.getElem?_cons_zero, Option.some.injEq] at h
      subst h
      simp only [valueOut, List.set_cons_zero, List.map_cons, List.sum_cons]
      omega
    | succ j =>
      simp only [List.getElem?_cons_succ] at h
      have := ih j h
      simp only [valueOut, List.set_cons_succ, List.map_cons, List.sum_cons] at this ⊢
      omega

/-- The statement `vout[j].nValue -= amount` on an existing index. -/
theorem subtractAt_valueOut (vout : List CTxOut) (j : Nat) (amount : Int)
    (hj : j < vout.length) :
    ∃ vout1, subtractAt vout j amount = some vout1 ∧
      valueOut vout1 = valueOut vout - amount ∧ vout1.length = vout.length := by
  have hget : vout[j]? = some vout[j] := List.getElem?_eq_getElem hj
  refine ⟨vout.set j { vout[j] with nValue := vout[j].nValue - amount }, ?_, ?_, ?_⟩
  · simp [subtractAt, hget]
  · exact valueOut_set vout j vout[j] amount hget
  · simp

/-- The split loop lowers the total by the split times the number of iterations. -/
theorem subtractLoop_valueOut (mnPaymentSplit : Int) (j n : Nat) (vout : List CTxOut)
    (h : j + n ≤ vout.length) :
    ∃ vout1, subtractLoop mnPaymentSplit j n vout = some vout1 ∧
      valueOut vout1 = valueOut vout - mnPaymentSplit * n ∧ vout1.length = vout.length := by
  induction n generalizing j vout with
  | zero => exact ⟨vout, rfl, by simp, rfl⟩
  | succ n ih =>
    obtain ⟨v1, h1, h2, h3⟩ := subtractAt_valueOut vout j mnPaymentSplit (by omega)
    obtain ⟨v2, h4, h5, h6⟩ := ih (j + 1) v1 (by omega)
    refine ⟨v2, by simp [subtractLoop, h1, h4], ?_, by omega⟩
    rw [h5, h2]
    push_cast
    ring

/-! ## Claims on `SubtractMnPaymentFromCoinstake` -/

/-- C20: for every payment, every `stakerOuts >= 2` and every coinstake with at
least `stakerOuts` outputs, `SubtractMnPaymentFromCoinstake` returns, and the
sum of the output values afterwards is the sum before minus the payment, exactly;
the number of outputs is unchanged. -/
theorem SubtractMnPaymentFromCoinstake_conserves (txCoinstake : CMutableTransaction)
    (patriotnodePayment : Int) (stakerOuts : Int) (hstaker : 2 ≤ stakerOuts)
    (hsize : stakerOuts ≤ txCoinstake.vout.length) :
    ∃ txAfter,
      SubtractMnPaymentFromCoinstake txCoinstake patriotnodePayment stakerOuts = some txAfter ∧
      valueOut txAfter.vout = valueOut txCoinstake.vout - patriotnodePayment ∧
      txAfter.vout.length = txCoinstake.vout.length := by
  unfold SubtractMnPaymentFromCoinstake
  have hassert : ¬ stakerOuts < 2 := by omega
  simp only [hassert, if_false]
  by_cases h2 : stakerOuts = 2
  · obtain ⟨v1, h1, hv, hl⟩ := subtractAt_valueOut txCoinstake.vout 1 patriotnodePayment (by omega)
    exact ⟨⟨v1⟩, by simp [h2, h1], hv, hl⟩
  · simp only [h2, if_false]
    obtain ⟨v1, h1, hv1, hl1⟩ := subtractLoop_valueOut
      (Int.tdiv patriotnodePayment ((stakerOuts - 1).toNat : Int)) 1 (stakerOuts - 1).toNat
      txCoinstake.vout (by omega)
    obtain ⟨v2, h3, hv2, hl2⟩ := subtractAt_valueOut v1 (stakerOuts - 1).toNat
      (patriotnodePayment - Int.tdiv patriotnodePayment ((stakerOuts - 1).toNat : Int)
        * ((stakerOuts - 1).toNat : Int)) (by omega)
    refine ⟨⟨v2⟩, by simp only [h1, h3, Option.map_some'], ?_, hl2.trans hl1⟩
    show valueOut v2 = _
    rw [hv2, hv1]
    ring

/-- Witness of C20: a payment of 10 on a coinstake with four outputs is split
3, 3, 3 + 1 over outputs 1 to 3 (10 div 3 = 3, remainder 1); the total goes
from 100 to 90. -/
theorem SubtractMnPaymentFromCoinstake_conserves_witness :
    ∃ txAfter,
      SubtractMnPaymentFromCoinstake ⟨[⟨0, []⟩, ⟨40, [1]⟩, ⟨30, [1]⟩, ⟨30, [1]⟩]⟩ 10 4
        = some txAfter ∧
      valueOut txAfter.vout = valueOut [⟨0, []⟩, ⟨40, [1]⟩, ⟨30, [1]⟩, ⟨30, [1]⟩] - 10 ∧
      txAfter = ⟨[⟨0, []⟩, ⟨37, [1]⟩, ⟨27, [1]⟩, ⟨26, [1]⟩]⟩ := by
  obtain ⟨txAfter, h1, h2, _⟩ := SubtractMnPaymentFromCoinstake_conserves
    ⟨[⟨0, []⟩, ⟨40, [1]⟩, ⟨30, [1]⟩, ⟨30, [1]⟩]⟩ 10 4 (by decide) (by decide)
  have hd : SubtractMnPaymentFromCoinstake ⟨[⟨0, []⟩, ⟨40, [1]⟩, ⟨30, [1]⟩, ⟨30, [1]⟩]⟩ 10 4
      = some ⟨[⟨0, []⟩, ⟨37, [1]⟩, ⟨27, [1]⟩, ⟨26, [1]⟩]⟩ := by decide
  have heq := h1
  rw [hd] at heq
  exact ⟨txAfter, h1, h2, (Option.some.inj heq).symm⟩

/-! ## Shape of the reward split -/

/-- Outputs after `vout[j].nValue -= amount`, index by index. -/
theorem subtractAt_getElem? (vout vout1 : List CTxOut) (j : Nat) (amount : Int)
    (h : subtractAt vout j amount = some vout1) (i : Nat) :
    vout1[i]? = (vout[i]?).map
      (fun out => if i = j then { out with nValue := out.nValue - amount } else out) := by
  unfold subtractAt at h
  cases hget : vout[j]? with
  | none => simp [hget] at h
  | some out =>
    simp only [hget, Option.some.injEq] at h
    subst h
    rw [List.getElem?_set]
    by_cases hij : j = i
    · subst hij
      have hlt : j < vout.length := by
        by_contra hc
        rw [List.getElem?_eq_none (by omega)] at hget
        simp at hget
      simp [hget, hlt]
    · have hji : ¬ i = j := fun hc => hij hc.symm
      simp only [hij, hji, if_false]
      cases vout[i]? <;> simp

/-- Outputs after the split loop, index by index. -/
theorem subtractLoop_getElem? (mnPaymentSplit : Int) (j n : Nat) (vout vout1 : List CTxOut)
    (h : subtractLoop mnPaymentSplit j n vout = some vout1) (i : Nat) :
    vout1[i]? = (vout[i]?).map
      (fun out => if j ≤ i ∧ i < j + n then { out with nValue := out.nValue - mnPaymentSplit }
        else out) := by
  induction n generalizing j vout with
  | zero =>
    simp only [subtractLoop, Option.some.injEq] at h
    subst h
    have : ¬ (j ≤ i ∧ i < j + 0) := by omega
    simp only [this, if_false]
    cases vout[i]? <;> simp
  | succ n ih =>
    unfold subtractLoop at h
    cases hat : subtractAt vout j mnPaymentSplit with
    | none => simp [hat] at h
    | some v1 =>
      simp only [hat] at h
      rw [ih (j + 1) v1 h, subtractAt_getElem? vout v1 j mnPaymentSplit hat i]
      cases vout[i]? with
      | none => simp
      | some out =>
        simp only [Option.map_some', Option.some.injEq]
        by_cases h1 : i = j
        · have h2 : ¬ (j + 1 ≤ i ∧ i < j + 1 + n) := by omega
          have h3 : j ≤ i ∧ i < j + (n + 1) := by omega
          simp [h1, h2, h3]
        · by_cases h2 : j + 1 ≤ i ∧ i < j + 1 + n
          · have h3 : j ≤ i ∧ i < j + (n + 1) := by omega
            simp [h1, h2, h3]
          · have h3 : ¬ (j ≤ i ∧ i < j + (n + 1)) := by omega
            simp [h1, h2, h3]

/-- Lowering by nothing changes nothing. -/
theorem lower_zero (out : CTxOut) : ({ out with nValue := out.nValue - 0 } : CTxOut) = out := by
  cases out; simp

/-- The split, index by index: for a non-negative payment the code takes from
each output the share the spec names. -/
theorem SubtractMnPaymentFromCoinstake_getElem? (txCoinstake : CMutableTransaction)
    (patriotnodePayment : Int) (stakerOuts : Int) (hpay : 0 ≤ patriotnodePayment)
    (hstaker : 2 ≤ stakerOuts) (hsize : stakerOuts ≤ txCoinstake.vout.length) :
    ∃ txAfter,
      SubtractMnPaymentFromCoinstake txCoinstake patriotnodePayment stakerOuts = some txAfter ∧
      txAfter.vout.length = txCoinstake.vout.length ∧
      ∀ i : Nat, txAfter.vout[i]? = (txCoinstake.vout[i]?).map
        (fun out => { out with
          nValue := out.nValue - splitShare patriotnodePayment stakerOuts i }) := by
  unfold SubtractMnPaymentFromCoinstake
  have hassert : ¬ stakerOuts < 2 := by omega
  simp only [hassert, if_false]
  by_cases h2 : stakerOuts = 2
  · obtain ⟨v1, h1, _, hl⟩ := subtractAt_valueOut txCoinstake.vout 1 patriotnodePayment (by omega)
    refine ⟨⟨v1⟩, by simp [h2, h1], hl, fun i => ?_⟩
    show v1[i]? = _
    rw [subtractAt_getElem? _ _ _ _ h1 i]
    cases txCoinstake.vout[i]? with
    | none => simp
    | some out =>
      simp only [Option.map_some', Option.some.injEq]
      by_cases hi : i = 1
      · have h3 : (i : Int) = stakerOuts - 1 := by omega
        have h4 : ¬ (1 ≤ (i : Int) ∧ (i : Int) ≤ stakerOuts - 2) := by omega
        have hshare : splitShare patriotnodePayment stakerOuts i = patriotnodePayment := by
          unfold splitShare
          rw [if_neg h4, if_pos h3, h2]
          simp
        rw [hshare, if_pos hi]
      · have h3 : ¬ ((i : Int) = stakerOuts - 1) := by omega
        have h4 : ¬ (1 ≤ (i : Int) ∧ (i : Int) ≤ stakerOuts - 2) := by omega
        have hshare : splitShare patriotnodePayment stakerOuts i = 0 := by
          unfold splitShare
          rw [if_neg h4, if_neg h3]
        rw [hshare, if_neg hi, lower_zero]
  · simp only [h2, if_false]
    have hout : ((stakerOuts - 1).toNat : Int) = stakerOuts - 1 := Int.toNat_of_nonneg (by omega)
    obtain ⟨v1, h1, _, hl1⟩ := subtractLoop_valueOut
      (Int.tdiv patriotnodePayment ((stakerOuts - 1).toNat : Int)) 1 (stakerOuts - 1).toNat
      txCoinstake.vout (by omega)
    obtain ⟨v2, h3, _, hl2⟩ := subtractAt_valueOut v1 (stakerOuts - 1).toNat
      (patriotnodePayment - Int.tdiv patriotnodePayment ((stakerOuts - 1).toNat : Int)
        * ((stakerOuts - 1).toNat : Int)) (by omega)
    refine ⟨⟨v2⟩, by simp only [h1, h3, Option.map_some'], hl2.trans hl1, fun i => ?_⟩
    show v2[i]? = _
    rw [subtractAt_getElem? _ _ _ _ h3 i, subtractLoop_getElem? _ _ _ _ _ h1 i]
    have hq : Int.tdiv patriotnodePayment ((stakerOuts - 1).toNat : Int)
        = patriotnodePayment / (stakerOuts - 1) := by
      rw [hout, Int.tdiv_eq_ediv hpay (by omega)]
    rw [hq, hout]
    cases txCoinstake.vout[i]? with
    | none => simp
    | some out =>
      simp only [Option.map_some', Option.some.injEq]
      by_cases hlast : i = (stakerOuts - 1).toNat
      · have hi : (i : Int) = stakerOuts - 1 := by rw [hlast, hout]
        have h4 : ¬ (1 ≤ (i : Int) ∧ (i : Int) ≤ stakerOuts - 2) := by omega
        have h5 : 1 ≤ i ∧ i < 1 + (stakerOuts - 1).toNat := by omega
        have hshare : splitShare patriotnodePayment stakerOuts i =
            patriotnodePayment / (stakerOuts - 1) +
              (patriotnodePayment - patriotnodePayment / (stakerOuts - 1) * (stakerOuts - 1)) := by
          unfold splitShare
          rw [if_neg h4, if_pos hi, Int.emod_def]
          ring
        rw [hshare, if_pos hlast, if_pos h5]
        simp only [CTxOut.mk.injEq, and_true]
        ring
      · by_cases hmid : 1 ≤ (i : Int) ∧ (i : Int) ≤ stakerOuts - 2
        · have h5 : 1 ≤ i ∧ i < 1 + (stakerOuts - 1).toNat := by omega
          have hshare : splitShare patriotnodePayment stakerOuts i =
              patriotnodePayment / (stakerOuts - 1) := by
            unfold splitShare
            rw [if_pos hmid]
          rw [hshare, if_neg hlast, if_pos h5]
        · have h5 : ¬ (1 ≤ i ∧ i < 1 + (stakerOuts - 1).toNat) := by omega
          have h6 : ¬ ((i : Int) = stakerOuts - 1) := by omega
          have hshare : splitShare patriotnodePayment stakerOuts i = 0 := by
            unfold splitShare
            rw [if_neg hmid, if_neg h6]
          rw [hshare, if_neg hlast, if_neg h5, lower_zero]

/-- C21: for a coinstake with `N >= 2` pre-existing outputs and a payment
`p >= 0`, with `q = p div (N-1)` and `r = p mod (N-1)`, where `0 <= r < N-1`:
`SubtractMnPaymentFromCoinstake` lowers each of the outputs 1 to `N-2` by exactly
`q` and output `N-1` by exactly `q + r`; for `N = 2` that is output 1 lowered by
`p`; output 0 and every output at an index `>= N` are unchanged, and so are all
scripts and the number of outputs. -/
theorem SubtractMnPaymentFromCoinstake_shape (txCoinstake : CMutableTransaction)
    (patriotnodePayment : Int) (stakerOuts : Int) (hpay : 0 ≤ patriotnodePayment)
    (hstaker : 2 ≤ stakerOuts) (hsize : stakerOuts ≤ txCoinstake.vout.length) :
    ∃ txAfter,
      SubtractMnPaymentFromCoinstake txCoinstake patriotnodePayment stakerOuts = some txAfter ∧
      0 ≤ patriotnodePayment % (stakerOuts - 1) ∧
      patriotnodePayment % (stakerOuts - 1) < stakerOuts - 1 ∧
      (∀ (i : Nat) (out : CTxOut), 1 ≤ (i : Int) → (i : Int) ≤ stakerOuts - 2 →
        txCoinstake.vout[i]? = some out →
        txAfter.vout[i]? =
          some { out with nValue := out.nValue - patriotnodePayment / (stakerOuts - 1) }) ∧
      (∀ (i : Nat) (out : CTxOut), (i : Int) = stakerOuts - 1 →
        txCoinstake.vout[i]? = some out →
        txAfter.vout[i]? =
          some { out with nValue := out.nValue -
            (patriotnodePayment / (stakerOuts - 1) + patriotnodePayment % (stakerOuts - 1)) }) ∧
      (stakerOuts = 2 → ∀ out : CTxOut, txCoinstake.vout[1]? = some out →
        txAfter.vout[1]? = some { out with nValue := out.nValue - patriotnodePayment }) ∧
      (∀ i : Nat, (i = 0 ∨ stakerOuts ≤ (i : Int)) → txAfter.vout[i]? = txCoinstake.vout[i]?) ∧
      txAfter.vout.length = txCoinstake.vout.length := by
  obtain ⟨txAfter, hsome, hlen, hget⟩ := SubtractMnPaymentFromCoinstake_getElem? txCoinstake
    patriotnodePayment stakerOuts hpay hstaker hsize
  refine ⟨txAfter, hsome, Int.emod_nonneg _ (by omega), Int.emod_lt_of_pos _ (by omega),
    ?_, ?_, ?_, ?_, hlen⟩
  · intro i out h1 h2 hout
    have hshare : splitShare patriotnodePayment stakerOuts i =
        patriotnodePayment / (stakerOuts - 1) := by
      unfold splitShare
      rw [if_pos ⟨h1, h2⟩]
    rw [hget i, hout, Option.map_some', hshare]
  · intro i out h1 hout
    have h4 : ¬ (1 ≤ (i : Int) ∧ (i : Int) ≤ stakerOuts - 2) := by omega
    have hshare : splitShare patriotnodePayment stakerOuts i =
        patriotnodePayment / (stakerOuts - 1) + patriotnodePayment % (stakerOuts - 1) := by
      unfold splitShare
      rw [if_neg h4, if_pos h1]
    rw [hget i, hout, Option.map_some', hshare]
  · intro h2 out hout
    have h4 : ¬ (1 ≤ ((1 : Nat) : Int) ∧ ((1 : Nat) : Int) ≤ stakerOuts - 2) := by omega
    have h3 : ((1 : Nat) : Int) = stakerOuts - 1 := by omega
    have hshare : splitShare patriotnodePayment stakerOuts 1 = patriotnodePayment := by
      unfold splitShare
      rw [if_neg h4, if_pos h3, h2]
      simp
    rw [hget 1, hout, Option.map_some', hshare]
  · intro i hi
    have h4 : ¬ (1 ≤ (i : Int) ∧ (i : Int) ≤ stakerOuts - 2) := by omega
    have h3 : ¬ ((i : Int) = stakerOuts - 1) := by omega
    have hshare : splitShare patriotnodePayment stakerOuts i = 0 := by
      unfold splitShare
      rw [if_neg h4, if_neg h3]
    rw [hget i, hshare]
    cases txCoinstake.vout[i]? with
    | none => rfl
    | some out => rw [Option.map_some', lower_zero]

/-- Witness of C21: a payment of 10 on a coinstake with four pre-existing outputs
and one appended reward output: outputs 1 and 2 lose 3, output 3 loses 3 + 1,
output 0 and the appended output 4 are unchanged. -/
theorem SubtractMnPaymentFromCoinstake_shape_witness :
    SubtractMnPaymentFromCoinstake
        ⟨[⟨0, []⟩, ⟨40, [1]⟩, ⟨30, [1]⟩, ⟨30, [1]⟩, ⟨10, [9]⟩]⟩ 10 4 =
      some ⟨[⟨0, []⟩, ⟨37, [1]⟩, ⟨27, [1]⟩, ⟨26, [1]⟩, ⟨10, [9]⟩]⟩ := by
  obtain ⟨txAfter, h1, _, _, h4, h5, _, h7, h8⟩ := SubtractMnPaymentFromCoinstake_shape
    ⟨[⟨0, []⟩, ⟨40, [1]⟩, ⟨30, [1]⟩, ⟨30, [1]⟩, ⟨10, [9]⟩]⟩ 10 4 (by decide) (by decide)
    (by decide)
  rw [h1]
  have e0 := h7 0 (Or.inl rfl)
  have e1 := h4 1 ⟨40, [1]⟩ (by decide) (by decide) rfl
  have e2 := h4 2 ⟨30, [1]⟩ (by decide) (by decide) rfl
  have e3 := h5 3 ⟨30, [1]⟩ (by decide) rfl
  have e4 := h7 4 (Or.inr (by decide))
  obtain ⟨vout⟩ := txAfter
  simp only [List.length_cons, List.length_nil] at h8
  match vout, h8, e0, e1, e2, e3, e4 with
  | [a, b, c, d, e], _, e0, e1, e2, e3, e4 =>
    simp only [List.getElem?_cons_zero, List.getElem?_cons_succ, Option.some.injEq] at e0 e1 e2 e3 e4
    subst e0 e1 e2 e3 e4
    decide

/-- Counterexample to C22 as stated: the stake outputs 1 and 99 are non-negative
and together hold the payment of 50, yet the even split of 25 each leaves
output 1 at -24. -/
theorem SubtractMnPaymentFromCoinstake_negative_output :
    (∀ out ∈ [(⟨0, []⟩ : CTxOut), ⟨1, [1]⟩, ⟨99, [1]⟩], 0 ≤ out.nValue) ∧
    (50 : Int) ≤ 1 + 99 ∧
    SubtractMnPaymentFromCoinstake ⟨[⟨0, []⟩, ⟨1, [1]⟩, ⟨99, [1]⟩]⟩ 50 3 =
      some ⟨[⟨0, []⟩, ⟨-24, [1]⟩, ⟨74, [1]⟩]⟩ := by
  decide

/-- C22 (amended): for a non-negative payment, `SubtractMnPaymentFromCoinstake`
leaves no output negative when all outputs are non-negative before and each
stake output (1 to `stakerOuts - 1`) holds at least the share taken from it: the
quotient for the outputs 1 to `stakerOuts - 2`, quotient plus remainder for the
last. Holding the payment together is not enough, since the split is even. -/
theorem SubtractMnPaymentFromCoinstake_nonneg (txCoinstake : CMutableTransaction)
    (patriotnodePayment : Int) (stakerOuts : Int) (hpay : 0 ≤ patriotnodePayment)
    (hstaker : 2 ≤ stakerOuts) (hsize : stakerOuts ≤ txCoinstake.vout.length)
    (hnonneg : ∀ out ∈ txCoinstake.vout, 0 ≤ out.nValue)
    (hshare : ∀ (i : Nat) (out : CTxOut), 1 ≤ (i : Int) → (i : Int) ≤ stakerOuts - 1 →
      txCoinstake.vout[i]? = some out →
      splitShare patriotnodePayment stakerOuts i ≤ out.nValue) :
    ∃ txAfter,
      SubtractMnPaymentFromCoinstake txCoinstake patriotnodePayment stakerOuts = some txAfter ∧
      ∀ out ∈ txAfter.vout, 0 ≤ out.nValue := by
  obtain ⟨txAfter, hsome, _, hget⟩ := SubtractMnPaymentFromCoinstake_getElem? txCoinstake
    patriotnodePayment stakerOuts hpay hstaker hsize
  refine ⟨txAfter, hsome, fun out hmem => ?_⟩
  obtain ⟨i, hi⟩ := List.mem_iff_getElem?.mp hmem
  rw [hget i] at hi
  cases hbefore : txCoinstake.vout[i]? with
  | none => rw [hbefore] at hi; simp at hi
  | some before =>
    rw [hbefore, Option.map_some', Option.some.injEq] at hi
    subst hi
    show 0 ≤ before.nValue - splitShare patriotnodePayment stakerOuts i
    by_cases hstake : 1 ≤ (i : Int) ∧ (i : Int) ≤ stakerOuts - 1
    · have := hshare i before hstake.1 hstake.2 hbefore
      omega
    · have h4 : ¬ (1 ≤ (i : Int) ∧ (i : Int) ≤ stakerOuts - 2) := by omega
      have h3 : ¬ ((i : Int) = stakerOuts - 1) := by omega
      have hzero : splitShare patriotnodePayment stakerOuts i = 0 := by
        unfold splitShare
        rw [if_neg h4, if_neg h3]
      have := hnonneg before (List.mem_iff_getElem?.mpr ⟨i, hbefore⟩)
      omega

/-- Witness of C22 (amended): with stake outputs 30 and 70 the payment of 50 is
taken 25 and 25 and no output is negative. -/
theorem SubtractMnPaymentFromCoinstake_nonneg_witness :
    ∃ txAfter,
      SubtractMnPaymentFromCoinstake ⟨[⟨0, []⟩, ⟨30, [1]⟩, ⟨70, [1]⟩]⟩ 50 3 = some txAfter ∧
      ∀ out ∈ txAfter.vout, 0 ≤ out.nValue :=
  SubtractMnPaymentFromCoinstake_nonneg ⟨[⟨0, []⟩, ⟨30, [1]⟩, ⟨70, [1]⟩]⟩ 50 3 (by decide)
    (by decide) (by decide) (by decide)
    (by
      intro i out h1 h2 hout
      have hi : i = 1 ∨ i = 2 := by omega
      rcases hi with rfl | rfl
      · simp only [List.getElem?_cons_succ, List.getElem?_cons_zero, Option.some.injEq] at hout
        subst hout
        decide
      · simp only [List.getElem?_cons_succ, List.getElem?_cons_zero, Option.some.injEq] at hout
        subst hout
        decide)

/-! ## Claims on block assembly -/

/-- Closed form of the loop that appends the reward outputs. -/
theorem appendMnOuts_eq (fPayCoinstake : Bool) (outs : List CTxOut)
    (txCoinbase txCoinstake : CMutableTransaction) (payment : Int) :
    appendMnOuts fPayCoinstake outs (txCoinbase, txCoinstake, payment) =
      if fPayCoinstake = true then
        (txCoinbase, ⟨txCoinstake.vout ++ outs⟩, payment + valueOut outs)
      else (⟨txCoinbase.vout ++ outs⟩, txCoinstake, payment + valueOut outs) := by
  induction outs generalizing txCoinbase txCoinstake payment with
  | nil => cases fPayCoinstake <;> simp [appendMnOuts, valueOut]
  | cons o rest ih =>
    cases fPayCoinstake with
    | true =>
      simp only [appendMnOuts, if_true, ih, valueOut, List.map_cons, List.sum_cons,
        List.append_assoc, List.singleton_append]
      simp only [Prod.mk.injEq, true_and]
      omega
    | false =>
      simp only [appendMnOuts, Bool.false_eq_true, if_false, ih, valueOut, List.map_cons,
        List.sum_cons, List.append_assoc, List.singleton_append]
      simp only [Prod.mk.injEq, true_and, and_true]
      omega

/-- Counterexample to C23 as stated: the coinbase output 0 holds 7, the block
value is 100 and one reward output of 3 resolves; after `FillBlockPayee` output 0
holds 100 - 3 = 97, not 7 - 3 = 4. -/
theorem FillBlockPayee_coinbase_not_reduced :
    (CPatriotnodePayments.empty.AddWinningPatriotnode (exampleEnv 102 40)
        (exampleVote 3 103 [5])).GetPatriotnodeTxOuts exampleChainEnv ⟨102, 0⟩ []
      = (true, [⟨3, [5]⟩]) ∧
    (CPatriotnodePayments.empty.AddWinningPatriotnode (exampleEnv 102 40)
        (exampleVote 3 103 [5])).FillBlockPayee exampleChainEnv ⟨[⟨7, [1]⟩]⟩ ⟨[]⟩ ⟨102, 0⟩ false
      = some (⟨[⟨97, [1]⟩, ⟨3, [5]⟩]⟩, ⟨[]⟩) ∧
    (97 : Int) ≠ 7 - valueOut [⟨3, [5]⟩] := by
  decide

/-- C23 (amended): for a non-stake block whose reward outputs resolve,
`FillBlockPayee` appends the reward outputs to the coinbase and sets the value of
coinbase output 0 to `GetBlockValue(nHeight)` minus the sum of the reward
outputs, whatever value output 0 held before; the coinstake is untouched. The
new value is the old one minus the payment exactly when output 0 held
`GetBlockValue(nHeight)` before the call. -/
theorem FillBlockPayee_coinbase (self : CPatriotnodePayments) (env : ChainEnv)
    (txCoinbase txCoinstake : CMutableTransaction) (pindexPrev : CBlockIndex)
    (vecMnOuts : List CTxOut) (out0 : CTxOut) (rest : List CTxOut)
    (hresolved : self.GetPatriotnodeTxOuts env pindexPrev [] = (true, vecMnOuts))
    (hcoinbase : txCoinbase.vout = out0 :: rest) :
    self.FillBlockPayee env txCoinbase txCoinstake pindexPrev false =
        some (⟨{ out0 with nValue := env.GetBlockValue (pindexPrev.nHeight + 1)
                  - valueOut vecMnOuts } :: (rest ++ vecMnOuts)⟩, txCoinstake) ∧
      (env.GetBlockValue (pindexPrev.nHeight + 1) - valueOut vecMnOuts
          = out0.nValue - valueOut vecMnOuts ↔
        out0.nValue = env.GetBlockValue (pindexPrev.nHeight + 1)) := by
  refine ⟨?_, by constructor <;> intro h <;> omega⟩
  unfold CPatriotnodePayments.FillBlockPayee
  simp only [hresolved, Bool.true_eq_false, if_false, Bool.false_and, Bool.false_eq_true,
    appendMnOuts_eq, hcoinbase, List.cons_append, assignAt, List.getElem?_cons_zero,
    List.set_cons_zero, Option.map_some', zero_add]

/-- Witness of C23 (amended): the coinbase of the counterexample. -/
theorem FillBlockPayee_coinbase_witness :
    (CPatriotnodePayments.empty.AddWinningPatriotnode (exampleEnv 102 40)
        (exampleVote 3 103 [5])).FillBlockPayee exampleChainEnv ⟨[⟨100, [1]⟩]⟩ ⟨[]⟩ ⟨102, 0⟩ false
      = some (⟨[⟨100 - 3, [1]⟩, ⟨3, [5]⟩]⟩, ⟨[]⟩) :=
  (FillBlockPayee_coinbase
    (CPatriotnodePayments.empty.AddWinningPatriotnode (exampleEnv 102 40) (exampleVote 3 103 [5]))
    exampleChainEnv ⟨[⟨100, [1]⟩]⟩ ⟨[]⟩ ⟨102, 0⟩ [⟨3, [5]⟩] ⟨100, [1]⟩ [] (by decide) rfl).1

/-! ## Lemmas on fixed-width arithmetic -/

/-- A value that fits a 64-bit integer is not changed by the wrap-around. -/
theorem wrapInt64_of_fits (x : Int) (hlow : -9223372036854775808 ≤ x)
    (hhigh : x < 9223372036854775808) : wrapInt64 x = x := by
  unfold wrapInt64
  omega

/-! ## Claims on the reward outputs -/

/-- C24: under deterministic registration, for a total reward `R > 0` and a payee
with operator fraction `b` basis points, `b ≤ 10000`, where the product `R * b`
fits the 64-bit `CAmount`, `GetPatriotnodeTxOuts` returns true; the operator
amount `o` is `floor(R * b / 10000)` when `b ≠ 0` and the operator payout script
is non-empty and 0 otherwise, with `0 ≤ o ≤ R`; the outputs appended are the
primary output of `R - o` and then the operator output of `o`, each only when
its amount is positive; every emitted output is positive and the emitted amounts
sum to `R`. -/
theorem GetPatriotnodeTxOuts_deterministic (self : CPatriotnodePayments) (env : ChainEnv)
    (pindexPrev : CBlockIndex) (voutRet : List CTxOut) (dmnPayee : DmnPayee)
    (hobsolete : env.LegacyPNObsolete (pindexPrev.nHeight + 1) = true)
    (hpayee : env.GetPNPayee pindexPrev = some dmnPayee)
    (hR : 0 < env.GetPatriotnodePayment)
    (hb : dmnPayee.nOperatorReward ≤ 10000)
    (hfit : env.GetPatriotnodePayment * (dmnPayee.nOperatorReward : Int)
      < 9223372036854775808) :
    ∃ (o : Int) (emitted : List CTxOut),
      o = (if dmnPayee.nOperatorReward ≠ 0 ∧ dmnPayee.scriptOperatorPayout ≠ [] then
            Int.floor
              (((env.GetPatriotnodePayment * (dmnPayee.nOperatorReward : Int) : Int) : ℚ)
                / ((10000 : Nat) : ℚ))
          else 0) ∧
      0 ≤ o ∧ o ≤ env.GetPatriotnodePayment ∧
      emitted =
        (if 0 < env.GetPatriotnodePayment - o then
            [(⟨env.GetPatriotnodePayment - o, dmnPayee.scriptPayout⟩ : CTxOut)] else [])
          ++ (if 0 < o then [(⟨o, dmnPayee.scriptOperatorPayout⟩ : CTxOut)] else []) ∧
      self.GetPatriotnodeTxOuts env pindexPrev voutRet = (true, voutRet ++ emitted) ∧
      (∀ out ∈ emitted, 0 < out.nValue) ∧
      valueOut emitted = env.GetPatriotnodePayment := by
  have hbz : (0 : Int) ≤ (dmnPayee.nOperatorReward : Int) := Int.ofNat_nonneg _
  have hbu : (dmnPayee.nOperatorReward : Int) ≤ 10000 := by exact_mod_cast hb
  have hprod : 0 ≤ env.GetPatriotnodePayment * (dmnPayee.nOperatorReward : Int) :=
    Int.mul_nonneg (le_of_lt hR) hbz
  have hwrap : wrapInt64 (env.GetPatriotnodePayment * (dmnPayee.nOperatorReward : Int))
      = env.GetPatriotnodePayment * (dmnPayee.nOperatorReward : Int) :=
    wrapInt64_of_fits _ (by omega) hfit
  have htdiv : Int.tdiv (env.GetPatriotnodePayment * (dmnPayee.nOperatorReward : Int)) 10000
      = env.GetPatriotnodePayment * (dmnPayee.nOperatorReward : Int) / 10000 :=
    Int.tdiv_eq_ediv hprod (by decide)
  have hfloor : Int.floor
      (((env.GetPatriotnodePayment * (dmnPayee.nOperatorReward : Int) : Int) : ℚ)
        / ((10000 : Nat) : ℚ))
      = env.GetPatriotnodePayment * (dmnPayee.nOperatorReward : Int) / 10000 := by
    rw [Rat.floor_intCast_div_natCast]; rfl
  have hq0 : 0 ≤ env.GetPatriotnodePayment * (dmnPayee.nOperatorReward : Int) / 10000 :=
    Int.ediv_nonneg hprod (by decide)
  have hqR : env.GetPatriotnodePayment * (dmnPayee.nOperatorReward : Int) / 10000
      ≤ env.GetPatriotnodePayment :=
    Int.ediv_le_of_le_mul (by decide)
      (Int.mul_le_mul_of_nonneg_left hbu (le_of_lt hR))
  unfold CPatriotnodePayments.GetPatriotnodeTxOuts
  simp only [hobsolete, if_true, hpayee, hwrap, htdiv]
  by_cases hc : dmnPayee.nOperatorReward ≠ 0 ∧ dmnPayee.scriptOperatorPayout ≠ []
  · have hb1 : (1 : Int) ≤ (dmnPayee.nOperatorReward : Int) := by
      have := hc.1
      omega
    have hRle : env.GetPatriotnodePayment
        ≤ env.GetPatriotnodePayment * (dmnPayee.nOperatorReward : Int) :=
      le_mul_of_one_le_right (le_of_lt hR) hb1
    have hwrap2 : wrapInt64 (env.GetPatriotnodePayment
          - env.GetPatriotnodePayment * (dmnPayee.nOperatorReward : Int) / 10000)
        = env.GetPatriotnodePayment
          - env.GetPatriotnodePayment * (dmnPayee.nOperatorReward : Int) / 10000 :=
      wrapInt64_of_fits _ (by omega) (by omega)
    refine ⟨env.GetPatriotnodePayment * (dmnPayee.nOperatorReward : Int) / 10000, _,
      by rw [if_pos hc, hfloor], hq0, hqR, rfl, ?_, ?_, ?_⟩
    · simp only [if_pos hc, hwrap2]
      by_cases h1 : env.GetPatriotnodePayment
          - env.GetPatriotnodePayment * (dmnPayee.nOperatorReward : Int) / 10000 > 0
      · by_cases h2 : env.GetPatriotnodePayment * (dmnPayee.nOperatorReward : Int) / 10000 > 0
        · simp [h1, h2]
        · simp [h1, h2]
      · by_cases h2 : env.GetPatriotnodePayment * (dmnPayee.nOperatorReward : Int) / 10000 > 0
        · simp [h1, h2]
        · simp [h1, h2]
    · intro out hout
      rw [List.mem_append] at hout
      rcases hout with hout | hout
      · split at hout
        · rename_i hpos
          rw [List.mem_singleton] at hout
          rw [hout]; exact hpos
        · cases hout
      · split at hout
        · rename_i hpos
          rw [List.mem_singleton] at hout
          rw [hout]; exact hpos
        · cases hout
    · by_cases h1 : 0 < env.GetPatriotnodePayment
          - env.GetPatriotnodePayment * (dmnPayee.nOperatorReward : Int) / 10000
      · by_cases h2 : 0 < env.GetPatriotnodePayment * (dmnPayee.nOperatorReward : Int) / 10000
        · simp [valueOut, h1, h2]
        · simp [valueOut, h1, h2]; omega
      · by_cases h2 : 0 < env.GetPatriotnodePayment * (dmnPayee.nOperatorReward : Int) / 10000
        · simp [valueOut, h1, h2]; omega
        · exfalso; omega
  · refine ⟨0, _, by rw [if_neg hc], le_refl 0, le_of_lt hR, rfl, ?_, ?_, ?_⟩
    · simp only [if_neg hc]
      simp [hR]
    · intro out hout
      simp [hR] at hout
      rw [hout]; exact hR
    · simp [valueOut, hR]

/-- Witness of C24: a reward of 10 with an operator fraction of 2500 basis points
is split into 8 for the owner and 2 for the operator. -/
theorem GetPatriotnodeTxOuts_deterministic_witness :
    CPatriotnodePayments.empty.GetPatriotnodeTxOuts exampleDmnEnv ⟨102, 0⟩ []
        = (true, [⟨8, [8]⟩, ⟨2, [9]⟩]) ∧
    ∃ (o : Int) (emitted : List CTxOut),
      o = (if (2500 : Nat) ≠ 0 ∧ ([9] : CScript) ≠ [] then
            Int.floor ((((10 : Int) * ((2500 : Nat) : Int) : Int) : ℚ) / ((10000 : Nat) : ℚ))
          else 0) ∧
      0 ≤ o ∧ o ≤ 10 ∧
      emitted =
        (if 0 < 10 - o then [(⟨10 - o, [8]⟩ : CTxOut)] else [])
          ++ (if 0 < o then [(⟨o, [9]⟩ : CTxOut)] else []) ∧
      CPatriotnodePayments.empty.GetPatriotnodeTxOuts exampleDmnEnv ⟨102, 0⟩ []
        = (true, [] ++ emitted) ∧
      (∀ out ∈ emitted, 0 < out.nValue) ∧
      valueOut emitted = 10 :=
  ⟨by decide,
    GetPatriotnodeTxOuts_deterministic CPatriotnodePayments.empty exampleDmnEnv ⟨102, 0⟩ []
      ⟨2500, [9], [8]⟩ rfl rfl (by decide) (by decide) (by decide)⟩

/-- The payee that `GetBlockPayee` yields at the height of a vote just recorded:
the winner of the tally entries with the vote added. -/
theorem GetBlockPayee_AddWinningPatriotnode (self : CPatriotnodePayments) (env : Env)
    (winnerIn : CPatriotnodePaymentWinner) :
    (self.AddWinningPatriotnode env winnerIn).GetBlockPayee winnerIn.nBlockHeight =
      CPatriotnodeBlockPayees.GetPayee ⟨winnerIn.nBlockHeight,
        addPayeeVec winnerIn.payee 1
          (tallyEntries self.mapPatriotnodeBlocks winnerIn.nBlockHeight)⟩ := by
  unfold CPatriotnodePayments.AddWinningPatriotnode CPatriotnodePayments.GetBlockPayee
    tallyEntries
  simp only [mapFind_mapInsert_self, CPatriotnodeBlockPayees.AddPayee,
    CPatriotnodeBlockPayees.GetPayee]
  cases hfind : mapFind self.mapPatriotnodeBlocks winnerIn.nBlockHeight with
  | none => simp [mapCount, hfind, mapFind_mapInsert_self]
  | some entry => simp [mapCount, hfind]

/-- C25: `GetLegacyPatriotnodeTxOut(h)` does not depend on the incoming list (it
is emptied first); it pays the payee that `GetBlockPayee(h)` yields when there is
one, and otherwise the fallback node selected from the hash at height `h - 1`;
on success the list holds exactly one output, of value `GetPatriotnodePayment()`;
it returns false exactly when there is neither a tally payee nor a fallback
node, and the list is then empty. A single accepted vote for a height without
tally entries makes the output pay that vote's destination. -/
theorem GetLegacyPatriotnodeTxOut_cases (self : CPatriotnodePayments) (env : ChainEnv)
    (nHeight : Int) (voutRet : List CTxOut) :
    self.GetLegacyPatriotnodeTxOut env nHeight voutRet
        = self.GetLegacyPatriotnodeTxOut env nHeight [] ∧
    (∀ payee, self.GetBlockPayee nHeight = some payee →
      self.GetLegacyPatriotnodeTxOut env nHeight voutRet
        = (true, [⟨env.GetPatriotnodePayment, payee⟩])) ∧
    (∀ payee, self.GetBlockPayee nHeight = none →
      env.GetCurrentPatriotNodePayee (nHeight - 1) = some payee →
      self.GetLegacyPatriotnodeTxOut env nHeight voutRet
        = (true, [⟨env.GetPatriotnodePayment, payee⟩])) ∧
    ((self.GetLegacyPatriotnodeTxOut env nHeight voutRet).1 = true →
      ∃ payee, (self.GetLegacyPatriotnodeTxOut env nHeight voutRet).2
        = [⟨env.GetPatriotnodePayment, payee⟩]) ∧
    ((self.GetLegacyPatriotnodeTxOut env nHeight voutRet).1 = false ↔
      self.GetBlockPayee nHeight = none ∧
        env.GetCurrentPatriotNodePayee (nHeight - 1) = none) ∧
    ((self.GetLegacyPatriotnodeTxOut env nHeight voutRet).1 = false →
      (self.GetLegacyPatriotnodeTxOut env nHeight voutRet).2 = []) ∧
    (∀ (venv : Env) (winner : CPatriotnodePaymentWinner) (pfrom : Option NodeId)
        (state : CValidationState) (r : PNWResult),
      tallyEntries self.mapPatriotnodeBlocks winner.nBlockHeight = [] →
      self.ProcessPNWinner venv winner pfrom state = some r → r.ret = true →
      r.payments.GetLegacyPatriotnodeTxOut env winner.nBlockHeight voutRet
        = (true, [⟨env.GetPatriotnodePayment, winner.payee⟩])) := by
  refine ⟨rfl, ?_, ?_, ?_, ?_, ?_, ?_⟩
  · intro payee h
    simp [CPatriotnodePayments.GetLegacyPatriotnodeTxOut, h]
  · intro payee h hf
    simp [CPatriotnodePayments.GetLegacyPatriotnodeTxOut, h, hf]
  · intro h
    unfold CPatriotnodePayments.GetLegacyPatriotnodeTxOut at h ⊢
    cases hp : self.GetBlockPayee nHeight with
    | some payee => exact ⟨payee, by simp⟩
    | none =>
      cases hf : env.GetCurrentPatriotNodePayee (nHeight - 1) with
      | some payee => exact ⟨payee, by simp⟩
      | none => simp [hp, hf] at h
  · unfold CPatriotnodePayments.GetLegacyPatriotnodeTxOut
    cases hp : self.GetBlockPayee nHeight with
    | some payee => simp
    | none =>
      cases hf : env.GetCurrentPatriotNodePayee (nHeight - 1) with
      | some payee => simp
      | none => simp
  · unfold CPatriotnodePayments.GetLegacyPatriotnodeTxOut
    cases hp : self.GetBlockPayee nHeight with
    | some payee => simp
    | none =>
      cases hf : env.GetCurrentPatriotNodePayee (nHeight - 1) with
      | some payee => simp
      | none => simp
  · intro venv winner pfrom state r hempty hr hret
    have hstore := (ProcessPNWinner_true self venv winner pfrom state r hr hret).2
    have hpay : r.payments.GetBlockPayee winner.nBlockHeight = some winner.payee := by
      rw [hstore]
      simp only []
      rw [GetBlockPayee_AddWinningPatriotnode]
      have hsame : tallyEntries (self.RecordWinnerVote winner.vinPatriotnode.prevout
          winner.nBlockHeight).mapPatriotnodeBlocks winner.nBlockHeight = [] := hempty
      rw [hsame]
      simp [addPayeeVec, CPatriotnodeBlockPayees.GetPayee]
    simp [CPatriotnodePayments.GetLegacyPatriotnodeTxOut, hpay]

/-- Witness of C25: after the single vote of the unit test for height 103 the
legacy output pays its destination `[5]`, whatever the incoming list held; with
no vote and no fallback node the call returns false. -/
theorem GetLegacyPatriotnodeTxOut_cases_witness :
    ((CPatriotnodePayments.empty.RecordWinnerVote ⟨3, 0⟩ 103).AddWinningPatriotnode
      (exampleEnv 102 40) (exampleVote 3 103 [5])).GetBlockPayee 103 = some [5] ∧
    ((CPatriotnodePayments.empty.RecordWinnerVote ⟨3, 0⟩ 103).AddWinningPatriotnode
      (exampleEnv 102 40) (exampleVote 3 103 [5])).GetLegacyPatriotnodeTxOut
        exampleChainEnv 103 [⟨1, [7]⟩] = (true, [⟨3, [5]⟩]) ∧
    (CPatriotnodePayments.empty.GetLegacyPatriotnodeTxOut exampleChainEnv 103 [⟨1, [7]⟩]).1
      = false :=
  ⟨by decide,
    (GetLegacyPatriotnodeTxOut_cases
      ((CPatriotnodePayments.empty.RecordWinnerVote ⟨3, 0⟩ 103).AddWinningPatriotnode
        (exampleEnv 102 40) (exampleVote 3 103 [5])) exampleChainEnv 103 [⟨1, [7]⟩]).2.1
      [5] (by decide),
    (GetLegacyPatriotnodeTxOut_cases CPatriotnodePayments.empty exampleChainEnv 103
      [⟨1, [7]⟩]).2.2.2.2.1.mpr ⟨by decide, by decide⟩⟩

/-! ## Claims on block validation -/

/-- C26: `IsCoinbaseValueValid` on a coinbase with total output value `v` always
returns, leaving the state alone on success; when the node is not synced it
succeeds; when synced and `nBudgetAmt > 0` it succeeds iff `v = nBudgetAmt` and
otherwise fails with reason "bad-superblock-cb-amt"; when synced and
`nBudgetAmt ≤ 0` it succeeds iff `v = GetPatriotnodePayment()` if SPORK_8 is
active, failing with "bad-cb-amt", and iff `v ≤ GetPatriotnodePayment()` if it is
not, failing with "bad-cb-amt-spork8-disabled". -/
theorem IsCoinbaseValueValid_cases (env : ChainEnv) (tx : CTransaction) (nBudgetAmt : Int)
    (state : CValidationState) :
    ∃ r, IsCoinbaseValueValid env tx true nBudgetAmt state = some r ∧
      (r.1 = true → r.2 = state) ∧
      (r.1 = false → r.2.IsValid = false) ∧
      (env.IsSynced = false → r.1 = true) ∧
      (env.IsSynced = true → 0 < nBudgetAmt →
        (r.1 = true ↔ valueOut tx.vout = nBudgetAmt) ∧
        (r.1 = false → r.2.GetRejectReason = "bad-superblock-cb-amt")) ∧
      (env.IsSynced = true → nBudgetAmt ≤ 0 → env.Spork8Active = true →
        (r.1 = true ↔ valueOut tx.vout = env.GetPatriotnodePayment) ∧
        (r.1 = false → r.2.GetRejectReason = "bad-cb-amt")) ∧
      (env.IsSynced = true → nBudgetAmt ≤ 0 → env.Spork8Active = false →
        (r.1 = true ↔ valueOut tx.vout ≤ env.GetPatriotnodePayment) ∧
        (r.1 = false → r.2.GetRejectReason = "bad-cb-amt-spork8-disabled")) := by
  unfold IsCoinbaseValueValid
  cases hs : env.IsSynced with
  | false => exact ⟨(true, state), by simp, by simp, by simp, by simp, by simp, by simp, by simp⟩
  | true =>
    by_cases hb : nBudgetAmt > 0
    · have hb' : ¬ nBudgetAmt ≤ 0 := not_le.mpr hb
      by_cases hv : valueOut tx.vout = nBudgetAmt
      · exact ⟨(true, state), by simp [hb, hv], by simp, by simp, by simp,
          fun _ _ => ⟨by simp [hv], by simp⟩, fun _ h => absurd h hb', fun _ h => absurd h hb'⟩
      · exact ⟨(false, ⟨false, "bad-superblock-cb-amt"⟩),
          by simp [hb, hv, CValidationState.DoS], by simp, by simp [CValidationState.IsValid],
          by simp, fun _ _ => ⟨by simp [hv], fun _ => rfl⟩,
          fun _ h => absurd h hb', fun _ h => absurd h hb'⟩
    · have hb' : nBudgetAmt ≤ 0 := not_lt.mp hb
      cases h8 : env.Spork8Active with
      | true =>
        by_cases hv : valueOut tx.vout = env.GetPatriotnodePayment
        · exact ⟨(true, state), by simp [hb, hv], by simp, by simp, by simp,
            fun _ h => absurd h hb, fun _ _ _ => ⟨by simp [hv], by simp⟩, by simp⟩
        · exact ⟨(false, ⟨false, "bad-cb-amt"⟩),
            by simp [hb, hv, CValidationState.DoS], by simp, by simp [CValidationState.IsValid],
            by simp, fun _ h => absurd h hb, fun _ _ _ => ⟨by simp [hv], fun _ => rfl⟩, by simp⟩
      | false =>
        by_cases hv : valueOut tx.vout > env.GetPatriotnodePayment
        · exact ⟨(false, ⟨false, "bad-cb-amt-spork8-disabled"⟩),
            by simp [hb, hv, CValidationState.DoS], by simp, by simp [CValidationState.IsValid],
            by simp, fun _ h => absurd h hb, by simp,
            fun _ _ _ => ⟨by simp [not_le.mpr hv], fun _ => rfl⟩⟩
        · exact ⟨(true, state), by simp [hb, hv], by simp, by simp, by simp,
            fun _ h => absurd h hb, by simp, fun _ _ _ => ⟨by simp [not_lt.mp hv], by simp⟩⟩

/-- Witness of C26: with enforcement active and no budget amount, a coinbase of
total value 4 is rejected with "bad-cb-amt" when the payment is 3. -/
theorem IsCoinbaseValueValid_cases_witness :
    IsCoinbaseValueValid exampleChainEnv ⟨[⟨4, [5]⟩]⟩ true 0 CValidationState.fresh
        = some (false, ⟨false, "bad-cb-amt"⟩) ∧
    ∃ r, IsCoinbaseValueValid exampleChainEnv ⟨[⟨4, [5]⟩]⟩ true 0 CValidationState.fresh
        = some r ∧
      (r.1 = true → r.2 = CValidationState.fresh) ∧
      (r.1 = false → r.2.IsValid = false) ∧
      (exampleChainEnv.IsSynced = false → r.1 = true) ∧
      (exampleChainEnv.IsSynced = true → (0 : Int) < 0 →
        (r.1 = true ↔ valueOut [(⟨4, [5]⟩ : CTxOut)] = 0) ∧
        (r.1 = false → r.2.GetRejectReason = "bad-superblock-cb-amt")) ∧
      (exampleChainEnv.IsSynced = true → (0 : Int) ≤ 0 → exampleChainEnv.Spork8Active = true →
        (r.1 = true ↔ valueOut [(⟨4, [5]⟩ : CTxOut)] = exampleChainEnv.GetPatriotnodePayment) ∧
        (r.1 = false → r.2.GetRejectReason = "bad-cb-amt")) ∧
      (exampleChainEnv.IsSynced = true → (0 : Int) ≤ 0 → exampleChainEnv.Spork8Active = false →
        (r.1 = true ↔ valueOut [(⟨4, [5]⟩ : CTxOut)] ≤ exampleChainEnv.GetPatriotnodePayment) ∧
        (r.1 = false → r.2.GetRejectReason = "bad-cb-amt-spork8-disabled")) :=
  ⟨by decide,
    IsCoinbaseValueValid_cases exampleChainEnv ⟨[⟨4, [5]⟩]⟩ 0 CValidationState.fresh⟩

/-- C27: `IsBlockPayeeValid` returns true for every block when the node is not
synced. When synced (and the block holds the paying transaction) it returns, and
returns false in exactly two cases: superblocks are enabled, the height is a
budget payment block, the budget check reports the transaction invalid and
SPORK_9 is active; or the budget check did not report it valid, the payee check
`CPatriotnodePayments::IsTransactionValid` on the paying transaction fails and
SPORK_8 is active. Hence in legacy mode with SPORK_8 active, outside budget
blocks, a block whose paying transaction pays the required amount to no
destination that reached the threshold, while one did reach it, is rejected. -/
theorem IsBlockPayeeValid_cases (env : ChainEnv) (payments : CPatriotnodePayments)
    (block : CBlock) (pindexPrev : CBlockIndex) :
    (env.IsSynced = false → IsBlockPayeeValid env payments block pindexPrev = some true) ∧
    (∀ txNew, env.IsSynced = true →
      (if (env.UpgradePosActive (pindexPrev.nHeight + 1)
            && !env.UpgradeV6Active (pindexPrev.nHeight + 1)) = true
        then block.vtx[1]? else block.vtx[0]?) = some txNew →
      ∃ b, IsBlockPayeeValid env payments block pindexPrev = some b ∧
        (b = false ↔
          (env.Spork13Active = true ∧ env.IsBudgetPaymentBlock (pindexPrev.nHeight + 1) = true ∧
            env.BudgetIsTransactionValid txNew block.hash (pindexPrev.nHeight + 1)
              = TrxValidationStatus.InValid ∧
            env.Spork9Active = true) ∨
          (¬ (env.Spork13Active = true ∧
              env.IsBudgetPaymentBlock (pindexPrev.nHeight + 1) = true ∧
              env.BudgetIsTransactionValid txNew block.hash (pindexPrev.nHeight + 1)
                = TrxValidationStatus.Valid) ∧
            payments.IsTransactionValid env txNew pindexPrev = false ∧
            env.Spork8Active = true))) ∧
    (∀ txNew blockPayees, env.IsSynced = true →
      (if (env.UpgradePosActive (pindexPrev.nHeight + 1)
            && !env.UpgradeV6Active (pindexPrev.nHeight + 1)) = true
        then block.vtx[1]? else block.vtx[0]?) = some txNew →
      env.LegacyPNObsolete (pindexPrev.nHeight + 1) = false →
      (env.Spork13Active && env.IsBudgetPaymentBlock (pindexPrev.nHeight + 1)) = false →
      env.Spork8Active = true →
      mapFind payments.mapPatriotnodeBlocks (pindexPrev.nHeight + 1) = some blockPayees →
      (∃ p ∈ blockPayees.vecPayments, p.nVotes ≥ PNPAYMENTS_SIGNATURES_REQUIRED) →
      (∀ out ∈ txNew.vout, ∀ p ∈ blockPayees.vecPayments,
        p.nVotes ≥ PNPAYMENTS_SIGNATURES_REQUIRED →
        ¬ (out.scriptPubKey = p.scriptPubKey ∧ out.nValue = env.GetPatriotnodePayment)) →
      IsBlockPayeeValid env payments block pindexPrev = some false) := by
  refine ⟨?_, ?_, ?_⟩
  · intro hs
    simp [IsBlockPayeeValid, hs]
  · intro txNew hs htx
    unfold IsBlockPayeeValid
    simp only [hs, Bool.true_eq_false, if_false, htx]
    cases h13 : env.Spork13Active <;>
    cases hbud : env.IsBudgetPaymentBlock (pindexPrev.nHeight + 1) <;>
    cases hst : env.BudgetIsTransactionValid txNew block.hash (pindexPrev.nHeight + 1) <;>
    cases h9 : env.Spork9Active <;>
    cases hpay : payments.IsTransactionValid env txNew pindexPrev <;>
    cases h8 : env.Spork8Active <;>
    simp
  · intro txNew blockPayees hs htx hleg hbud h8 hfind hq hnone
    have hpay : payments.IsTransactionValid env txNew pindexPrev = false := by
      unfold CPatriotnodePayments.IsTransactionValid
      simp only [hleg, Bool.false_eq_true, if_false, hfind]
      rw [Bool.eq_false_iff]
      intro hc
      obtain ⟨out, hout, p, hp, hv, h1, h2⟩ :=
        (IsTransactionValid_quorum_iff blockPayees env.GetPatriotnodePayment txNew hq).mp hc
      exact hnone out hout p hp hv ⟨h1, h2⟩
    unfold IsBlockPayeeValid
    simp only [hs, Bool.true_eq_false, if_false, htx, hbud, Bool.false_eq_true, false_and,
      hpay, h8, if_true]

/-- Witness of C27: after the ten votes of the unit test (six for `[5]`, four
for `[6]`), a block at height 104 paying `[6]` is rejected and a block paying
`[5]` is accepted. -/
theorem IsBlockPayeeValid_cases_witness :
    IsBlockPayeeValid exampleChainEnv exampleTallyStore ⟨[⟨[⟨100, [1]⟩, ⟨3, [6]⟩]⟩], 0⟩ ⟨103, 0⟩
      = some false ∧
    IsBlockPayeeValid exampleChainEnv exampleTallyStore ⟨[⟨[⟨100, [1]⟩, ⟨3, [5]⟩]⟩], 0⟩ ⟨103, 0⟩
      = some true :=
  ⟨(IsBlockPayeeValid_cases exampleChainEnv exampleTallyStore
      ⟨[⟨[⟨100, [1]⟩, ⟨3, [6]⟩]⟩], 0⟩ ⟨103, 0⟩).2.2
      ⟨[⟨100, [1]⟩, ⟨3, [6]⟩]⟩ ⟨104, [⟨[5], 6⟩, ⟨[6], 4⟩]⟩
      rfl rfl rfl rfl rfl (by decide) (by decide) (by decide),
    by decide⟩

/-! ## Lemmas on the example codec -/

/-- The verdict of the tally check in terms of membership only: no entry is at
the threshold, or some output pays the required amount to an entry at the
threshold. -/
theorem IsTransactionValid_iff (self : CPatriotnodeBlockPayees) (req : Int)
    (txNew : CTransaction) :
    self.IsTransactionValid req txNew = true ↔
      (∀ p ∈ self.vecPayments, p.nVotes < PNPAYMENTS_SIGNATURES_REQUIRED) ∨
      ∃ out ∈ txNew.vout, ∃ p ∈ self.vecPayments,
        p.nVotes ≥ PNPAYMENTS_SIGNATURES_REQUIRED ∧
        out.scriptPubKey = p.scriptPubKey ∧ out.nValue = req := by
  by_cases h : ∃ p ∈ self.vecPayments, p.nVotes ≥ PNPAYMENTS_SIGNATURES_REQUIRED
  · rw [IsTransactionValid_quorum_iff self req txNew h]
    constructor
    · intro hq; exact Or.inr hq
    · rintro (hnone | hq)
      · obtain ⟨p, hp, hv⟩ := h
        exact absurd hv (not_le.mpr (hnone p hp))
      · exact hq
  · have hall : ∀ p ∈ self.vecPayments, p.nVotes < PNPAYMENTS_SIGNATURES_REQUIRED := by
      intro p hp
      by_contra hc
      exact h ⟨p, hp, not_lt.mp hc⟩
    have hmax : maxSignatures self.vecPayments = 0 :=
      maxSignatures_foldl_none self.vecPayments 0 hall
    constructor
    · intro _; exact Or.inl hall
    · intro _
      unfold CPatriotnodeBlockPayees.IsTransactionValid
      simp [hmax, PNPAYMENTS_SIGNATURES_REQUIRED]

/-- C37: the verdict of `CPatriotnodeBlockPayees::IsTransactionValid` is the same
for every permutation of the tally entries and every permutation of the outputs
of the transaction. -/
theorem IsTransactionValid_order_independent (tally permuted : CPatriotnodeBlockPayees)
    (req : Int) (txNew txPermuted : CTransaction)
    (hentries : tally.vecPayments.Perm permuted.vecPayments)
    (houts : txNew.vout.Perm txPermuted.vout) :
    tally.IsTransactionValid req txNew = permuted.IsTransactionValid req txPermuted := by
  rw [Bool.eq_iff_iff, IsTransactionValid_iff, IsTransactionValid_iff]
  constructor
  · rintro (hnone | ⟨out, hout, p, hp, hrest⟩)
    · exact Or.inl (fun p hp => hnone p (hentries.mem_iff.mpr hp))
    · exact Or.inr ⟨out, houts.mem_iff.mp hout, p, hentries.mem_iff.mp hp, hrest⟩
  · rintro (hnone | ⟨out, hout, p, hp, hrest⟩)
    · exact Or.inl (fun p hp => hnone p (hentries.mem_iff.mp hp))
    · exact Or.inr ⟨out, houts.mem_iff.mpr hout, p, hentries.mem_iff.mpr hp, hrest⟩

/-- Witness of C37: the tally of the unit test (6 votes for `[5]`, 4 for `[6]`)
and a transaction paying `[5]`, against the tally and the outputs in the
opposite order: both verdicts are true. -/
theorem IsTransactionValid_order_independent_witness :
    CPatriotnodeBlockPayees.IsTransactionValid ⟨104, [⟨[5], 6⟩, ⟨[6], 4⟩]⟩ 3
        ⟨[⟨100, [1]⟩, ⟨3, [5]⟩]⟩
      = CPatriotnodeBlockPayees.IsTransactionValid ⟨104, [⟨[6], 4⟩, ⟨[5], 6⟩]⟩ 3
        ⟨[⟨3, [5]⟩, ⟨100, [1]⟩]⟩ ∧
    CPatriotnodeBlockPayees.IsTransactionValid ⟨104, [⟨[6], 4⟩, ⟨[5], 6⟩]⟩ 3
        ⟨[⟨3, [5]⟩, ⟨100, [1]⟩]⟩ = true :=
  ⟨IsTransactionValid_order_independent ⟨104, [⟨[5], 6⟩, ⟨[6], 4⟩]⟩ ⟨104, [⟨[6], 4⟩, ⟨[5], 6⟩]⟩ 3
      ⟨[⟨100, [1]⟩, ⟨3, [5]⟩]⟩ ⟨[⟨3, [5]⟩, ⟨100, [1]⟩]⟩
      (List.Perm.swap _ _ _) (List.Perm.swap _ _ _),
    by decide⟩

/-- Closed form of the loop of lines 665-674. -/
theorem allOutsFound_iff (vout expected : List CTxOut) :
    allOutsFound vout expected = true ↔ ∀ o ∈ expected, o ∈ vout := by
  induction expected with
  | nil => simp [allOutsFound]
  | cons o rest ih =>
    by_cases h : o ∈ vout
    · simp [allOutsFound, h, ih]
    · simp [allOutsFound, h]

/-- C38: `CPatriotnodePayments::IsTransactionValid` for the block after
`pindexPrev`. With the legacy system obsolete at that height it returns true if
the reward outputs cannot be resolved, and otherwise returns true if and only if
every expected reward output occurs, with the same amount and the same script,
among the outputs of the transaction. With the legacy system in use it returns
true if no tally exists for the height and otherwise the verdict of the tally of
that height. -/
theorem IsTransactionValid_block (self : CPatriotnodePayments) (env : ChainEnv)
    (txNew : CTransaction) (pindexPrev : CBlockIndex) :
    (env.LegacyPNObsolete (pindexPrev.nHeight + 1) = true →
      ((self.GetPatriotnodeTxOuts env pindexPrev []).1 = false →
        self.IsTransactionValid env txNew pindexPrev = true) ∧
      ((self.GetPatriotnodeTxOuts env pindexPrev []).1 = true →
        (self.IsTransactionValid env txNew pindexPrev = true ↔
          ∀ o ∈ (self.GetPatriotnodeTxOuts env pindexPrev []).2,
            ∃ out ∈ txNew.vout, out.nValue = o.nValue ∧ out.scriptPubKey = o.scriptPubKey))) ∧
    (env.LegacyPNObsolete (pindexPrev.nHeight + 1) = false →
      (mapFind self.mapPatriotnodeBlocks (pindexPrev.nHeight + 1) = none →
        self.IsTransactionValid env txNew pindexPrev = true) ∧
      (∀ blockPayees,
        mapFind self.mapPatriotnodeBlocks (pindexPrev.nHeight + 1) = some blockPayees →
        self.IsTransactionValid env txNew pindexPrev
          = blockPayees.IsTransactionValid env.GetPatriotnodePayment txNew)) := by
  have hmem : ∀ o : CTxOut, o ∈ txNew.vout ↔
      ∃ out ∈ txNew.vout, out.nValue = o.nValue ∧ out.scriptPubKey = o.scriptPubKey := by
    intro o
    constructor
    · intro h; exact ⟨o, h, rfl, rfl⟩
    · rintro ⟨out, hout, h1, h2⟩
      have : out = o := by
        cases out; cases o; simp only [CTxOut.mk.injEq]; exact ⟨h1, h2⟩
      rw [← this]; exact hout
  refine ⟨?_, ?_⟩
  · intro hobs
    refine ⟨?_, ?_⟩
    · intro hres
      simp [CPatriotnodePayments.IsTransactionValid, hobs, hres]
    · intro hres
      unfold CPatriotnodePayments.IsTransactionValid
      simp only [hobs, if_true, hres, Bool.true_eq_false, if_false]
      rw [allOutsFound_iff]
      constructor
      · intro h o ho; exact (hmem o).mp (h o ho)
      · intro h o ho; exact (hmem o).mpr (h o ho)
  · intro hleg
    refine ⟨?_, ?_⟩
    · intro hnone
      simp [CPatriotnodePayments.IsTransactionValid, hleg, hnone]
    · intro blockPayees hsome
      simp [CPatriotnodePayments.IsTransactionValid, hleg, hsome]

/-- Witness of C38: with the legacy system obsolete and a reward of 8 to `[8]`
and 2 to `[9]`, a transaction holding both outputs is valid and one with the
amounts exchanged is not; in legacy mode without a tally every transaction is
valid. -/
theorem IsTransactionValid_block_witness :
    CPatriotnodePayments.empty.IsTransactionValid exampleDmnEnv
        ⟨[⟨90, [1]⟩, ⟨2, [9]⟩, ⟨8, [8]⟩]⟩ ⟨102, 0⟩ = true ∧
    CPatriotnodePayments.empty.IsTransactionValid exampleDmnEnv
        ⟨[⟨90, [1]⟩, ⟨8, [9]⟩, ⟨2, [8]⟩]⟩ ⟨102, 0⟩ = false ∧
    CPatriotnodePayments.empty.IsTransactionValid exampleChainEnv ⟨[]⟩ ⟨102, 0⟩ = true :=
  ⟨by decide, by decide,
    ((IsTransactionValid_block CPatriotnodePayments.empty exampleChainEnv ⟨[]⟩ ⟨102, 0⟩).2
      rfl).1 rfl⟩

/-! ## Claims on the identity hash -/

/-- A vote stored by `AddWinningPatriotnode` is in the ledger under its hash. -/
theorem mapCount_AddWinningPatriotnode (self : CPatriotnodePayments) (env : Env)
    (winnerIn : CPatriotnodePaymentWinner) :
    mapCount (self.AddWinningPatriotnode env winnerIn).mapPatriotnodePayeeVotes
      (winnerIn.GetHash env) = true := by
  simp [CPatriotnodePayments.AddWinningPatriotnode, mapCount, mapFind_mapInsert_self]

/-- C34: two votes that agree on payee, height and the outpoint of the voter have
the same `GetHash`, whatever their signature, message version and the other
fields of the voter input; so changing signature and version of a vote keeps its
hash, and when a vote is in the ledger under its hash (as after
`AddWinningPatriotnode`), `ProcessPNWinner` on any vote with the same three
fields returns false as already seen: the validation state and the store are
unchanged and the only call is the notice to the sync state. -/
theorem GetHash_identity (env : Env) (recorded copy : CPatriotnodePaymentWinner)
    (hpayee : recorded.payee = copy.payee)
    (hheight : recorded.nBlockHeight = copy.nBlockHeight)
    (hvoter : recorded.vinPatriotnode.prevout = copy.vinPatriotnode.prevout) :
    recorded.GetHash env = copy.GetHash env ∧
    (∀ (vchSig : List Nat) (nMessVersion : MessageVersion),
      CPatriotnodePaymentWinner.GetHash
        { recorded with vchSig := vchSig, nMessVersion := nMessVersion } env
        = recorded.GetHash env) ∧
    (∀ (self : CPatriotnodePayments) (pfrom : Option NodeId) (state : CValidationState),
      mapCount self.mapPatriotnodePayeeVotes (recorded.GetHash env) = true →
      self.ProcessPNWinner env copy pfrom state =
        some ⟨false, state, self, [Effect.AddedPatriotnodeWinner (recorded.GetHash env)]⟩) ∧
    (∀ (self : CPatriotnodePayments) (pfrom : Option NodeId) (state : CValidationState),
      (self.AddWinningPatriotnode env recorded).ProcessPNWinner env copy pfrom state =
        some ⟨false, state, self.AddWinningPatriotnode env recorded,
          [Effect.AddedPatriotnodeWinner (recorded.GetHash env)]⟩) := by
  have hhash : recorded.GetHash env = copy.GetHash env := by
    unfold CPatriotnodePaymentWinner.GetHash
    rw [hpayee, hheight, hvoter]
  have hseen : ∀ (self : CPatriotnodePayments) (pfrom : Option NodeId)
      (state : CValidationState),
      mapCount self.mapPatriotnodePayeeVotes (recorded.GetHash env) = true →
      self.ProcessPNWinner env copy pfrom state =
        some ⟨false, state, self, [Effect.AddedPatriotnodeWinner (recorded.GetHash env)]⟩ := by
    intro self pfrom state h
    rw [hhash] at h ⊢
    exact ProcessPNWinner_seen self env copy pfrom state h
  refine ⟨hhash, fun _ _ => rfl, hseen, ?_⟩
  intro self pfrom state
  exact hseen _ pfrom state (mapCount_AddWinningPatriotnode self env recorded)

/-- Witness of C34: the vote of voter 3 for height 103, once recorded, is
refused as already seen when it comes back with another signature and the old
message version. -/
theorem GetHash_identity_witness :
    (CPatriotnodePayments.empty.AddWinningPatriotnode (exampleEnv 102 40)
        (exampleVote 3 103 [5])).ProcessPNWinner (exampleEnv 102 40)
        { exampleVote 3 103 [5] with
          vchSig := [7, 7], nMessVersion := MessageVersion.MESS_VER_STRMESS }
        (some 9) CValidationState.fresh =
      some ⟨false, CValidationState.fresh,
        CPatriotnodePayments.empty.AddWinningPatriotnode (exampleEnv 102 40)
          (exampleVote 3 103 [5]),
        [Effect.AddedPatriotnodeWinner ((exampleVote 3 103 [5]).GetHash (exampleEnv 102 40))]⟩ :=
  (GetHash_identity (exampleEnv 102 40) (exampleVote 3 103 [5])
    { exampleVote 3 103 [5] with
      vchSig := [7, 7], nMessVersion := MessageVersion.MESS_VER_STRMESS }
    rfl rfl rfl).2.2.2 CPatriotnodePayments.empty (some 9) CValidationState.fresh

/-! ## Claims on the signature dispatch -/

/-- C35: `ProcessPNWinner` always returns, so the exclusivity assertion of line
486 never fails. The voter is looked up in the deterministic list first: when it
is found there, the outcome does not depend on the legacy list nor on the check
against a legacy key hash, and with the earlier checks passed the vote is
accepted exactly when the signature verifies against the operator key. The
legacy list is consulted only when the deterministic lookup fails: then the
outcome does not depend on the operator-key check, and with the earlier checks
passed the vote is accepted exactly when the signature verifies against the
legacy public-key hash. -/
theorem ProcessPNWinner_signature_dispatch (self : CPatriotnodePayments) (env : Env)
    (winner : CPatriotnodePaymentWinner) (pfrom : Option NodeId) (state : CValidationState) :
    (∃ r, self.ProcessPNWinner env winner pfrom state = some r) ∧
    (∀ pubKeyOperator,
      env.GetPNByCollateral winner.vinPatriotnode.prevout = some pubKeyOperator →
      (∀ (find : COutPoint → Option CKeyID)
          (checkKeyID : CPatriotnodePaymentWinner → CKeyID → Bool),
        self.ProcessPNWinner { env with Find := find, CheckSignatureKeyID := checkKeyID }
            winner pfrom state
          = self.ProcessPNWinner env winner pfrom state) ∧
      (mapCount self.mapPatriotnodePayeeVotes (winner.GetHash env) = false →
        ¬ (winner.nBlockHeight < nFirstBlock env.GetBestHeight env.CountEnabled
          ∨ winner.nBlockHeight > env.GetBestHeight + 20) →
        winner.nMessVersion = MessageVersion.MESS_VER_HASH →
        (winner.IsValid env pfrom state env.GetBestHeight).1 = true →
        self.CanVote winner.vinPatriotnode.prevout winner.nBlockHeight = true →
        ∃ r, self.ProcessPNWinner env winner pfrom state = some r ∧
          (r.ret = true ↔ env.CheckSignatureBLS winner pubKeyOperator = true))) ∧
    (∀ pubKeyPatriotnodeID,
      env.GetPNByCollateral winner.vinPatriotnode.prevout = none →
      env.Find winner.vinPatriotnode.prevout = some pubKeyPatriotnodeID →
      (∀ (checkBLS : CPatriotnodePaymentWinner → CBLSPublicKey → Bool),
        self.ProcessPNWinner { env with CheckSignatureBLS := checkBLS } winner pfrom state
          = self.ProcessPNWinner env winner pfrom state) ∧
      (mapCount self.mapPatriotnodePayeeVotes (winner.GetHash env) = false →
        ¬ (winner.nBlockHeight < nFirstBlock env.GetBestHeight env.CountEnabled
          ∨ winner.nBlockHeight > env.GetBestHeight + 20) →
        winner.nMessVersion = MessageVersion.MESS_VER_HASH →
        (winner.IsValid env pfrom state env.GetBestHeight).1 = true →
        self.CanVote winner.vinPatriotnode.prevout winner.nBlockHeight = true →
        ∃ r, self.ProcessPNWinner env winner pfrom state = some r ∧
          (r.ret = true ↔ env.CheckSignatureKeyID winner pubKeyPatriotnodeID = true))) := by
  refine ⟨ProcessPNWinner_total self env winner pfrom state, ?_, ?_⟩
  · intro pubKeyOperator hd
    refine ⟨?_, ?_⟩
    · intro find checkKeyID
      unfold CPatriotnodePayments.ProcessPNWinner
      simp only [hd, CPatriotnodePaymentWinner.GetHash, ProcessPNWinnerResolved,
        CPatriotnodePaymentWinner.IsValid, CPatriotnodePayments.AddWinningPatriotnode]
    · intro hnew hin hver hvalid hcan
      have hres : voterResolves env winner = true := by simp [voterResolves, hd]
      have hsig : signatureValid env winner = env.CheckSignatureBLS winner pubKeyOperator := by
        simp [signatureValid, hd]
      rw [ProcessPNWinner_resolved self env winner pfrom state hnew hin hver hres]
      simp only [hvalid, hcan, Bool.true_eq_false, if_false, hsig]
      cases hc : env.CheckSignatureBLS winner pubKeyOperator
      · exact ⟨_, rfl, by simp⟩
      · exact ⟨_, rfl, by simp⟩
  · intro pubKeyPatriotnodeID hd hf
    refine ⟨?_, ?_⟩
    · intro checkBLS
      unfold CPatriotnodePayments.ProcessPNWinner
      simp only [hd, hf, CPatriotnodePaymentWinner.GetHash, ProcessPNWinnerResolved,
        CPatriotnodePaymentWinner.IsValid, CPatriotnodePayments.AddWinningPatriotnode]
    · intro hnew hin hver hvalid hcan
      have hres : voterResolves env winner = true := by simp [voterResolves, hd, hf]
      have hsig : signatureValid env winner
          = env.CheckSignatureKeyID winner pubKeyPatriotnodeID := by
        simp [signatureValid, hd, hf]
      rw [ProcessPNWinner_resolved self env winner pfrom state hnew hin hver hres]
      simp only [hvalid, hcan, Bool.true_eq_false, if_false, hsig]
      cases hc : env.CheckSignatureKeyID winner pubKeyPatriotnodeID
      · exact ⟨_, rfl, by simp⟩
      · exact ⟨_, rfl, by simp⟩

/-- Witness of C35: a voter found in the deterministic list with operator key 11
is checked against that key only; the legacy check would accept the signature,
the operator-key check refuses it, and the vote is rejected for its signature. -/
theorem ProcessPNWinner_signature_dispatch_witness :
    (CPatriotnodePayments.empty.ProcessPNWinner
        { exampleEnv 102 40 with GetPNByCollateral := fun _ => some 11 }
        (exampleVote 3 103 [5]) none CValidationState.fresh).map
      (fun r => (r.ret, r.state.GetRejectReason))
      = some (false, "invalid voter mnwinner signature") ∧
    ∃ r, CPatriotnodePayments.empty.ProcessPNWinner
        { exampleEnv 102 40 with GetPNByCollateral := fun _ => some 11 }
        (exampleVote 3 103 [5]) none CValidationState.fresh = some r ∧
      (r.ret = true ↔
        ({ exampleEnv 102 40 with GetPNByCollateral := fun _ => some 11 } : Env).CheckSignatureBLS
          (exampleVote 3 103 [5]) 11 = true) :=
  ⟨by decide,
    ((ProcessPNWinner_signature_dispatch CPatriotnodePayments.empty
      { exampleEnv 102 40 with GetPNByCollateral := fun _ => some 11 }
      (exampleVote 3 103 [5]) none CValidationState.fresh).2.1 11 rfl).2
      (by decide) (by decide) rfl (by decide) (by decide)⟩

/-! ## Claims on the anti-replay cursor -/

/-- The replay check fails exactly when the cursor of the voter holds the height. -/
theorem CanVote_eq_false_iff (self : CPatriotnodePayments) (outPatriotnode : COutPoint)
    (nBlockHeight : Int) :
    self.CanVote outPatriotnode nBlockHeight = false ↔
      mapFind self.mapPatriotnodesLastVote outPatriotnode = some nBlockHeight := by
  unfold CPatriotnodePayments.CanVote
  cases h : mapFind self.mapPatriotnodesLastVote outPatriotnode with
  | none => simp
  | some last => simp

/-- The cursor of a voter after a sequence of `RecordWinnerVote` calls: the height
of the last call for that voter, or the entry held before when there is none. -/
theorem cursor_after_records (self : CPatriotnodePayments) (records : List (COutPoint × Int))
    (outPatriotnode : COutPoint) :
    mapFind (records.foldl (fun s c => s.RecordWinnerVote c.1 c.2)
        self).mapPatriotnodesLastVote outPatriotnode =
      match (records.filter (fun c => decide (c.1 = outPatriotnode))).getLast? with
      | some c => some c.2
      | none => mapFind self.mapPatriotnodesLastVote outPatriotnode := by
  induction records generalizing self with
  | nil => simp
  | cons c rest ih =>
    rw [List.foldl_cons, ih]
    by_cases hc : c.1 = outPatriotnode
    · have hfilter : (c :: rest).filter (fun c => decide (c.1 = outPatriotnode))
          = c :: rest.filter (fun c => decide (c.1 = outPatriotnode)) := by
        simp [List.filter_cons, hc]
      rw [hfilter]
      cases hf : rest.filter (fun c => decide (c.1 = outPatriotnode)) with
      | nil =>
        simp only [List.getLast?_nil, List.getLast?_singleton]
        rw [← hc]
        exact mapFind_mapInsert_self _ _ _ _
      | cons d l =>
        have hsome : (d :: l).getLast? = some ((d :: l).getLast (List.cons_ne_nil d l)) :=
          List.getLast?_eq_getLast _ _
        rw [List.getLast?_cons_cons, hsome]
    · have hfilter : (c :: rest).filter (fun c => decide (c.1 = outPatriotnode))
          = rest.filter (fun c => decide (c.1 = outPatriotnode)) := by
        simp [List.filter_cons, hc]
      rw [hfilter]
      cases hl : (rest.filter (fun c => decide (c.1 = outPatriotnode))).getLast? with
      | some d => rfl
      | none =>
        exact mapFind_mapInsert_ne _ _ _ _ _ (fun h => hc h.symm)

/-- One `ProcessPNWinner` call changes the cursor of a voter only by recording an
accepted vote of that voter. -/
theorem ProcessPNWinner_cursor (self : CPatriotnodePayments) (env : Env)
    (winner : CPatriotnodePaymentWinner) (pfrom : Option NodeId) (state : CValidationState)
    (r : PNWResult) (hr : self.ProcessPNWinner env winner pfrom state = some r)
    (outPatriotnode : COutPoint) :
    mapFind r.payments.mapPatriotnodesLastVote outPatriotnode =
      if r.ret = true ∧ winner.vinPatriotnode.prevout = outPatriotnode then
        some winner.nBlockHeight
      else mapFind self.mapPatriotnodesLastVote outPatriotnode := by
  cases hret : r.ret with
  | false =>
    rw [(ProcessPNWinner_false_frame self env winner pfrom state r hr hret).1]
    simp
  | true =>
    rw [(ProcessPNWinner_true self env winner pfrom state r hr hret).2]
    by_cases hv : winner.vinPatriotnode.prevout = outPatriotnode
    · simp only [hv, and_self, if_true]
      rw [← hv]
      exact mapFind_mapInsert_self _ _ _ _
    · simp only [hv, and_false, if_false]
      exact mapFind_mapInsert_ne _ _ _ _ _ (fun h => hv h.symm)

/-- A cursor entry `V -> H` survives every sequence of calls that holds no vote
by `V` for another height. -/
theorem runCalls_cursor (calls : List StoreCall) (self s : CPatriotnodePayments)
    (outPatriotnode : COutPoint) (nBlockHeight : Int)
    (hcursor : mapFind self.mapPatriotnodesLastVote outPatriotnode = some nBlockHeight)
    (hcalls : ∀ env winner pfrom state, StoreCall.vote env winner pfrom state ∈ calls →
      winner.vinPatriotnode.prevout = outPatriotnode → winner.nBlockHeight = nBlockHeight)
    (hrun : runCalls self calls = some s) :
    mapFind s.mapPatriotnodesLastVote outPatriotnode = some nBlockHeight := by
  induction calls generalizing self with
  | nil =>
    simp only [runCalls, Option.some.injEq] at hrun
    rw [← hrun]; exact hcursor
  | cons c rest ih =>
    cases c with
    | vote env winner pfrom state =>
      simp only [runCalls] at hrun
      cases hp : self.ProcessPNWinner env winner pfrom state with
      | none => simp [hp] at hrun
      | some r =>
        simp only [hp] at hrun
        refine ih r.payments ?_ ?_ hrun
        · rw [ProcessPNWinner_cursor self env winner pfrom state r hp]
          by_cases hc : r.ret = true ∧ winner.vinPatriotnode.prevout = outPatriotnode
          · rw [if_pos hc, hcalls env winner pfrom state (List.mem_cons_self _ _) hc.2]
          · rw [if_neg hc]; exact hcursor
        · intro env2 w2 p2 s2 hmem
          exact hcalls env2 w2 p2 s2 (List.mem_cons_of_mem _ hmem)
    | clean mnCount nHeight =>
      simp only [runCalls] at hrun
      refine ih (self.CleanPaymentList mnCount nHeight) ?_ ?_ hrun
      · rw [(CleanPaymentList_frame self mnCount nHeight).1]; exact hcursor
      · intro env2 w2 p2 s2 hmem
        exact hcalls env2 w2 p2 s2 (List.mem_cons_of_mem _ hmem)

/-- Counterexample to C39 as stated: voter 3 votes for height 103 and is
recorded; its second vote for height 103, with no vote in between, names another
destination, the script `OP_TRUE`, and is rejected with "payee must be a P2PKH",
not with "PN already voted": the payee check comes before the replay check. -/
theorem ProcessPNWinner_second_vote_other_reason :
    (CPatriotnodePayments.empty.ProcessPNWinner (exampleEnvScripts 102 40)
        (exampleVote 3 103 (exampleP2PKH 1)) none CValidationState.fresh).map
      (fun r => (r.ret, r.payments.CanVote ⟨3, 0⟩ 103)) = some (true, false) ∧
    ((CPatriotnodePayments.empty.ProcessPNWinner (exampleEnvScripts 102 40)
        (exampleVote 3 103 (exampleP2PKH 1)) none CValidationState.fresh).bind
      (fun first => first.payments.ProcessPNWinner (exampleEnvScripts 102 40)
        (exampleVote 3 103 [0x51]) none CValidationState.fresh)).map
      (fun r => (r.ret, r.state.GetRejectReason)) = some (false, "payee must be a P2PKH") := by
  decide


/-- C39 (amended): the cursor keeps only the latest height per voter.
`CanVote(V, H)` is false exactly when the cursor of `V` holds `H`, which after a
sequence of `RecordWinnerVote` calls means that the most recent call for `V` was
for `H`; `RecordWinnerVote(V, H)` sets the cursor of `V` to `H` and leaves the
cursor of every other voter unchanged. Once the cursor of `V` holds `H`, after
any calls among which `V` has no vote for another height, every vote by `V` for
`H` is refused by `ProcessPNWinner` with the store unchanged; the reason is
"PN already voted" when the vote passes the earlier checks (not yet seen, height
in the window, hash-signed version, voter resolved, rank in the quorum and
P2PKH payee). -/
theorem CanVote_latest_height (self : CPatriotnodePayments) (outPatriotnode : COutPoint)
    (nBlockHeight : Int) :
    (self.CanVote outPatriotnode nBlockHeight = false ↔
      mapFind self.mapPatriotnodesLastVote outPatriotnode = some nBlockHeight) ∧
    (∀ records : List (COutPoint × Int),
      (records.foldl (fun s c => s.RecordWinnerVote c.1 c.2) self).CanVote outPatriotnode
          nBlockHeight = false ↔
        (match (records.filter (fun c => decide (c.1 = outPatriotnode))).getLast? with
          | some c => some c.2
          | none => mapFind self.mapPatriotnodesLastVote outPatriotnode) = some nBlockHeight) ∧
    (self.RecordWinnerVote outPatriotnode nBlockHeight).CanVote outPatriotnode nBlockHeight
      = false ∧
    (∀ other, other ≠ outPatriotnode →
      mapFind (self.RecordWinnerVote outPatriotnode nBlockHeight).mapPatriotnodesLastVote other
        = mapFind self.mapPatriotnodesLastVote other) ∧
    (∀ (calls : List StoreCall) (s : CPatriotnodePayments),
      mapFind self.mapPatriotnodesLastVote outPatriotnode = some nBlockHeight →
      (∀ env winner pfrom state, StoreCall.vote env winner pfrom state ∈ calls →
        winner.vinPatriotnode.prevout = outPatriotnode → winner.nBlockHeight = nBlockHeight) →
      runCalls self calls = some s →
      ∀ (env : Env) (winner : CPatriotnodePaymentWinner) (pfrom : Option NodeId)
        (state : CValidationState),
        winner.vinPatriotnode.prevout = outPatriotnode → winner.nBlockHeight = nBlockHeight →
        ∃ r, s.ProcessPNWinner env winner pfrom state = some r ∧ r.ret = false ∧
          r.payments = s ∧
          (mapCount s.mapPatriotnodePayeeVotes (winner.GetHash env) = false →
            ¬ (winner.nBlockHeight < nFirstBlock env.GetBestHeight env.CountEnabled
              ∨ winner.nBlockHeight > env.GetBestHeight + 20) →
            winner.nMessVersion = MessageVersion.MESS_VER_HASH →
            voterResolves env winner = true →
            (winner.IsValid env pfrom state env.GetBestHeight).1 = true →
            r.state.GetRejectReason = "PN already voted")) := by
  refine ⟨CanVote_eq_false_iff self outPatriotnode nBlockHeight, ?_, ?_, ?_, ?_⟩
  · intro records
    rw [CanVote_eq_false_iff, cursor_after_records]
  · rw [CanVote_eq_false_iff]
    exact mapFind_mapInsert_self _ _ _ _
  · intro other hne
    exact mapFind_mapInsert_ne _ _ _ _ _ hne
  · intro calls s hcursor hcalls hrun env winner pfrom state hv hh
    have hs := runCalls_cursor calls self s outPatriotnode nBlockHeight hcursor hcalls hrun
    have hcan : s.CanVote winner.vinPatriotnode.prevout winner.nBlockHeight = false := by
      rw [hv, hh]
      exact (CanVote_eq_false_iff s outPatriotnode nBlockHeight).mpr hs
    obtain ⟨r, hr⟩ := ProcessPNWinner_total s env winner pfrom state
    have hret : r.ret = false := by
      cases hc : r.ret with
      | false => rfl
      | true =>
        have := (ProcessPNWinner_true s env winner pfrom state r hr hc).1.2.2.2.2.2.1
        rw [hcan] at this
        exact absurd this (by decide)
    refine ⟨r, hr, hret, (ProcessPNWinner_false_frame s env winner pfrom state r hr hret).1, ?_⟩
    intro hnew hin hver hres hvalid
    rw [ProcessPNWinner_resolved s env winner pfrom state hnew hin hver hres] at hr
    simp only [hvalid, Bool.true_eq_false, if_false, hcan, if_true] at hr
    cases hr
    rfl

/-- Witness of C39 (amended): voter 3 is recorded for height 103; its second vote
for 103, for another P2PKH destination, is refused with "PN already voted". -/
theorem CanVote_latest_height_witness :
    ∃ r, ((CPatriotnodePayments.empty.RecordWinnerVote ⟨3, 0⟩ 103).AddWinningPatriotnode
          (exampleEnvScripts 102 40) (exampleVote 3 103 (exampleP2PKH 1))).ProcessPNWinner
        (exampleEnvScripts 102 40) (exampleVote 3 103 (exampleP2PKH 2)) none
        CValidationState.fresh = some r ∧
      r.ret = false ∧
      r.payments = (CPatriotnodePayments.empty.RecordWinnerVote ⟨3, 0⟩ 103).AddWinningPatriotnode
          (exampleEnvScripts 102 40) (exampleVote 3 103 (exampleP2PKH 1)) ∧
      r.state.GetRejectReason = "PN already voted" := by
  obtain ⟨r, hr, hret, hpay, hreason⟩ :=
    (CanVote_latest_height
      ((CPatriotnodePayments.empty.RecordWinnerVote ⟨3, 0⟩ 103).AddWinningPatriotnode
        (exampleEnvScripts 102 40) (exampleVote 3 103 (exampleP2PKH 1)))
      ⟨3, 0⟩ 103).2.2.2.2 []
      ((CPatriotnodePayments.empty.RecordWinnerVote ⟨3, 0⟩ 103).AddWinningPatriotnode
        (exampleEnvScripts 102 40) (exampleVote 3 103 (exampleP2PKH 1)))
      (by decide) (by intro _ _ _ _ h; cases h) rfl
      (exampleEnvScripts 102 40) (exampleVote 3 103 (exampleP2PKH 2)) none
      CValidationState.fresh rfl rfl
  exact ⟨r, hr, hret, hpay, hreason (by decide) (by decide) rfl (by decide) (by decide)⟩

/-! ## Claims on the position of the reward outputs -/

/-- Lowering an output of the front part of a list leaves an appended part alone. -/
theorem subtractAt_append (base extra : List CTxOut) (j : Nat) (amount : Int)
    (hj : j < base.length) :
    subtractAt (base ++ extra) j amount
      = (subtractAt base j amount).map (fun vout => vout ++ extra) := by
  unfold subtractAt
  have h1 : (base ++ extra)[j]? = some base[j] := by
    rw [List.getElem?_append_left hj, List.getElem?_eq_getElem hj]
  have h2 : base[j]? = some base[j] := List.getElem?_eq_getElem hj
  simp only [h1, h2, Option.map_some', Option.some.injEq]
  exact List.set_append_left _ _ hj

/-- The split loop on the front part of a list leaves an appended part alone. -/
theorem subtractLoop_append (mnPaymentSplit : Int) (j n : Nat) (base extra : List CTxOut)
    (h : j + n ≤ base.length) :
    subtractLoop mnPaymentSplit j n (base ++ extra)
      = (subtractLoop mnPaymentSplit j n base).map (fun vout => vout ++ extra) := by
  induction n generalizing j base with
  | zero => simp [subtractLoop]
  | succ n ih =>
    obtain ⟨v1, h1, _, hl⟩ := subtractAt_valueOut base j mnPaymentSplit (by omega)
    simp only [subtractLoop, subtractAt_append base extra j mnPaymentSplit (by omega), h1,
      Option.map_some']
    exact ih (j + 1) v1 (by omega)

/-- The split of the first `stakerOuts` outputs returns, keeps the number of
outputs and leaves outputs appended behind them alone. -/
theorem SubtractMnPaymentFromCoinstake_append (base extra : List CTxOut)
    (patriotnodePayment stakerOuts : Int) (hstaker : 2 ≤ stakerOuts)
    (hsize : stakerOuts ≤ base.length) :
    ∃ head, SubtractMnPaymentFromCoinstake ⟨base⟩ patriotnodePayment stakerOuts = some ⟨head⟩ ∧
      head.length = base.length ∧
      SubtractMnPaymentFromCoinstake ⟨base ++ extra⟩ patriotnodePayment stakerOuts
        = some ⟨head ++ extra⟩ := by
  unfold SubtractMnPaymentFromCoinstake
  have hassert : ¬ stakerOuts < 2 := by omega
  simp only [hassert, if_false]
  by_cases h2 : stakerOuts = 2
  · have hlen : 1 < base.length := by omega
    obtain ⟨v1, h1, _, hl⟩ := subtractAt_valueOut base 1 patriotnodePayment hlen
    refine ⟨v1, by simp [h2, h1], hl, ?_⟩
    simp [h2, subtractAt_append base extra 1 patriotnodePayment hlen, h1]
  · simp only [h2, if_false]
    have hout : 1 + (stakerOuts - 1).toNat ≤ base.length := by omega
    obtain ⟨v1, h1, _, hl1⟩ := subtractLoop_valueOut
      (Int.tdiv patriotnodePayment ((stakerOuts - 1).toNat : Int)) 1 (stakerOuts - 1).toNat
      base hout
    have hlast : (stakerOuts - 1).toNat < v1.length := by omega
    obtain ⟨v2, h3, _, hl2⟩ := subtractAt_valueOut v1 (stakerOuts - 1).toNat
      (patriotnodePayment - Int.tdiv patriotnodePayment ((stakerOuts - 1).toNat : Int)
        * ((stakerOuts - 1).toNat : Int)) hlast
    refine ⟨v2, ?_, by omega, ?_⟩
    · simp only [h1, h3, Option.map_some']
    · simp only [subtractLoop_append _ 1 _ base extra hout, h1, Option.map_some',
        subtractAt_append v1 extra _ _ hlast, h3]

/-- The total of the reward outputs that resolve: the payment, in legacy mode
always, under deterministic registration for a positive payment and an operator
fraction of at most 10000 basis points whose product with the payment fits the
64-bit `CAmount`. -/
theorem GetPatriotnodeTxOuts_total (self : CPatriotnodePayments) (env : ChainEnv)
    (pindexPrev : CBlockIndex) (vecMnOuts : List CTxOut)
    (hresolved : self.GetPatriotnodeTxOuts env pindexPrev [] = (true, vecMnOuts))
    (hrange : env.LegacyPNObsolete (pindexPrev.nHeight + 1) = true →
      0 < env.GetPatriotnodePayment ∧
      ∀ dmnPayee, env.GetPNPayee pindexPrev = some dmnPayee →
        dmnPayee.nOperatorReward ≤ 10000 ∧
        env.GetPatriotnodePayment * (dmnPayee.nOperatorReward : Int) < 9223372036854775808) :
    valueOut vecMnOuts = env.GetPatriotnodePayment := by
  unfold CPatriotnodePayments.GetPatriotnodeTxOuts at hresolved
  cases hobs : env.LegacyPNObsolete (pindexPrev.nHeight + 1) with
  | false =>
    simp only [hobs, Bool.false_eq_true, if_false,
      CPatriotnodePayments.GetLegacyPatriotnodeTxOut] at hresolved
    cases hp : self.GetBlockPayee (pindexPrev.nHeight + 1) with
    | some payee =>
      simp only [hp, Prod.mk.injEq, true_and] at hresolved
      rw [← hresolved]; simp [valueOut]
    | none =>
      have hsame : pindexPrev.nHeight + 1 - 1 = pindexPrev.nHeight := by omega
      rw [hsame] at hresolved
      cases hf : env.GetCurrentPatriotNodePayee pindexPrev.nHeight with
      | some payee =>
        simp only [hp, hf, Prod.mk.injEq, true_and] at hresolved
        rw [← hresolved]; simp [valueOut]
      | none => simp [hp, hf] at hresolved
  | true =>
    obtain ⟨hR, hb⟩ := hrange hobs
    simp only [hobs, if_true] at hresolved
    cases hp : env.GetPNPayee pindexPrev with
    | none => simp [hp] at hresolved
    | some dmnPayee =>
      obtain ⟨hb1, hfit⟩ := hb dmnPayee hp
      have hbu : (dmnPayee.nOperatorReward : Int) ≤ 10000 := by exact_mod_cast hb1
      have hprod : 0 ≤ env.GetPatriotnodePayment * (dmnPayee.nOperatorReward : Int) :=
        Int.mul_nonneg (le_of_lt hR) (Int.ofNat_nonneg _)
      have hwrap : wrapInt64 (env.GetPatriotnodePayment * (dmnPayee.nOperatorReward : Int))
          = env.GetPatriotnodePayment * (dmnPayee.nOperatorReward : Int) :=
        wrapInt64_of_fits _ (by omega) hfit
      have htdiv : Int.tdiv (env.GetPatriotnodePayment * (dmnPayee.nOperatorReward : Int)) 10000
          = env.GetPatriotnodePayment * (dmnPayee.nOperatorReward : Int) / 10000 :=
        Int.tdiv_eq_ediv hprod (by decide)
      have hq0 : 0 ≤ env.GetPatriotnodePayment * (dmnPayee.nOperatorReward : Int) / 10000 :=
        Int.ediv_nonneg hprod (by decide)
      have hqR : env.GetPatriotnodePayment * (dmnPayee.nOperatorReward : Int) / 10000
          ≤ env.GetPatriotnodePayment :=
        Int.ediv_le_of_le_mul (by decide)
          (Int.mul_le_mul_of_nonneg_left hbu (le_of_lt hR))
      simp only [hp, hwrap, htdiv, List.nil_append, Prod.mk.injEq, true_and] at hresolved
      rw [← hresolved]
      by_cases hc : dmnPayee.nOperatorReward ≠ 0 ∧ dmnPayee.scriptOperatorPayout ≠ []
      · have hpos : (1 : Int) ≤ (dmnPayee.nOperatorReward : Int) := by
          have := hc.1
          omega
        have hRle : env.GetPatriotnodePayment
            ≤ env.GetPatriotnodePayment * (dmnPayee.nOperatorReward : Int) :=
          le_mul_of_one_le_right (le_of_lt hR) hpos
        have hwrap2 : wrapInt64 (env.GetPatriotnodePayment
              - env.GetPatriotnodePayment * (dmnPayee.nOperatorReward : Int) / 10000)
            = env.GetPatriotnodePayment
              - env.GetPatriotnodePayment * (dmnPayee.nOperatorReward : Int) / 10000 :=
          wrapInt64_of_fits _ (by omega) (by omega)
        simp only [if_pos hc, hwrap2]
        by_cases h1 : env.GetPatriotnodePayment
            - env.GetPatriotnodePayment * (dmnPayee.nOperatorReward : Int) / 10000 > 0
        · by_cases h2 : env.GetPatriotnodePayment * (dmnPayee.nOperatorReward : Int) / 10000 > 0
          · simp [valueOut, h1, h2]
          · simp [valueOut, h1, h2]; omega
        · by_cases h2 : env.GetPatriotnodePayment * (dmnPayee.nOperatorReward : Int) / 10000 > 0
          · simp [valueOut, h1, h2]; omega
          · exfalso; omega
      · simp only [if_neg hc]
        simp [valueOut, hR]

/-- C36: when the reward outputs do not resolve, `FillBlockPayee` leaves both
transactions unchanged. When they resolve, they are appended in order to the end
of the paying transaction. Non-stake block: the coinbase keeps its scripts
followed by the reward scripts, so its last output pays the last reward output,
and a coinbase that had an output ends with the reward outputs themselves; the
coinstake is untouched. Proof-of-stake block without v6.0: the coinstake (of at
least two outputs, as the split asserts) ends with the reward outputs and the
coinbase is untouched. Proof-of-stake block with v6.0: the coinbase holds
exactly the reward outputs; their total is `GetPatriotnodePayment()`, in legacy
mode always and under deterministic registration for a positive payment, an
operator fraction that is a fraction (at most 10000 basis points) and a product
of the two that fits the 64-bit `CAmount`; `IsCoinbaseValueValid` then accepts
the coinbase as a regular block under enforcement. -/
theorem FillBlockPayee_appends_last (self : CPatriotnodePayments) (env : ChainEnv)
    (txCoinbase txCoinstake : CMutableTransaction) (pindexPrev : CBlockIndex) :
    ((self.GetPatriotnodeTxOuts env pindexPrev []).1 = false →
      ∀ fProofOfStake, self.FillBlockPayee env txCoinbase txCoinstake pindexPrev fProofOfStake
        = some (txCoinbase, txCoinstake)) ∧
    (∀ vecMnOuts, self.GetPatriotnodeTxOuts env pindexPrev [] = (true, vecMnOuts) →
      (txCoinbase.vout ++ vecMnOuts ≠ [] →
        ∃ vout, self.FillBlockPayee env txCoinbase txCoinstake pindexPrev false
            = some (⟨vout⟩, txCoinstake) ∧
          vout.map (fun out => out.scriptPubKey)
            = txCoinbase.vout.map (fun out => out.scriptPubKey)
              ++ vecMnOuts.map (fun out => out.scriptPubKey) ∧
          (txCoinbase.vout ≠ [] →
            ∃ head, head.length = txCoinbase.vout.length ∧ vout = head ++ vecMnOuts)) ∧
      (env.UpgradeV6Active (pindexPrev.nHeight + 1) = false → 2 ≤ txCoinstake.vout.length →
        ∃ head, head.length = txCoinstake.vout.length ∧
          self.FillBlockPayee env txCoinbase txCoinstake pindexPrev true
            = some (txCoinbase, ⟨head ++ vecMnOuts⟩)) ∧
      (env.UpgradeV6Active (pindexPrev.nHeight + 1) = true → 2 ≤ txCoinstake.vout.length →
        ∃ stake, stake.length = txCoinstake.vout.length ∧
          self.FillBlockPayee env txCoinbase txCoinstake pindexPrev true
            = some (⟨vecMnOuts⟩, ⟨stake⟩) ∧
          ((env.LegacyPNObsolete (pindexPrev.nHeight + 1) = true →
              0 < env.GetPatriotnodePayment ∧
              ∀ dmnPayee, env.GetPNPayee pindexPrev = some dmnPayee →
                dmnPayee.nOperatorReward ≤ 10000 ∧
                env.GetPatriotnodePayment * (dmnPayee.nOperatorReward : Int)
                  < 9223372036854775808) →
            valueOut vecMnOuts = env.GetPatriotnodePayment ∧
            (env.Spork8Active = true → ∀ (nBudgetAmt : Int) (state : CValidationState),
              nBudgetAmt ≤ 0 →
              IsCoinbaseValueValid env ⟨vecMnOuts⟩ true nBudgetAmt state
                = some (true, state))))) := by
  refine ⟨?_, ?_⟩
  · intro hres fProofOfStake
    simp [CPatriotnodePayments.FillBlockPayee, hres]
  · intro vecMnOuts hres
    refine ⟨?_, ?_, ?_⟩
    · intro hne
      unfold CPatriotnodePayments.FillBlockPayee
      simp only [hres, Bool.true_eq_false, if_false, Bool.false_and, Bool.false_eq_true,
        appendMnOuts_eq, assignAt, zero_add]
      cases hlist : txCoinbase.vout ++ vecMnOuts with
      | nil => exact absurd hlist hne
      | cons first others =>
        refine ⟨⟨env.GetBlockValue (pindexPrev.nHeight + 1) - valueOut vecMnOuts,
          first.scriptPubKey⟩ :: others, by simp, ?_, ?_⟩
        · have hmap : (txCoinbase.vout ++ vecMnOuts).map (fun out => out.scriptPubKey)
              = (first :: others).map (fun out => out.scriptPubKey) := by rw [hlist]
          rw [List.map_append] at hmap
          rw [hmap]
          simp
        · intro hcb
          cases hcbv : txCoinbase.vout with
          | nil => exact absurd hcbv hcb
          | cons out0 rest =>
            rw [hcbv, List.cons_append] at hlist
            simp only [List.cons.injEq] at hlist
            obtain ⟨h1, h2⟩ := hlist
            refine ⟨⟨env.GetBlockValue (pindexPrev.nHeight + 1) - valueOut vecMnOuts,
              first.scriptPubKey⟩ :: rest, by simp, ?_⟩
            simp [h2]
    · intro hv6 hlen
      obtain ⟨head, _, hl, happ⟩ := SubtractMnPaymentFromCoinstake_append txCoinstake.vout
        vecMnOuts (valueOut vecMnOuts) (txCoinstake.vout.length : Int) (by omega) (le_refl _)
      refine ⟨head, hl, ?_⟩
      unfold CPatriotnodePayments.FillBlockPayee
      simp only [hres, Bool.true_eq_false, if_false, hv6, Bool.not_false, Bool.and_self,
        Bool.not_true, Bool.and_false, Bool.false_eq_true, appendMnOuts_eq, if_true, zero_add,
        happ, Option.map_some']
    · intro hv6 hlen
      obtain ⟨stake, hsub, hl, _⟩ := SubtractMnPaymentFromCoinstake_append txCoinstake.vout
        [] (valueOut vecMnOuts) (txCoinstake.vout.length : Int) (by omega) (le_refl _)
      refine ⟨stake, hl, ?_, ?_⟩
      · unfold CPatriotnodePayments.FillBlockPayee
        simp only [hres, Bool.true_eq_false, if_false, hv6, Bool.not_true, Bool.and_false,
          Bool.not_false, Bool.and_self, Bool.false_eq_true, appendMnOuts_eq, if_true,
          List.nil_append, zero_add, hsub, Option.map_some']
      · intro hrange
        have htotal := GetPatriotnodeTxOuts_total self env pindexPrev vecMnOuts hres hrange
        refine ⟨htotal, ?_⟩
        intro h8 nBudgetAmt state hbudget
        unfold IsCoinbaseValueValid
        have hb : ¬ nBudgetAmt > 0 := not_lt.mpr hbudget
        cases hs : env.IsSynced <;> simp [hb, h8, htotal]

/-- Witness of C36: after the single vote of the unit test the coinbase of a
non-stake block ends with the reward output to `[5]`; for a proof-of-stake block
with v6.0 active and the operator fraction of 2500 basis points the coinbase
holds the outputs of 8 and 2, which total the payment of 10 and pass
`IsCoinbaseValueValid`. -/
theorem FillBlockPayee_appends_last_witness :
    (∃ vout, (CPatriotnodePayments.empty.AddWinningPatriotnode (exampleEnv 102 40)
          (exampleVote 3 103 [5])).FillBlockPayee exampleChainEnv ⟨[⟨100, [1]⟩]⟩ ⟨[]⟩
          ⟨102, 0⟩ false = some (⟨vout⟩, ⟨[]⟩) ∧
      vout.map (fun out => out.scriptPubKey) = [[1]] ++ [[5]] ∧
      (([⟨100, [1]⟩] : List CTxOut) ≠ [] →
        ∃ head, head.length = 1 ∧ vout = head ++ [⟨3, [5]⟩])) ∧
    CPatriotnodePayments.empty.FillBlockPayee exampleDmnEnv ⟨[⟨50, [1]⟩]⟩
        ⟨[⟨0, []⟩, ⟨100, [2]⟩]⟩ ⟨102, 0⟩ true
      = some (⟨[⟨8, [8]⟩, ⟨2, [9]⟩]⟩, ⟨[⟨0, []⟩, ⟨90, [2]⟩]⟩) ∧
    valueOut [⟨8, [8]⟩, ⟨2, [9]⟩] = exampleDmnEnv.GetPatriotnodePayment ∧
    IsCoinbaseValueValid exampleDmnEnv ⟨[⟨8, [8]⟩, ⟨2, [9]⟩]⟩ true 0 CValidationState.fresh
      = some (true, CValidationState.fresh) :=
  ⟨((FillBlockPayee_appends_last
      (CPatriotnodePayments.empty.AddWinningPatriotnode (exampleEnv 102 40)
        (exampleVote 3 103 [5])) exampleChainEnv ⟨[⟨100, [1]⟩]⟩ ⟨[]⟩ ⟨102, 0⟩).2
      [⟨3, [5]⟩] (by decide)).1 (by decide),
    by decide,
    by
      obtain ⟨_, _, _, htotal⟩ := ((FillBlockPayee_appends_last CPatriotnodePayments.empty
        exampleDmnEnv ⟨[⟨50, [1]⟩]⟩ ⟨[⟨0, []⟩, ⟨100, [2]⟩]⟩ ⟨102, 0⟩).2
        [⟨8, [8]⟩, ⟨2, [9]⟩] (by decide)).2.2 (by decide) (by decide)
      exact (htotal (fun _ => ⟨by decide, fun dmnPayee hpayee => by
        have hd : dmnPayee = ⟨2500, [9], [8]⟩ := (Option.some.inj hpayee).symm
        subst hd
        exact ⟨by decide, by decide⟩⟩)).1,
    by
      obtain ⟨_, _, _, htotal⟩ := ((FillBlockPayee_appends_last CPatriotnodePayments.empty
        exampleDmnEnv ⟨[⟨50, [1]⟩]⟩ ⟨[⟨0, []⟩, ⟨100, [2]⟩]⟩ ⟨102, 0⟩).2
        [⟨8, [8]⟩, ⟨2, [9]⟩] (by decide)).2.2 (by decide) (by decide)
      exact (htotal (fun _ => ⟨by decide, fun dmnPayee hpayee => by
        have hd : dmnPayee = ⟨2500, [9], [8]⟩ := (Option.some.inj hpayee).symm
        subst hd
        exact ⟨by decide, by decide⟩⟩)).2 (by decide) 0 CValidationState.fresh (le_refl 0)⟩

/-! ## Claims on `ProcessBlock` -/

/-- When the conditions hold, `ProcessBlock` stores the signed vote with
`AddWinningPatriotnode`, relays it and sets `nLastBlockHeight`. -/
theorem ProcessBlock_of_castsVote (self : CPatriotnodePayments) (benv : BlockEnv) (env : Env)
    (nBlockHeight : Int) (mnVin : CTxIn) (mnKey : Option CKey) (blsKey : CBLSSecretKey)
    (payee : CScript) (vchSig : List Nat)
    (h : castsVote self benv env nBlockHeight mnVin mnKey blsKey payee vchSig) :
    self.ProcessBlock benv env nBlockHeight =
      ({ self.AddWinningPatriotnode env (newWinnerSigned mnVin nBlockHeight payee vchSig) with
          nLastBlockHeight := nBlockHeight },
        [Effect.RelayInv ((newWinnerSigned mnVin nBlockHeight payee vchSig).GetHash env)]) := by
  obtain ⟨h1, h2, h3, h4, h5, h6, h7, h8, h9, h10⟩ := h
  unfold CPatriotnodePayments.ProcessBlock
  have h5' : ¬ env.GetPatriotnodeRank mnVin (nBlockHeight - 100) > PNPAYMENTS_SIGNATURES_TOTAL :=
    not_lt.mpr h5
  have h6' : ¬ nBlockHeight ≤ self.nLastBlockHeight := not_le.mpr h6
  have h8' : ¬ nBlockHeight - 100 > env.GetBestHeight + 1 := not_lt.mpr h8
  simp only [h1, h2, h3, h4, h5', h6', h7, h8', h9, Bool.false_eq_true, Bool.true_eq_false,
    if_false]
  cases mnKey with
  | some key =>
    simp only at h10
    simp only [h10]
  | none =>
    simp only at h10
    simp only [h10]

/-- Case analysis of `ProcessBlock`: nothing happens, or the conditions hold for
the vote it stores. -/
theorem ProcessBlock_cases (self : CPatriotnodePayments) (benv : BlockEnv) (env : Env)
    (nBlockHeight : Int) :
    self.ProcessBlock benv env nBlockHeight = (self, []) ∨
    ∃ mnVin mnKey blsKey payee vchSig,
      castsVote self benv env nBlockHeight mnVin mnKey blsKey payee vchSig := by
  unfold CPatriotnodePayments.ProcessBlock castsVote
  cases h1 : benv.LegacyPNObsolete with
  | true => left; simp
  | false =>
    cases h2 : benv.fPatriotNode with
    | false => left; simp
    | true =>
      cases h3 : benv.GetActivePatriotnodeKeys with
      | none => left; simp
      | some keys =>
        obtain ⟨mnVin, mnKey, blsKey⟩ := keys
        by_cases h4 : env.GetPatriotnodeRank mnVin (nBlockHeight - 100) = -1
        · left; simp [h4]
        · by_cases h5 : env.GetPatriotnodeRank mnVin (nBlockHeight - 100)
              > PNPAYMENTS_SIGNATURES_TOTAL
          · left; simp [h4, h5]
          · by_cases h6 : nBlockHeight ≤ self.nLastBlockHeight
            · left; simp [h4, h5, h6]
            · cases h7 : benv.IsBudgetPaymentBlock nBlockHeight with
              | true => left; simp [h4, h5, h6]
              | false =>
                by_cases h8 : nBlockHeight - 100 > env.GetBestHeight + 1
                · left; simp [h4, h5, h6, h8]
                · cases h9 : benv.GetNextPatriotnodeInQueueForPayment nBlockHeight with
                  | none => left; simp [h4, h5, h6, h8]
                  | some payee =>
                    cases h10 : (match mnKey with
                        | some key =>
                          benv.SignKey (newWinnerSigned mnVin nBlockHeight payee []) key
                        | none =>
                          benv.SignBLS (newWinnerSigned mnVin nBlockHeight payee []) blsKey) with
                    | none =>
                      left
                      simp only [h4, h5, h6, h8, Bool.false_eq_true, Bool.true_eq_false,
                        if_false, h10]
                    | some vchSig =>
                      right
                      exact ⟨mnVin, mnKey, blsKey, payee, vchSig, rfl, rfl, rfl, h4,
                        not_lt.mp h5, not_le.mp h6, rfl, not_lt.mp h8, rfl, h10⟩


/-- One call of `StoreCall` never writes `nLastBlockHeight`. -/
theorem runCalls_single_nLastBlockHeight (self s : CPatriotnodePayments) (call : StoreCall)
    (h : runCalls self [call] = some s) : s.nLastBlockHeight = self.nLastBlockHeight := by
  cases call with
  | vote env winner pfrom state =>
    simp only [runCalls] at h
    cases hp : self.ProcessPNWinner env winner pfrom state with
    | none => simp [hp] at h
    | some r =>
      simp only [hp, Option.some.injEq] at h
      rw [← h]
      cases hret : r.ret with
      | false => rw [(ProcessPNWinner_false_frame self env winner pfrom state r hp hret).1]
      | true =>
        rw [(ProcessPNWinner_true self env winner pfrom state r hp hret).2]
        rfl
  | clean mnCount nHeight =>
    simp only [runCalls, Option.some.injEq] at h
    rw [← h]
    exact (CleanPaymentList_frame self mnCount nHeight).2

/-- What `ProcessBlock` does to `nLastBlockHeight`: nothing when it relays
nothing; else it raises it to the height of the call. -/
theorem ProcessBlock_nLastBlockHeight (self : CPatriotnodePayments) (benv : BlockEnv)
    (env : Env) (nBlockHeight : Int) :
    ((self.ProcessBlock benv env nBlockHeight).2 = [] →
      self.ProcessBlock benv env nBlockHeight = (self, [])) ∧
    ((self.ProcessBlock benv env nBlockHeight).2 ≠ [] →
      (self.ProcessBlock benv env nBlockHeight).1.nLastBlockHeight = nBlockHeight ∧
      self.nLastBlockHeight < nBlockHeight) := by
  rcases ProcessBlock_cases self benv env nBlockHeight with h | ⟨v, k, b, p, sig, h⟩
  · rw [h]; simp
  · rw [ProcessBlock_of_castsVote self benv env nBlockHeight v k b p sig h]
    exact ⟨by simp, fun _ => ⟨rfl, h.2.2.2.2.2.1⟩⟩

/-- Over every sequence of calls the heights of the own votes increase strictly
and `nLastBlockHeight` never decreases. -/
theorem runNodeCalls_cast (calls : List NodeCall) (self s : CPatriotnodePayments)
    (cast : List Int) (hrun : runNodeCalls self calls = some (s, cast)) :
    cast.Pairwise (fun a b => a < b) ∧
    (∀ h ∈ cast, self.nLastBlockHeight < h ∧ h ≤ s.nLastBlockHeight) ∧
    self.nLastBlockHeight ≤ s.nLastBlockHeight := by
  induction calls generalizing self cast with
  | nil =>
    simp only [runNodeCalls, Option.some.injEq, Prod.mk.injEq] at hrun
    obtain ⟨h1, h2⟩ := hrun
    subst h1; subst h2
    simp
  | cons c rest ih =>
    cases c with
    | store call =>
      simp only [runNodeCalls] at hrun
      cases hs : runCalls self [call] with
      | none => simp [hs] at hrun
      | some s1 =>
        simp only [hs] at hrun
        have hn := runCalls_single_nLastBlockHeight self s1 call hs
        have := ih s1 cast hrun
        rw [hn] at this
        exact this
    | block benv env nBlockHeight =>
      simp only [runNodeCalls] at hrun
      cases hr : runNodeCalls (self.ProcessBlock benv env nBlockHeight).1 rest with
      | none => simp [hr] at hrun
      | some res =>
        obtain ⟨s2, cast2⟩ := res
        simp only [hr, Option.some.injEq, Prod.mk.injEq] at hrun
        obtain ⟨hs, hcast⟩ := hrun
        subst hs
        obtain ⟨ih1, ih2, ih3⟩ := ih _ cast2 hr
        obtain ⟨hnone, hsome⟩ := ProcessBlock_nLastBlockHeight self benv env nBlockHeight
        by_cases hrel : (self.ProcessBlock benv env nBlockHeight).2 = []
        · rw [if_pos hrel] at hcast
          subst hcast
          rw [hnone hrel] at ih2 ih3
          exact ⟨ih1, ih2, ih3⟩
        · rw [if_neg hrel] at hcast
          subst hcast
          obtain ⟨hlast, hlt⟩ := hsome hrel
          rw [hlast] at ih2 ih3
          refine ⟨List.pairwise_cons.mpr ⟨fun h hh => (ih2 h hh).1, ih1⟩, ?_, by omega⟩
          intro h hh
          rcases List.mem_cons.mp hh with rfl | hmem
          · exact ⟨hlt, ih3⟩
          · have := ih2 h hmem
            exact ⟨by omega, this.2⟩

/-- C32: `ProcessBlock(h)` casts the own vote exactly when the legacy system is
not obsolete, the node runs a patriotnode with available keys, its rank at
`h - 100` is registered and at most `PNPAYMENTS_SIGNATURES_TOTAL`,
`h > nLastBlockHeight`, `h` is not a budget payment height,
`h - 100 <= best height + 1`, a next-queued node exists and signing succeeds:
then the vote is stored and relayed and `nLastBlockHeight` becomes `h`. If any
condition fails, the store (ledger, tallies, cursor and `nLastBlockHeight`) is
unchanged and nothing is relayed. Hence over every sequence of calls
`nLastBlockHeight` never decreases and the heights of the own votes increase
strictly, so that the node casts at most one own vote per height. -/
theorem ProcessBlock_own_vote (self : CPatriotnodePayments) (benv : BlockEnv) (env : Env)
    (nBlockHeight : Int) :
    (∀ mnVin mnKey blsKey payee vchSig,
      castsVote self benv env nBlockHeight mnVin mnKey blsKey payee vchSig →
      self.ProcessBlock benv env nBlockHeight =
        ({ self.AddWinningPatriotnode env (newWinnerSigned mnVin nBlockHeight payee vchSig) with
            nLastBlockHeight := nBlockHeight },
          [Effect.RelayInv
            ((newWinnerSigned mnVin nBlockHeight payee vchSig).GetHash env)])) ∧
    ((¬ ∃ mnVin mnKey blsKey payee vchSig,
        castsVote self benv env nBlockHeight mnVin mnKey blsKey payee vchSig) →
      self.ProcessBlock benv env nBlockHeight = (self, [])) ∧
    self.nLastBlockHeight ≤ (self.ProcessBlock benv env nBlockHeight).1.nLastBlockHeight ∧
    (∀ (calls : List NodeCall) (s : CPatriotnodePayments) (cast : List Int),
      runNodeCalls self calls = some (s, cast) →
      self.nLastBlockHeight ≤ s.nLastBlockHeight ∧
      cast.Pairwise (fun a b => a < b) ∧ cast.Nodup) := by
  refine ⟨ProcessBlock_of_castsVote self benv env nBlockHeight, ?_, ?_, ?_⟩
  · intro hnot
    rcases ProcessBlock_cases self benv env nBlockHeight with h | h
    · exact h
    · exact absurd h hnot
  · obtain ⟨hnone, hsome⟩ := ProcessBlock_nLastBlockHeight self benv env nBlockHeight
    by_cases hrel : (self.ProcessBlock benv env nBlockHeight).2 = []
    · rw [hnone hrel]
    · obtain ⟨h1, h2⟩ := hsome hrel
      omega
  · intro calls s cast hrun
    obtain ⟨h1, _, h3⟩ := runNodeCalls_cast calls self s cast hrun
    refine ⟨h3, h1, ?_⟩
    exact h1.imp (fun h => ne_of_lt h)

/-- Witness of C32: the node with collateral hash 3, ranked third, casts its vote
for height 103 at best height 102; a second call for height 103 changes nothing. -/
theorem ProcessBlock_own_vote_witness :
    CPatriotnodePayments.empty.ProcessBlock exampleBlockEnv (exampleEnv 102 40) 103 =
      ({ CPatriotnodePayments.empty.AddWinningPatriotnode (exampleEnv 102 40)
            (newWinnerSigned ⟨⟨3, 0⟩, [], 0⟩ 103 [5] [1]) with nLastBlockHeight := 103 },
        [Effect.RelayInv
          ((newWinnerSigned ⟨⟨3, 0⟩, [], 0⟩ 103 [5] [1]).GetHash (exampleEnv 102 40))]) ∧
    runNodeCalls CPatriotnodePayments.empty
        [NodeCall.block exampleBlockEnv (exampleEnv 102 40) 103,
          NodeCall.block exampleBlockEnv (exampleEnv 102 40) 103,
          NodeCall.block exampleBlockEnv (exampleEnv 103 40) 104]
      = some (((CPatriotnodePayments.empty.ProcessBlock exampleBlockEnv (exampleEnv 102 40)
          103).1.ProcessBlock exampleBlockEnv (exampleEnv 103 40) 104).1, [103, 104]) :=
  ⟨(ProcessBlock_own_vote CPatriotnodePayments.empty exampleBlockEnv (exampleEnv 102 40)
      103).1 ⟨⟨3, 0⟩, [], 0⟩ (some 7) 0 [5] [1]
      ⟨rfl, rfl, rfl, by decide, by decide, by decide, rfl, by decide, rfl, rfl⟩,
    by decide⟩


/-- Counterexample to C33 as stated: the node with collateral hash 3 casts its
vote for height 103 with `ProcessBlock`; afterwards the cursor has no entry for
the voter, whereas `ProcessPNWinner` on the same vote from the same state
succeeds and leaves the cursor of the voter at 103. So after `ProcessBlock` a
second vote of the voter for height 103, for `[6]`, is still accepted, and after
`ProcessPNWinner` it is refused with "PN already voted". -/
theorem ProcessBlock_cursor_not_recorded :
    (CPatriotnodePayments.empty.ProcessBlock exampleBlockEnv (exampleEnv 102 40) 103).2
      = [Effect.RelayInv ((exampleVote 3 103 [5]).GetHash (exampleEnv 102 40))] ∧
    newWinnerSigned ⟨⟨3, 0⟩, [], 0⟩ 103 [5] [1] = exampleVote 3 103 [5] ∧
    mapFind (CPatriotnodePayments.empty.ProcessBlock exampleBlockEnv (exampleEnv 102 40)
      103).1.mapPatriotnodesLastVote ⟨3, 0⟩ = none ∧
    (CPatriotnodePayments.empty.ProcessPNWinner (exampleEnv 102 40) (exampleVote 3 103 [5])
        none CValidationState.fresh).map
      (fun r => (r.ret, mapFind r.payments.mapPatriotnodesLastVote ⟨3, 0⟩))
      = some (true, some 103) ∧
    ((CPatriotnodePayments.empty.ProcessBlock exampleBlockEnv (exampleEnv 102 40)
        103).1.ProcessPNWinner (exampleEnv 102 40) (exampleVote 3 103 [6]) none
        CValidationState.fresh).map (fun r => r.ret) = some true ∧
    ((CPatriotnodePayments.empty.ProcessPNWinner (exampleEnv 102 40) (exampleVote 3 103 [5])
        none CValidationState.fresh).bind
      (fun first => first.payments.ProcessPNWinner (exampleEnv 102 40) (exampleVote 3 103 [6])
        none CValidationState.fresh)).map (fun r => (r.ret, r.state.GetRejectReason))
      = some (false, "PN already voted") := by
  decide

/-- C33 (amended): whenever `ProcessBlock` casts a vote `w` for height `H`, the
resulting ledger and tallies are those a successful `ProcessPNWinner(w)` produces
from the same state, but the anti-replay cursor is left as it was (`ProcessBlock`
does not call `RecordWinnerVote`), whereas `ProcessPNWinner(w)` sets the cursor
of the voter to `H`; the vote is relayed and `nLastBlockHeight` becomes `H`. -/
theorem ProcessBlock_records_like_ProcessPNWinner (self : CPatriotnodePayments)
    (benv : BlockEnv) (env : Env) (nBlockHeight : Int)
    (hcast : (self.ProcessBlock benv env nBlockHeight).2 ≠ []) :
    ∃ winner : CPatriotnodePaymentWinner,
      winner.nBlockHeight = nBlockHeight ∧
      (self.ProcessBlock benv env nBlockHeight).2 = [Effect.RelayInv (winner.GetHash env)] ∧
      (self.ProcessBlock benv env nBlockHeight).1 =
        { self.AddWinningPatriotnode env winner with nLastBlockHeight := nBlockHeight } ∧
      (self.ProcessBlock benv env nBlockHeight).1.mapPatriotnodesLastVote
        = self.mapPatriotnodesLastVote ∧
      ∀ (pfrom : Option NodeId) (state : CValidationState) (r : PNWResult),
        self.ProcessPNWinner env winner pfrom state = some r → r.ret = true →
        (self.ProcessBlock benv env nBlockHeight).1.mapPatriotnodePayeeVotes
          = r.payments.mapPatriotnodePayeeVotes ∧
        (self.ProcessBlock benv env nBlockHeight).1.mapPatriotnodeBlocks
          = r.payments.mapPatriotnodeBlocks ∧
        mapFind r.payments.mapPatriotnodesLastVote winner.vinPatriotnode.prevout
          = some nBlockHeight := by
  rcases ProcessBlock_cases self benv env nBlockHeight with h | ⟨v, k, b, p, sig, h⟩
  · rw [h] at hcast; exact absurd rfl hcast
  · have hres := ProcessBlock_of_castsVote self benv env nBlockHeight v k b p sig h
    refine ⟨newWinnerSigned v nBlockHeight p sig, rfl, by rw [hres], by rw [hres],
      by rw [hres]; rfl, ?_⟩
    intro pfrom state r hr hret
    have hstore := (ProcessPNWinner_true self env (newWinnerSigned v nBlockHeight p sig)
      pfrom state r hr hret).2
    rw [hres, hstore]
    refine ⟨rfl, rfl, ?_⟩
    exact mapFind_mapInsert_self _ _ _ _

/-- Witness of C33 (amended): the own vote of the node with collateral hash 3 for
height 103. -/
theorem ProcessBlock_records_like_ProcessPNWinner_witness :
    ∃ winner : CPatriotnodePaymentWinner,
      winner.nBlockHeight = 103 ∧
      (CPatriotnodePayments.empty.ProcessBlock exampleBlockEnv (exampleEnv 102 40) 103).2
        = [Effect.RelayInv (winner.GetHash (exampleEnv 102 40))] ∧
      (CPatriotnodePayments.empty.ProcessBlock exampleBlockEnv (exampleEnv 102 40) 103).1 =
        { CPatriotnodePayments.empty.AddWinningPatriotnode (exampleEnv 102 40) winner with
          nLastBlockHeight := 103 } ∧
      (CPatriotnodePayments.empty.ProcessBlock exampleBlockEnv (exampleEnv 102 40)
        103).1.mapPatriotnodesLastVote = CPatriotnodePayments.empty.mapPatriotnodesLastVote ∧
      ∀ (pfrom : Option NodeId) (state : CValidationState) (r : PNWResult),
        CPatriotnodePayments.empty.ProcessPNWinner (exampleEnv 102 40) winner pfrom state
          = some r → r.ret = true →
        (CPatriotnodePayments.empty.ProcessBlock exampleBlockEnv (exampleEnv 102 40)
          103).1.mapPatriotnodePayeeVotes = r.payments.mapPatriotnodePayeeVotes ∧
        (CPatriotnodePayments.empty.ProcessBlock exampleBlockEnv (exampleEnv 102 40)
          103).1.mapPatriotnodeBlocks = r.payments.mapPatriotnodeBlocks ∧
        mapFind r.payments.mapPatriotnodesLastVote winner.vinPatriotnode.prevout = some 103 :=
  ProcessBlock_records_like_ProcessPNWinner CPatriotnodePayments.empty exampleBlockEnv
    (exampleEnv 102 40) 103 (by decide)

/-! ## Claims on the sync request -/

/-- The number of `Sync` answers in a concatenation of calls. -/
theorem syncAnswersTo_append (peer : NodeId) (a b : List MessageEffect) :
    syncAnswersTo peer (a ++ b) = syncAnswersTo peer a + syncAnswersTo peer b := by
  simp [syncAnswersTo, List.filter_append]

/-- The calls of `ProcessPNWinner` hold no `Sync` answer. -/
theorem syncAnswersTo_FromVote (peer : NodeId) (hash : uint256) (effects : List Effect) :
    syncAnswersTo peer
      (MessageEffect.RemoveAskFor hash :: effects.map MessageEffect.FromVote) = 0 := by
  induction effects with
  | nil => simp [syncAnswersTo]
  | cons e rest ih =>
    simp only [syncAnswersTo, List.map_cons, List.filter_cons, Bool.false_eq_true, if_false,
      List.length_eq_zero] at ih ⊢
    exact ih

/-- One message on the main network: the marks stay, a marked peer gets no `Sync`
answer, and a peer that gets an answer is marked afterwards. -/
theorem ProcessMessage_main_step (self next : PaymentsNode) (menv : MessageEnv)
    (pfrom : CNode) (message : PaymentsMessage) (effects : List MessageEffect)
    (hmain : menv.NetworkIsMain = true)
    (hstep : ProcessMessagePatriotnodePayments self menv pfrom message = some (next, effects))
    (peer : NodeId) :
    (peer ∈ self.fulfilledGetWinners → peer ∈ next.fulfilledGetWinners) ∧
    (peer ∈ self.fulfilledGetWinners → syncAnswersTo peer effects = 0) ∧
    syncAnswersTo peer effects ≤ 1 ∧
    (syncAnswersTo peer effects = 1 → peer ∈ next.fulfilledGetWinners) := by
  unfold ProcessMessagePatriotnodePayments at hstep
  by_cases hgate : menv.IsBlockchainSynced = false ∨ menv.fLiteMode = true
      ∨ menv.LegacyPNObsolete = true
  · have hsame : some (self, ([] : List MessageEffect)) = some (next, effects) := by
      rcases hgate with h | h | h
      · simpa [h] using hstep
      · by_cases h0 : menv.IsBlockchainSynced = false
        · simpa [h0] using hstep
        · simpa [h0, h] using hstep
      · by_cases h0 : menv.IsBlockchainSynced = false
        · simpa [h0] using hstep
        · by_cases h1 : menv.fLiteMode = true
          · simpa [h0, h1] using hstep
          · simpa [h0, h1, h] using hstep
    simp only [Option.some.injEq, Prod.mk.injEq] at hsame
    obtain ⟨h1, h2⟩ := hsame
    subst h1; subst h2
    simp [syncAnswersTo]
  · have g1 : ¬ menv.IsBlockchainSynced = false := fun h => hgate (Or.inl h)
    have g2 : ¬ menv.fLiteMode = true := fun h => hgate (Or.inr (Or.inl h))
    have g3 : ¬ menv.LegacyPNObsolete = true := fun h => hgate (Or.inr (Or.inr h))
    simp only [g1, g2, g3, if_false] at hstep
    cases message with
    | GETPNWINNERS nCountNeeded =>
      simp only [hmain, true_and] at hstep
      by_cases hful : pfrom.id ∈ self.fulfilledGetWinners
      · simp only [hful, if_true, Option.some.injEq, Prod.mk.injEq] at hstep
        obtain ⟨rfl, rfl⟩ := hstep
        simp [syncAnswersTo]
      · simp only [hful, if_false, Option.some.injEq, Prod.mk.injEq] at hstep
        obtain ⟨rfl, rfl⟩ := hstep
        by_cases hp : pfrom.id = peer
        · subst hp
          simp [syncAnswersTo, hful]
        · simp [syncAnswersTo, hp]
          intro h; exact Or.inr h
    | PNWINNER winner =>
      by_cases hver : pfrom.nVersion < menv.ActiveProtocol
      · simp only [hver, if_true, Option.some.injEq, Prod.mk.injEq] at hstep
        obtain ⟨rfl, rfl⟩ := hstep
        simp [syncAnswersTo]
      · simp only [hver, if_false] at hstep
        cases hp : self.payments.ProcessPNWinner menv.voteEnv winner (some pfrom.id)
            CValidationState.fresh with
        | none => simp [hp] at hstep
        | some r =>
          simp only [hp, Option.some.injEq, Prod.mk.injEq] at hstep
          obtain ⟨rfl, rfl⟩ := hstep
          rw [syncAnswersTo_FromVote]
          simp
    | other =>
      simp only [Option.some.injEq, Prod.mk.injEq] at hstep
      obtain ⟨rfl, rfl⟩ := hstep
      simp [syncAnswersTo]

/-- On the main network a peer gets at most one `Sync` answer over any sequence
of messages, and none once it is marked. -/
theorem runMessages_main (messages : List (MessageEnv × CNode × PaymentsMessage))
    (self final : PaymentsNode) (effects : List MessageEffect)
    (hmain : ∀ m ∈ messages, m.1.NetworkIsMain = true)
    (hrun : runMessages self messages = some (final, effects)) (peer : NodeId) :
    syncAnswersTo peer effects ≤ 1 ∧
    (peer ∈ self.fulfilledGetWinners → syncAnswersTo peer effects = 0) := by
  induction messages generalizing self final effects with
  | nil =>
    simp only [runMessages, Option.some.injEq, Prod.mk.injEq] at hrun
    obtain ⟨_, rfl⟩ := hrun
    simp [syncAnswersTo]
  | cons m rest ih =>
    obtain ⟨menv, pfrom, message⟩ := m
    simp only [runMessages] at hrun
    cases hstep : ProcessMessagePatriotnodePayments self menv pfrom message with
    | none => simp [hstep] at hrun
    | some res =>
      obtain ⟨next, first⟩ := res
      simp only [hstep] at hrun
      cases hrest : runMessages next rest with
      | none => simp [hrest] at hrun
      | some res2 =>
        obtain ⟨final2, later⟩ := res2
        simp only [hrest, Option.some.injEq, Prod.mk.injEq] at hrun
        obtain ⟨_, rfl⟩ := hrun
        have hm : menv.NetworkIsMain = true := hmain (menv, pfrom, message)
          (List.mem_cons_self _ _)
        obtain ⟨s1, s2, s3, s4⟩ := ProcessMessage_main_step self next menv pfrom message first
          hm hstep peer
        obtain ⟨i1, i2⟩ := ih next _ later
          (fun m hmem => hmain m (List.mem_cons_of_mem _ hmem)) hrest
        rw [syncAnswersTo_append]
        refine ⟨?_, ?_⟩
        · by_cases hone : syncAnswersTo peer first = 1
          · have := i2 (s4 hone)
            omega
          · omega
        · intro hful
          have h1 := s2 hful
          have h2 := i2 (s1 hful)
          omega

/-- Counterexample to C31 as stated: off the main network peer 9 asks twice for
the votes; both requests are answered with the ten votes of the unit test and
the peer is not penalized. -/
theorem ProcessMessage_repeat_served_off_main :
    (runMessages ⟨exampleTallyStore, []⟩
        [(exampleMessageEnv false, ⟨9, 70920⟩, PaymentsMessage.GETPNWINNERS 6),
          (exampleMessageEnv false, ⟨9, 70920⟩, PaymentsMessage.GETPNWINNERS 6)]).map
      (fun r => (syncAnswersTo 9 r.2, r.2.length,
        decide (MessageEffect.Misbehaving 9 20 ∈ r.2))) = some (2, 2, false) := by
  decide


/-- C31 (amended): a vote-sync request is processed only while the blockchain is
synced, lite mode is off and the legacy system is not obsolete; otherwise it is
dropped without answer, mark or penalty. On the main network a processed
request from a peer that was already served is refused and penalizes the peer by
20, so that over every sequence of messages a peer gets at most one answer, and
none once it is marked. Off the main network every processed request is
answered, repeated or not, and the peer is not penalized. An answer leaves the
store unchanged and marks the peer. -/
theorem ProcessMessage_sync_once (self : PaymentsNode) (menv : MessageEnv) (pfrom : CNode)
    (nCountNeeded : Int) :
    ((menv.IsBlockchainSynced = false ∨ menv.fLiteMode = true ∨ menv.LegacyPNObsolete = true) →
      ProcessMessagePatriotnodePayments self menv pfrom
        (PaymentsMessage.GETPNWINNERS nCountNeeded) = some (self, [])) ∧
    (menv.IsBlockchainSynced = true → menv.fLiteMode = false → menv.LegacyPNObsolete = false →
      (menv.NetworkIsMain = true → pfrom.id ∈ self.fulfilledGetWinners →
        ProcessMessagePatriotnodePayments self menv pfrom
          (PaymentsMessage.GETPNWINNERS nCountNeeded)
          = some (self, [MessageEffect.Misbehaving pfrom.id 20])) ∧
      ((menv.NetworkIsMain = false ∨ pfrom.id ∉ self.fulfilledGetWinners) →
        ∃ next, ProcessMessagePatriotnodePayments self menv pfrom
            (PaymentsMessage.GETPNWINNERS nCountNeeded)
            = some (next, [MessageEffect.SyncAnswer pfrom.id
                (self.payments.Sync menv.voteEnv pfrom.id nCountNeeded).inventory
                (self.payments.Sync menv.voteEnv pfrom.id nCountNeeded).nInvCount]) ∧
          next.payments = self.payments ∧ pfrom.id ∈ next.fulfilledGetWinners ∧
          ∀ peer ∈ self.fulfilledGetWinners, peer ∈ next.fulfilledGetWinners)) ∧
    (∀ (messages : List (MessageEnv × CNode × PaymentsMessage)) (final : PaymentsNode)
        (effects : List MessageEffect),
      (∀ m ∈ messages, m.1.NetworkIsMain = true) →
      runMessages self messages = some (final, effects) →
      ∀ peer, syncAnswersTo peer effects ≤ 1 ∧
        (peer ∈ self.fulfilledGetWinners → syncAnswersTo peer effects = 0)) := by
  refine ⟨?_, ?_, ?_⟩
  · intro hgate
    unfold ProcessMessagePatriotnodePayments
    rcases hgate with h | h | h
    · simp [h]
    · by_cases h0 : menv.IsBlockchainSynced = false
      · simp [h0]
      · simp [h0, h]
    · by_cases h0 : menv.IsBlockchainSynced = false
      · simp [h0]
      · by_cases h1 : menv.fLiteMode = true
        · simp [h0, h1]
        · simp [h0, h1, h]
  · intro g1 g2 g3
    refine ⟨?_, ?_⟩
    · intro hmain hful
      simp [ProcessMessagePatriotnodePayments, g1, g2, g3, hmain, hful]
    · intro hserve
      have hcond : ¬ (menv.NetworkIsMain = true ∧ pfrom.id ∈ self.fulfilledGetWinners) := by
        rintro ⟨hm, hf⟩
        rcases hserve with h | h
        · rw [hm] at h; exact absurd h (by decide)
        · exact h hf
      refine ⟨⟨(self.payments.Sync menv.voteEnv pfrom.id nCountNeeded).payments,
        if pfrom.id ∈ self.fulfilledGetWinners then self.fulfilledGetWinners
        else pfrom.id :: self.fulfilledGetWinners⟩, ?_, rfl, ?_, ?_⟩
      · unfold ProcessMessagePatriotnodePayments
        simp only [g1, g2, g3, Bool.true_eq_false, Bool.false_eq_true, if_false, hcond]
      · by_cases hf : pfrom.id ∈ self.fulfilledGetWinners
        · simp [hf]
        · simp [hf]
      · intro peer hpeer
        by_cases hf : pfrom.id ∈ self.fulfilledGetWinners
        · simp [hf, hpeer]
        · simp [hf, hpeer]
  · intro messages final effects hmain hrun peer
    exact runMessages_main messages self final effects hmain hrun peer

/-- Witness of C31 (amended): on the main network peer 9 asks twice; the first
request is answered, the second is refused with a penalty of 20. -/
theorem ProcessMessage_sync_once_witness :
    (runMessages ⟨exampleTallyStore, []⟩
        [(exampleMessageEnv true, ⟨9, 70920⟩, PaymentsMessage.GETPNWINNERS 6),
          (exampleMessageEnv true, ⟨9, 70920⟩, PaymentsMessage.GETPNWINNERS 6)]).map
      (fun r => (syncAnswersTo 9 r.2, r.2.length,
        decide (MessageEffect.Misbehaving 9 20 ∈ r.2))) = some (1, 2, true) ∧
    ProcessMessagePatriotnodePayments ⟨exampleTallyStore, [9]⟩ (exampleMessageEnv true)
        ⟨9, 70920⟩ (PaymentsMessage.GETPNWINNERS 6)
      = some (⟨exampleTallyStore, [9]⟩, [MessageEffect.Misbehaving 9 20]) :=
  ⟨by decide,
    ((ProcessMessage_sync_once ⟨exampleTallyStore, [9]⟩ (exampleMessageEnv true) ⟨9, 70920⟩
      6).2.1 rfl rfl rfl).1 rfl (by decide)⟩

end PatriotnodePayments
